import Mathlib

/-!
# ElyAnalyzer: scoring, achievements, rate limiting, the hub, validation and the run

A shallow embedding of `backend/analysis_service.go` and of the rate limiter and the
connection hub of `backend/main.go`.

Modelling conventions.

* A Go `float64` is modelled by the rational it denotes, and every arithmetic
  operation on floats rounds its exact result with `f64`: binary64, round to nearest,
  halfway cases to the even significand.  Infinities, NaN and subnormal results are
  not modelled; they do not arise from 64-bit integers, penalties and scores between
  0 and 100.
* Go `int` is modelled by `Int`.  Where a result can leave the 64-bit range, in
  `NewPaginatedResponse` and in the tripled limit of `rateLimitMiddleware`, the two's
  complement wrap-around is explicit.
* A Go `map` has an unspecified iteration order.  The order in which a `range`
  loop visits the keys is an explicit argument of the embedded function.
* Wall-clock fields (`CreatedAt`, `EarnedAt`) are not modelled.
* A `time.Time` is modelled by its nanoseconds since the Unix epoch; the current time
  is an argument of the embedded function.
* A Go `string` is modelled by a Lean `String`, its indices by character positions.
* A header value printed with `%d` is modelled by the printed integer.
-/

namespace ElyAnalyzer

/-! ## Data model (`shared/types/analysis.go`, `backend/analysis_service.go`) -/

/-- Issue represents a detected problem (`types.Issue`). -/
structure Issue where
  Type' : String
  Severity : String
  Description : String
  File : String
  Line : Int
  Suggestion : String
deriving DecidableEq, Repr

def SeverityLow : String := "low"
def SeverityMedium : String := "medium"
def SeverityHigh : String := "high"
def SeverityCritical : String := "critical"
def SeverityInfo : String := "info"

/-- Go `math.Round`: the nearest integer, halfway cases away from zero. -/
def mathRound (x : ℚ) : ℚ :=
  if 0 ≤ x then ((⌊x + 1 / 2⌋ : Int) : ℚ) else -((⌊-x + 1 / 2⌋ : Int) : ℚ)

/-- Rounding of a rational to an integer, halfway cases to the even neighbour. -/
def roundHalfEven (x : ℚ) : Int :=
  if x - (⌊x⌋ : ℚ) < 1 / 2 then ⌊x⌋
  else if 1 / 2 < x - (⌊x⌋ : ℚ) then ⌊x⌋ + 1
  else if ⌊x⌋ % 2 = 0 then ⌊x⌋ else ⌊x⌋ + 1

/-- The binade of a non-zero rational: the exponent `e` with `2^e ≤ |x| < 2^(e+1)`. -/
def binade (x : ℚ) : Int := Int.log 2 |x|

/-- The `float64` nearest to a rational: IEEE 754 binary64 rounding of an exact result
(53 significant bits, round to nearest, halfway cases to the even significand).  The
exponent is not bounded: overflow to an infinity and subnormal results are not
modelled. -/
def f64 (x : ℚ) : ℚ :=
  if x = 0 then 0
  else (roundHalfEven (x / (2 : ℚ) ^ (binade x - 52)) : ℚ) * (2 : ℚ) ^ (binade x - 52)

/-- One iteration of the penalty loop of `calculateCategoryScore`: the `switch` on
the severity of one issue. -/
def penaltyStep (penalty : ℚ) (issue : Issue) : ℚ :=
  if issue.Severity = SeverityCritical then f64 (penalty + 15)
  else if issue.Severity = SeverityHigh then f64 (penalty + 10)
  else if issue.Severity = SeverityMedium then f64 (penalty + 5)
  else if issue.Severity = SeverityLow then f64 (penalty + 2)
  else penalty

/-- The function `calculateCategoryScore` of `analysis_service.go`. -/
def calculateCategoryScore (issues : List Issue) (maxScore : Int) : ℚ :=
  if issues.length = 0 then
    f64 (maxScore : ℚ)
  else
    let penalty := issues.foldl penaltyStep 0
    let score := f64 (f64 (maxScore : ℚ) - penalty)
    let score := if score < 0 then 0 else score
    f64 (mathRound (f64 (score * 100)) / 100)

/-- An issue of the given severity, all other fields empty. -/
def issueOfSeverity (sev : String) : Issue :=
  { Type' := "", Severity := sev, Description := "", File := "", Line := 0, Suggestion := "" }

/-- An issue with the given type tag, severity and suggestion, other fields empty. -/
def mkIssue (type severity suggestion : String) : Issue :=
  { Type' := type, Severity := severity, Description := "", File := "", Line := 0,
    Suggestion := suggestion }

/-- Number of findings of `L` whose severity is `sev`. -/
def severityCount (sev : String) (L : List Issue) : Nat :=
  L.countP (fun i => decide (i.Severity = sev))

/-- Rounding to two decimal places, halves away from zero. -/
def roundTo2 (x : ℚ) : ℚ := mathRound (x * 100) / 100

/-- Reference definition of the category score, following the specification text:
`maxScore` on the empty list; otherwise `max(0, maxScore - (15c + 10h + 5m + 2l))`
rounded to two decimals. -/
def categoryScoreSpec (L : List Issue) (maxScore : Int) : ℚ :=
  match L with
  | [] => (maxScore : ℚ)
  | _ :: _ =>
    roundTo2 (max 0 ((maxScore : ℚ) -
      (15 * (severityCount "critical" L : ℚ) + 10 * (severityCount "high" L : ℚ)
        + 5 * (severityCount "medium" L : ℚ) + 2 * (severityCount "low" L : ℚ))))

/-- Total penalty of a finding list: 15 per critical, 10 per high, 5 per medium and
2 per low finding. -/
def totalPenalty (L : List Issue) : Nat :=
  15 * severityCount "critical" L + 10 * severityCount "high" L
    + 5 * severityCount "medium" L + 2 * severityCount "low" L

/-- CategoryScore represents a category-specific analysis result. -/
structure CategoryScore where
  CategoryID : String
  CategoryName : String
  DisplayName : String
  Score : ℚ
  MaxScore : Int
  IssueCount : Int
  CriticalIssues : Int
  WarningIssues : Int
  InfoIssues : Int
  Improvements : List String
  Trend : String
  Icon : String
deriving DecidableEq, Repr

/-- Achievement represents user achievements. -/
structure Achievement where
  ID : String
  UserID : String
  AchievementType : String
  Category : String
  Title : String
  Description : String
  Icon : String
  ProjectID : String
deriving DecidableEq, Repr

/-- A catalog entry of `CategoryDefinitions`: only the four fields the literal sets,
all others are the Go zero values. -/
def categoryDefinition (name display icon : String) : CategoryScore :=
  { CategoryID := "", CategoryName := name, DisplayName := display, Score := 0,
    MaxScore := 100, IssueCount := 0, CriticalIssues := 0, WarningIssues := 0,
    InfoIssues := 0, Improvements := [], Trend := "", Icon := icon }

/-- CategoryDefinitions maps category names to their metadata.  The Go map is given
as its list of key/value pairs in source order. -/
def CategoryDefinitions : List (String × CategoryScore) :=
  [ ("security", categoryDefinition "security" "Security Analysis" "🔒"),
    ("code_quality", categoryDefinition "code_quality" "Code Quality" "🧪"),
    ("performance", categoryDefinition "performance" "Performance" "🚀"),
    ("compliance", categoryDefinition "compliance" "Compliance" "⚖️"),
    ("accessibility", categoryDefinition "accessibility" "Accessibility" "♿"),
    ("mobile_crossplatform",
      categoryDefinition "mobile_crossplatform" "Mobile & Cross-Platform" "📱"),
    ("documentation", categoryDefinition "documentation" "Documentation" "📚"),
    ("testing", categoryDefinition "testing" "Testing" "🧪"),
    ("logging", categoryDefinition "logging" "Logging" "📝") ]

/-- The nine category names of the fixed catalog. -/
def catalogNames : List String :=
  ["security", "code_quality", "performance", "compliance", "accessibility",
   "mobile_crossplatform", "documentation", "testing", "logging"]

/-- The static table `categoryMap` of `mapIssueTypeToCategory`. -/
def categoryMap : List (String × String) :=
  [ -- Security issues
    ("input_validation_missing", "security"),
    ("sql_injection_risk", "security"),
    ("xss_vulnerability", "security"),
    ("csrf_vulnerability", "security"),
    ("insecure_data_storage", "security"),
    ("secret_exposure", "security"),
    ("https_missing", "security"),
    -- Code quality issues
    ("code_duplication", "code_quality"),
    ("high_cyclomatic_complexity", "code_quality"),
    ("solid_principle_violation", "code_quality"),
    ("refactor_needed", "code_quality"),
    ("typescript_type_error", "code_quality"),
    -- Performance issues
    ("performance_issue", "performance"),
    ("memory_leak_risk", "performance"),
    ("slow_database_query", "performance"),
    ("caching_missing", "performance"),
    ("performance_bottleneck", "performance"),
    -- Compliance issues
    ("gdpr_violation", "compliance"),
    ("compliance_issue", "compliance"),
    ("privacy_policy_missing", "compliance"),
    ("legal_risk", "compliance"),
    -- Accessibility issues
    ("accessibility_issue", "accessibility"),
    ("contrast_issue", "accessibility"),
    -- Mobile & Cross-Platform issues
    ("missing_platform_check", "mobile_crossplatform"),
    ("missing_safe_area", "mobile_crossplatform"),
    ("hardcoded_dimensions", "mobile_crossplatform"),
    ("missing_keyboard_handling", "mobile_crossplatform"),
    ("missing_service_worker", "mobile_crossplatform"),
    ("missing_install_prompt", "mobile_crossplatform"),
    ("missing_pwa_manifest", "mobile_crossplatform"),
    ("missing_manifest_field", "mobile_crossplatform"),
    ("missing_icon_size", "mobile_crossplatform"),
    ("missing_pwa_dependencies", "mobile_crossplatform"),
    ("missing_responsive_hooks", "mobile_crossplatform"),
    ("desktop_first_approach", "mobile_crossplatform"),
    ("non_standard_breakpoints", "mobile_crossplatform"),
    ("excessive_px_units", "mobile_crossplatform"),
    ("not_mobile_first", "mobile_crossplatform"),
    ("heavy_library_import", "mobile_crossplatform"),
    ("missing_lazy_loading", "mobile_crossplatform"),
    ("missing_virtualization", "mobile_crossplatform"),
    ("missing_touch_feedback", "mobile_crossplatform"),
    ("missing_gesture_handling", "mobile_crossplatform"),
    ("small_touch_target", "mobile_crossplatform"),
    ("missing_orientation_handling", "mobile_crossplatform"),
    ("missing_viewport_meta", "mobile_crossplatform"),
    ("incorrect_viewport_width", "mobile_crossplatform"),
    ("missing_initial_scale", "mobile_crossplatform"),
    ("missing_apple_meta", "mobile_crossplatform"),
    ("missing_auto_layout", "mobile_crossplatform"),
    ("missing_accessibility_swift", "mobile_crossplatform"),
    ("non_responsive_android_layout", "mobile_crossplatform"),
    ("missing_content_description", "mobile_crossplatform"),
    ("non_responsive_flutter_widget", "mobile_crossplatform"),
    ("missing_flutter_semantics", "mobile_crossplatform"),
    ("missing_responsive_flutter", "mobile_crossplatform"),
    ("missing_mobile_testing", "mobile_crossplatform"),
    ("mobile_compatibility_issue", "mobile_crossplatform"),
    -- Mobile Accessibility Issues
    ("missing_mobile_a11y", "mobile_crossplatform"),
    ("missing_aria_labels", "mobile_crossplatform"),
    ("missing_semantic_html", "mobile_crossplatform"),
    ("missing_focus_management", "mobile_crossplatform"),
    -- Network & Connectivity Issues
    ("missing_offline_handling", "mobile_crossplatform"),
    ("missing_network_retry", "mobile_crossplatform"),
    ("missing_connection_check", "mobile_crossplatform"),
    ("missing_cache_strategy", "mobile_crossplatform"),
    -- Battery & Performance Issues
    ("battery_drain_risk", "mobile_crossplatform"),
    ("excessive_animations", "mobile_crossplatform"),
    ("missing_request_animation_frame", "mobile_crossplatform"),
    ("background_processing_issue", "mobile_crossplatform"),
    -- Mobile Security Issues
    ("missing_csp_mobile", "mobile_crossplatform"),
    ("insecure_mobile_storage", "mobile_crossplatform"),
    ("missing_cert_pinning", "mobile_crossplatform"),
    ("missing_data_encryption", "mobile_crossplatform"),
    -- Cross-Platform State Management
    ("inconsistent_state_management", "mobile_crossplatform"),
    ("missing_state_abstraction", "mobile_crossplatform"),
    ("platform_specific_state", "mobile_crossplatform"),
    -- Documentation issues
    ("documentation_missing", "documentation"),
    ("api_documentation_missing", "documentation"),
    ("documentation_quality_issue", "documentation"),
    -- Testing issues
    ("test_missing", "testing"),
    ("low_test_coverage", "testing"),
    ("ci_pipeline_missing", "testing"),
    -- Logging issues
    ("insufficient_logging", "logging"),
    ("pii_exposure_in_logs", "logging"),
    ("wrong_log_level", "logging"),
    ("monitoring_missing", "logging") ]

/-- Lookup `categoryMap[issueType]` with the comma-ok idiom: the value of the first
pair whose key is `issueType`, if any. -/
def mapLookup (table : List (String × String)) (key : String) : Option String :=
  match table with
  | [] => none
  | (k, v) :: rest => if k = key then some v else mapLookup rest key

/-- The function `mapIssueTypeToCategory` maps issue types to categories. -/
def mapIssueTypeToCategory (issueType : String) : String :=
  match mapLookup categoryMap issueType with
  | some category => category
  | none => "code_quality"

/-- The function `calculateOverallScore` calculates the overall project score. -/
def calculateOverallScore (categoryScores : List CategoryScore) : ℚ :=
  if categoryScores.length = 0 then
    0
  else
    let totalScore := categoryScores.foldl (fun total score => f64 (total + score.Score)) 0
    f64 (mathRound (f64 (f64 (totalScore / f64 (categoryScores.length : ℚ)) * 100)) / 100)

/-- Reference definition of the overall score, following the specification text:
`0` without categories, otherwise the arithmetic mean of the `Score` fields rounded
to two decimals. -/
def overallScoreSpec (categoryScores : List CategoryScore) : ℚ :=
  match categoryScores with
  | [] => 0
  | _ :: _ =>
    roundTo2 ((categoryScores.map (fun s => s.Score)).sum / (categoryScores.length : ℚ))

/-! ### Improvement suggestions -/

def maxImprovements : Nat := 5

/-- One iteration of the first loop of `generateImprovements`.  The Go map
`improvements : map[string]bool` only ever stores `true`; it is modelled by the list of
its keys in insertion order, so assigning an existing key changes nothing. -/
def improvementsInsert (improvements : List String) (issue : Issue) : List String :=
  if issue.Suggestion ≠ "" ∧ improvements.length < maxImprovements * 2 then
    if issue.Suggestion ∈ improvements then improvements
    else improvements ++ [issue.Suggestion]
  else improvements

/-- The second loop of `generateImprovements`: visit the keys in the given order,
stop as soon as `count >= maxImprovements`. -/
def collectImprovements : List String → List String → Nat → List String
  | [], result, _ => result
  | improvement :: rest, result, count =>
    if count ≥ maxImprovements then result
    else collectImprovements rest (result ++ [improvement]) (count + 1)

/-- The function `generateImprovements`.  `rangeKeys m` is the order in which
`range` visits the keys of the map `m`. -/
def generateImprovements (rangeKeys : List String → List String) (issues : List Issue) :
    List String :=
  if issues.length = 0 then
    []
  else
    let improvements := issues.foldl improvementsInsert []
    collectImprovements (rangeKeys improvements) [] 0

/-- A `range` order is admissible when it visits every key exactly once. -/
def ValidRange (rangeKeys : List String → List String) : Prop :=
  ∀ m : List String, (rangeKeys m).Perm m

/-- The distinct non-empty suggestions of a finding list. -/
def distinctSuggestions (issues : List Issue) : Finset String :=
  ((issues.map (fun i => i.Suggestion)).filter (fun s => decide (s ≠ ""))).toFinset

/-! ### Category aggregation -/

/-- One iteration of the grouping loop of `calculateCategoryScores`.  The Go map
`categoryIssues : map[string][]Issue` is modelled by its lookup function, an absent
key reading as the empty slice. -/
def groupStep (categoryIssues : String → List Issue) (issue : Issue) :
    String → List Issue :=
  let category := mapIssueTypeToCategory issue.Type'
  Function.update categoryIssues category (categoryIssues category ++ [issue])

/-- The three counters of the inner loop of `calculateCategoryScores`. -/
structure SeverityCounters where
  criticalCount : Int
  warningCount : Int
  infoCount : Int
deriving DecidableEq, Repr

/-- One iteration of the counting loop: the `switch` on the severity. -/
def countStep (c : SeverityCounters) (issue : Issue) : SeverityCounters :=
  if issue.Severity = SeverityCritical ∨ issue.Severity = SeverityHigh then
    { c with criticalCount := c.criticalCount + 1 }
  else if issue.Severity = SeverityMedium then
    { c with warningCount := c.warningCount + 1 }
  else if issue.Severity = SeverityLow then
    { c with infoCount := c.infoCount + 1 }
  else c

/-- The body of the catalog loop of `calculateCategoryScores` for one catalog entry. -/
def categoryScoreFor (rangeKeys : List String → List String)
    (categoryIssues : String → List Issue) (categoryName : String)
    (definition : CategoryScore) : CategoryScore :=
  let issues := categoryIssues categoryName
  let score := calculateCategoryScore issues definition.MaxScore
  let counters := issues.foldl countStep { criticalCount := 0, warningCount := 0, infoCount := 0 }
  { CategoryID := "",
    CategoryName := categoryName,
    DisplayName := definition.DisplayName,
    Score := score,
    MaxScore := definition.MaxScore,
    IssueCount := (issues.length : Int),
    CriticalIssues := counters.criticalCount,
    WarningIssues := counters.warningCount,
    InfoIssues := counters.infoCount,
    Improvements := generateImprovements rangeKeys issues,
    Trend := "",
    Icon := definition.Icon }

/-- The function `calculateCategoryScores`.  `catalogOrder` is the order in which
`range CategoryDefinitions` visits the catalog, `rangeKeys` the order used by
`generateImprovements`. -/
def calculateCategoryScores (catalogOrder : List (String × CategoryScore))
    (rangeKeys : List String → List String) (issues : List Issue) : List CategoryScore :=
  let categoryIssues := issues.foldl groupStep (fun _ => [])
  catalogOrder.foldl
    (fun categoryScores entry =>
      categoryScores ++ [categoryScoreFor rangeKeys categoryIssues entry.1 entry.2])
    []

/-- The findings of `issues` that the classifier puts in `category`. -/
def issuesOfCategory (category : String) (issues : List Issue) : List Issue :=
  issues.filter (fun i => decide (mapIssueTypeToCategory i.Type' = category))

/-! ### Achievements -/

/-- The persistence collaborator as the achievement evaluator uses it, over a store
state `σ`: `getAchievements` is `makeRequest("GET", endpoint, ...)` followed by
`json.Unmarshal` into `[]Achievement`; `postAchievement` is
`makeRequest("POST", "achievements", ...)`, which fails or yields the next state. -/
structure SupabaseClient (σ : Type) where
  getAchievements : σ → String → Except String (List Achievement)
  postAchievement : σ → Achievement → Except String σ

/-- The function `checkAchievementExists`: returns `(len(achievements) > 0, nil)`, or
the error of the request or of the decoding. -/
def checkAchievementExists {σ : Type} (client : SupabaseClient σ) (db : σ)
    (userID achievementType category : String) : Except String Bool :=
  let endpoint := "achievements?user_id=eq." ++ userID ++ "&achievement_type=eq."
    ++ achievementType ++ "&category=eq." ++ category
  match client.getAchievements db endpoint with
  | Except.error err => Except.error err
  | Except.ok achievements => Except.ok (decide (achievements.length > 0))

/-- The function `saveAchievement`: the store after the POST, or the error. -/
def saveAchievement {σ : Type} (client : SupabaseClient σ) (db : σ)
    (achievement : Achievement) : Except String σ :=
  client.postAchievement db achievement

/-- The `category_master` candidate built by `checkAchievements` for one score. -/
def categoryMasterAchievement (userID projectID : String) (score : CategoryScore) :
    Achievement :=
  { ID := "",
    UserID := userID,
    AchievementType := "category_master",
    Category := score.CategoryName,
    Title := score.DisplayName ++ " Master",
    Description := "Achieved 90+ score in " ++ score.DisplayName,
    Icon := "🏆",
    ProjectID := projectID }

/-- The `perfect_<category>` candidate built by `checkAchievements` for one score. -/
def perfectAchievement (userID projectID : String) (score : CategoryScore) : Achievement :=
  { ID := "",
    UserID := userID,
    AchievementType := "perfect_" ++ score.CategoryName,
    Category := score.CategoryName,
    Title := "Perfect " ++ score.DisplayName,
    Description := "Achieved perfect score in " ++ score.DisplayName ++ "!",
    Icon := "🌟",
    ProjectID := projectID }

/-- The `if err == nil && !exists { newAchievements = append(...) }` step. -/
def appendIfNew {σ : Type} (client : SupabaseClient σ) (db : σ) (userID : String)
    (newAchievements : List Achievement) (achievement : Achievement) : List Achievement :=
  match checkAchievementExists client db userID achievement.AchievementType
      achievement.Category with
  | Except.ok false => newAchievements ++ [achievement]
  | _ => newAchievements

/-- The candidate-achievement loop body of `checkAchievements` for one score. -/
def achievementsFor {σ : Type} (client : SupabaseClient σ) (db : σ)
    (userID projectID : String) (newAchievements : List Achievement)
    (score : CategoryScore) : List Achievement :=
  -- Check for category mastery (score >= 90)
  let newAchievements :=
    if score.Score ≥ 90 then
      appendIfNew client db userID newAchievements
        (categoryMasterAchievement userID projectID score)
    else newAchievements
  -- Check for perfect scores
  if score.Score = 100 then
    appendIfNew client db userID newAchievements (perfectAchievement userID projectID score)
  else newAchievements

/-- The condition under which the loop body of `checkAchievements` appends `a` for
`score`: the mastery rule or the perfect-score rule fires and the lookup reports
that the candidate is not yet earned. -/
def Earns {σ : Type} (client : SupabaseClient σ) (db : σ) (userID projectID : String)
    (score : CategoryScore) (a : Achievement) : Prop :=
  (score.Score ≥ 90 ∧ a = categoryMasterAchievement userID projectID score
      ∧ checkAchievementExists client db userID "category_master" score.CategoryName
        = Except.ok false)
  ∨ (score.Score = 100 ∧ a = perfectAchievement userID projectID score
      ∧ checkAchievementExists client db userID ("perfect_" ++ score.CategoryName)
        score.CategoryName = Except.ok false)

/-- The save loop of `checkAchievements`: a failed save is logged and skipped. -/
def saveAll {σ : Type} (client : SupabaseClient σ) (db : σ)
    (newAchievements : List Achievement) : σ :=
  newAchievements.foldl
    (fun db achievement =>
      match saveAchievement client db achievement with
      | Except.ok db' => db'
      | Except.error _ => db)
    db

/-- The function `checkAchievements` checks and awards new achievements: the returned
achievements (the error result is always `nil`) and the store after the saves.  The
third string argument (the scan id) is ignored, as in the source. -/
def checkAchievements {σ : Type} (client : SupabaseClient σ) (db : σ)
    (userID projectID _scanID : String) (categoryScores : List CategoryScore) :
    List Achievement × σ :=
  let newAchievements := categoryScores.foldl (achievementsFor client db userID projectID) []
  (newAchievements, saveAll client db newAchievements)

/-- The filter query string that `checkAchievementExists` sends for a natural key. -/
def achievementEndpoint (userID achievementType category : String) : String :=
  "achievements?user_id=eq." ++ userID ++ "&achievement_type=eq."
    ++ achievementType ++ "&category=eq." ++ category

/-- An in-memory stand-in for the `achievements` collection of the persistence
collaborator.  The store is the list of saved records; a GET answers with the records
whose `(user_id, achievement_type, category)` build the queried filter string; a POST
appends the record and never fails. -/
def memoryClient : SupabaseClient (List Achievement) where
  getAchievements := fun db endpoint =>
    Except.ok (db.filter (fun a =>
      decide (achievementEndpoint a.UserID a.AchievementType a.Category = endpoint)))
  postAchievement := fun db a => Except.ok (db ++ [a])

/-- A collaborator that can be unreachable.  The state is a reachability flag and the
saved records; while the flag is `false` every request fails, otherwise it behaves as
`memoryClient`. -/
def flakyClient : SupabaseClient (Bool × List Achievement) where
  getAchievements := fun db endpoint =>
    if db.1 then memoryClient.getAchievements db.2 endpoint
    else Except.error "connection refused"
  postAchievement := fun db a =>
    if db.1 then Except.ok (db.1, db.2 ++ [a])
    else Except.error "connection refused"

/-- A category score with the given name, score and maximum, other fields empty. -/
def mkScore (name : String) (score : ℚ) (maxScore : Int) : CategoryScore :=
  { CategoryID := "", CategoryName := name, DisplayName := name, Score := score,
    MaxScore := maxScore, IssueCount := 0, CriticalIssues := 0, WarningIssues := 0,
    InfoIssues := 0, Improvements := [], Trend := "", Icon := "" }

/-! ### Client identification (`getClientIP`, `backend/main.go`) -/

/-- The fields of an `*http.Request` that the rate limiter reads: `r.URL.Path`, the
values `r.Header.Get` returns for the two proxy headers (empty when absent) and
`r.RemoteAddr`. -/
structure Request where
  Path : String
  XForwardedFor : String
  XRealIP : String
  RemoteAddr : String
deriving DecidableEq, Repr

/-- Go `strings.Split(s, sep)` for a one-character separator: the pieces between the
separators, always at least one piece. -/
def stringsSplit : List Char → Char → List (List Char)
  | [], _ => [[]]
  | c :: cs, sep =>
    if c = sep then [] :: stringsSplit cs sep
    else
      match stringsSplit cs sep with
      | [] => [[c]]
      | piece :: pieces => (c :: piece) :: pieces

/-- Go `unicode.IsSpace`: the code points with the Unicode White_Space property. -/
def isSpace (c : Char) : Bool :=
  let n := c.toNat
  (9 ≤ n && n ≤ 13) || n = 32 || n = 133 || n = 160 || n = 5760
    || (8192 ≤ n && n ≤ 8202) || n = 8232 || n = 8233 || n = 8239 || n = 8287 || n = 12288

/-- Go `strings.TrimSpace`: all leading and trailing white space removed. -/
def stringsTrimSpace (s : List Char) : List Char :=
  ((s.dropWhile isSpace).reverse.dropWhile isSpace).reverse

/-- Go `strings.LastIndex(s, sep)` for a one-character separator: the index of the
last occurrence of `sep` in `s`, or `-1`. -/
def stringsLastIndex : List Char → Char → Int
  | [], _ => -1
  | c :: cs, sep =>
    let rest := stringsLastIndex cs sep
    if rest ≠ -1 then rest + 1
    else if c = sep then 0
    else -1

/-- The function `getClientIP`: get client IP address. -/
def getClientIP (r : Request) : String :=
  -- Check X-Forwarded-For header
  let forwarded := r.XForwardedFor
  if forwarded ≠ "" then
    -- Take the first IP in the chain
    let ips := stringsSplit forwarded.data ','
    String.mk (stringsTrimSpace (ips.headD []))
  else
    -- Check X-Real-IP header
    let realIP := r.XRealIP
    if realIP ≠ "" then realIP
    else
      -- Fall back to RemoteAddr
      let ip := r.RemoteAddr
      let colonPos := stringsLastIndex ip.data ':'
      if colonPos ≠ -1 then String.mk (ip.data.take colonPos.toNat) else ip

/-! ### Rate limiter (`rateLimitMiddleware`, `backend/main.go`) -/

/-- The value a 64-bit Go `int` holds after an arithmetic result `x`: two's complement
wrap-around into `[-2^63, 2^63)`. -/
def wrapInt64 (x : Int) : Int := Int.bmod x 18446744073709551616

/-- Rate limiting storage entry. -/
structure RateLimitEntry where
  Count : Int
  LastReset : Int
deriving DecidableEq, Repr

/-- The map `rateLimitStore : map[string]*RateLimitEntry`, by its lookup function. -/
def RateLimitStore : Type := String → Option RateLimitEntry

/-- The empty store `make(map[string]*RateLimitEntry)`. -/
def emptyStore : RateLimitStore := fun _ => none

/-- Go `time.Minute`, in nanoseconds. -/
def timeMinute : Int := 60 * 1000000000

/-- Go `Time.Unix`: whole seconds since the epoch. -/
def unixSeconds (t : Int) : Int := t / 1000000000

/-- What the middleware does to the response: whether `next(w, r)` is called, the
status the middleware writes itself (`http.Error`), and the headers it sets with
`w.Header().Set`, in order. -/
structure RateLimitResponse where
  nextCalled : Bool
  statusCode : Option Int
  headers : List (String × Int)
deriving DecidableEq, Repr

def StatusTooManyRequests : Int := 429

/-- The locked section of `rateLimitMiddleware` (from `rateLimitMutex.Lock()` on), for
the client key `clientIP`, the time `now` and the limit `rateLimitValue`. -/
def rateLimitStep (rateLimitStore : RateLimitStore) (clientIP : String) (now : Int)
    (rateLimitValue : Int) : RateLimitStore × RateLimitResponse :=
  let reset : RateLimitStore × RateLimitResponse :=
    (Function.update rateLimitStore clientIP (some { Count := 1, LastReset := now }),
      { nextCalled := true, statusCode := none, headers := [] })
  match rateLimitStore clientIP with
  | none => reset
  | some entry =>
    if now - entry.LastReset > timeMinute then reset
    else if entry.Count ≥ rateLimitValue then
      (rateLimitStore,
        { nextCalled := false,
          statusCode := some StatusTooManyRequests,
          headers := [("X-RateLimit-Limit", rateLimitValue),
            ("X-RateLimit-Remaining", 0),
            ("X-RateLimit-Reset", unixSeconds (entry.LastReset + timeMinute))] })
    else
      let entry : RateLimitEntry := { entry with Count := entry.Count + 1 }
      let remaining := rateLimitValue - entry.Count
      (Function.update rateLimitStore clientIP (some entry),
        { nextCalled := true,
          statusCode := none,
          headers := [("X-RateLimit-Limit", rateLimitValue),
            ("X-RateLimit-Remaining", remaining),
            ("X-RateLimit-Reset", unixSeconds (entry.LastReset + timeMinute))] })

/-- The limit `rateLimitValue` that `rateLimitMiddleware` applies to a path. -/
def rateLimitValueFor (RateLimitRPM : Int) (path : String) : Int :=
  if path = "/api/download/info" then wrapInt64 (RateLimitRPM * 3) else RateLimitRPM

/-- The function `rateLimitMiddleware` for the configured `config.RateLimitRPM`. -/
def rateLimitMiddleware (RateLimitRPM : Int) (rateLimitStore : RateLimitStore) (now : Int)
    (r : Request) : RateLimitStore × RateLimitResponse :=
  -- Skip rate limiting for health check only
  if r.Path = "/health" then
    (rateLimitStore, { nextCalled := true, statusCode := none, headers := [] })
  else
    let clientIP := getClientIP r
    -- Special rate limit for download info (higher limit for public endpoint)
    let rateLimitValue := rateLimitValueFor RateLimitRPM r.Path
    rateLimitStep rateLimitStore clientIP now rateLimitValue

/-- A request for `path` whose client key is `remote` (no proxy headers, no port). -/
def mkRequest (path remote : String) : Request :=
  { Path := path, XForwardedFor := "", XRealIP := "", RemoteAddr := remote }

/-- The store after serving a sequence of timed requests, oldest first. -/
def runRequests (RateLimitRPM : Int) (rateLimitStore : RateLimitStore)
    (requests : List (Int × Request)) : RateLimitStore :=
  requests.foldl (fun store req => (rateLimitMiddleware RateLimitRPM store req.1 req.2).1)
    rateLimitStore

/-- The responses to a sequence of timed requests, oldest first, and the final store. -/
def serveRequests (RateLimitRPM : Int) (rateLimitStore : RateLimitStore)
    (requests : List (Int × Request)) : RateLimitStore × List RateLimitResponse :=
  requests.foldl
    (fun state req =>
      let served := rateLimitMiddleware RateLimitRPM state.1 req.1 req.2
      (served.1, state.2 ++ [served.2]))
    (rateLimitStore, [])

/-- The value of a header among the headers set, if it was set. -/
def headerValue (headers : List (String × Int)) (name : String) : Option Int :=
  match headers with
  | [] => none
  | (k, v) :: rest => if k = name then some v else headerValue rest name

/-! ### Connection hub (`ClientManager`, `backend/main.go`) -/

/-- A connection handle `*websocket.Conn`, identified by a number. -/
abbrev Conn : Type := Nat

/-- What the hub does to a connection: a `WriteMessage` attempt or a `Close`. -/
inductive HubEffect where
  | write (c : Conn)
  | close (c : Conn)
deriving DecidableEq, Repr

/-- The hub while it serves one message: the keys of `cm.clients` (the map only ever
stores `true`) and the effects on connections so far, oldest first. -/
structure HubState where
  clients : Finset Conn
  effects : List HubEffect

/-- One iteration of the broadcast loop of `ClientManager.run`.  `writeMessage` is
the outcome of `client.WriteMessage(websocket.TextMessage, message)`.  A key deleted
from the map before the loop reaches it is not visited. -/
def broadcastBody (writeMessage : Conn → String → Except String Unit) (message : String)
    (state : HubState) (client : Conn) : HubState :=
  if client ∈ state.clients then
    match writeMessage client message with
    | Except.error _ =>
      { clients := state.clients.erase client,
        effects := state.effects ++ [HubEffect.write client, HubEffect.close client] }
    | Except.ok _ =>
      { clients := state.clients, effects := state.effects ++ [HubEffect.write client] }
  else state

/-- The `case message := <-cm.broadcast` branch of `ClientManager.run`.
`rangeClients m` is the order in which `range` visits the keys of the map `m`. -/
def broadcast (rangeClients : Finset Conn → List Conn)
    (writeMessage : Conn → String → Except String Unit) (clients : Finset Conn)
    (message : String) : HubState :=
  (rangeClients clients).foldl (broadcastBody writeMessage message)
    { clients := clients, effects := [] }

/-- A `range` order over the connection map visits every key exactly once. -/
def ValidClientRange (rangeClients : Finset Conn → List Conn) : Prop :=
  ∀ m : Finset Conn, (rangeClients m).Nodup ∧ (rangeClients m).toFinset = m

/-- Whether a send succeeded. -/
def sendOk (writeMessage : Conn → String → Except String Unit) (message : String)
    (c : Conn) : Bool :=
  match writeMessage c message with
  | Except.ok _ => true
  | Except.error _ => false

/-- The `case client := <-cm.register` branch of `ClientManager.run`:
`cm.clients[client] = true`. -/
def hubRegister (state : HubState) (client : Conn) : HubState :=
  { clients := insert client state.clients, effects := state.effects }

/-- The `case client := <-cm.unregister` branch of `ClientManager.run`: delete and
close the connection if it is a key of the map. -/
def hubUnregister (state : HubState) (client : Conn) : HubState :=
  if client ∈ state.clients then
    { clients := state.clients.erase client,
      effects := state.effects ++ [HubEffect.close client] }
  else state

/-- Whether a severity is one of the four that the counting loop recognises. -/
def recognisedSeverity (severity : String) : Bool :=
  decide (severity = SeverityCritical ∨ severity = SeverityHigh ∨ severity = SeverityMedium
    ∨ severity = SeverityLow)

/-! ### Pagination (`NewPaginatedResponse`, `shared/types/api.go`) -/

/-- PaginatedResponse: a page of data with its counters. -/
structure PaginatedResponse (α : Type) where
  Data : List α
  Total : Int
  Page : Int
  PageSize : Int
  TotalPages : Int

/-- Go integer division of 64-bit `int`s for a non-zero divisor: truncation towards
zero. -/
def goDiv (a b : Int) : Int := wrapInt64 (Int.tdiv a b)

/-- The function `NewPaginatedResponse`.  The division panics for `pageSize = 0`, in
which case there is no result. -/
def NewPaginatedResponse {α : Type} (data : List α) (total page pageSize : Int) :
    Option (PaginatedResponse α) :=
  if pageSize = 0 then none
  else
    let totalPages := goDiv (wrapInt64 (wrapInt64 (total + pageSize) - 1)) pageSize
    some { Data := data, Total := total, Page := page, PageSize := pageSize,
           TotalPages := totalPages }

/-! ### Input validation (`ValidateAndSanitizeInput`, `ValidateProjectPath`) -/

/-- Go `strings.ReplaceAll(input, "\x00", "")`: every NUL character removed. -/
def removeNul (s : List Char) : List Char :=
  s.filter (fun c => decide (c.toNat ≠ 0))

/-- Go `strings.Contains(s, sub)`. -/
def stringsContains (s sub : List Char) : Bool :=
  s.tails.any (fun t => sub.isPrefixOf t)

/-- Go `strings.ContainsAny(s, chars)`. -/
def stringsContainsAny (s chars : List Char) : Bool :=
  s.any (fun c => chars.contains c)

/-- ASCII letter, `[a-zA-Z]`. -/
def isAsciiLetter (c : Char) : Bool :=
  (97 ≤ c.toNat && c.toNat ≤ 122) || (65 ≤ c.toNat && c.toNat ≤ 90)

/-- ASCII digit, `[0-9]`. -/
def isAsciiDigit (c : Char) : Bool :=
  48 ≤ c.toNat && c.toNat ≤ 57

/-- The regexp class `\s` of Go (RE2): `[\t\n\f\r ]`. -/
def isRegexpSpace (c : Char) : Bool :=
  c.toNat = 9 || c.toNat = 10 || c.toNat = 12 || c.toNat = 13 || c.toNat = 32

/-- The characters kept by the pattern `[^a-zA-Z0-9\s\-_]` of the `project_name`
branch, that is the class `[a-zA-Z0-9\s\-_]`. -/
def projectNameChar (c : Char) : Bool :=
  isAsciiLetter c || isAsciiDigit c || isRegexpSpace c || c = '-' || c = '_'

/-- The class `[a-zA-Z0-9._%+-]` of the email pattern. -/
def emailLocalChar (c : Char) : Bool :=
  isAsciiLetter c || isAsciiDigit c || c = '.' || c = '_' || c = '%' || c = '+' || c = '-'

/-- The class `[a-zA-Z0-9.-]` of the email pattern. -/
def emailDomainChar (c : Char) : Bool :=
  isAsciiLetter c || isAsciiDigit c || c = '.' || c = '-'

/-- Whether the whole text matches `^[a-zA-Z0-9._%+-]+@[a-zA-Z0-9.-]+\.[a-zA-Z]{2,}$`:
a non-empty local part, `@`, a non-empty domain part, and after the last dot at least
two letters up to the end. -/
def emailRegexMatch (s : List Char) : Bool :=
  let localPart := s.takeWhile emailLocalChar
  match s.dropWhile emailLocalChar with
  | '@' :: domain =>
    let tld := (domain.reverse.takeWhile (fun c => decide (c ≠ '.'))).reverse
    match domain.reverse.dropWhile (fun c => decide (c ≠ '.')) with
    | '.' :: hostReversed =>
      !localPart.isEmpty && !hostReversed.isEmpty && hostReversed.all emailDomainChar
        && decide (2 ≤ tld.length) && tld.all isAsciiLetter
    | _ => false
  | _ => false

/-- Go `unicode.IsControl`: the code points of category Cc. -/
def isControl (c : Char) : Bool :=
  c.toNat ≤ 31 || (127 ≤ c.toNat && c.toNat ≤ 159)

/-- The predefined scan types of the `scan_type` branch. -/
def validScanTypes : List String := ["full", "security", "performance", "quality"]

/-- The function `ValidateAndSanitizeInput` validates and sanitizes user input: the
sanitized text, or the error. -/
def ValidateAndSanitizeInput (input inputType : String) : Except String String :=
  -- Remove null bytes and control characters
  let sanitized := removeNul input.data
  let checked : Except String (List Char) :=
    if inputType = "project_name" then
      -- Allow alphanumeric, spaces, hyphens, underscores
      let sanitized := sanitized.filter projectNameChar
      if sanitized.length = 0 ∨ sanitized.length > 100 then
        Except.error ("project name must be 1-100 characters and contain only letters, "
          ++ "numbers, spaces, hyphens, and underscores")
      else Except.ok sanitized
    else if inputType = "file_path" then
      -- More restrictive for file paths
      if stringsContains sanitized ['.', '.'] then
        Except.error "path traversal not allowed"
      else if stringsContainsAny sanitized ['<', '>', ':', '"', '|', '?', '*'] then
        Except.error "invalid characters in file path"
      else Except.ok sanitized
    else if inputType = "email" then
      -- Basic email validation
      if !emailRegexMatch sanitized then Except.error "invalid email format"
      else Except.ok sanitized
    else if inputType = "scan_type" then
      -- Only allow predefined scan types
      if validScanTypes.any (fun validType => decide (String.mk sanitized = validType)) then
        Except.ok sanitized
      else Except.error "invalid scan type"
    else
      -- Remove control characters except tab, newline, carriage return
      Except.ok (sanitized.filter (fun r =>
        !(isControl r && decide (r ≠ '\t') && decide (r ≠ '\n') && decide (r ≠ '\r'))))
  match checked with
  | Except.error err => Except.error err
  | Except.ok sanitized =>
    -- Trim whitespace
    Except.ok (String.mk (stringsTrimSpace sanitized))

/-- The stack of path elements kept by `filepath.Clean`, top first: empty and `.`
elements are dropped, a `..` element removes the element before it, is dropped at
the root, and is kept at the start of a relative path. -/
def cleanElements (rooted : Bool) : List (List Char) → List (List Char) → List (List Char)
  | [], stack => stack
  | element :: rest, stack =>
    if element = [] ∨ element = ['.'] then cleanElements rooted rest stack
    else if element = ['.', '.'] then
      match stack with
      | top :: below =>
        if top ≠ ['.', '.'] then cleanElements rooted rest below
        else cleanElements rooted rest (element :: stack)
      | [] =>
        if rooted then cleanElements rooted rest []
        else cleanElements rooted rest [element]
    else cleanElements rooted rest (element :: stack)

/-- Go `filepath.Clean` on a host whose separator is `/`: the shortest path name
equivalent to `path` by purely lexical processing. -/
def filepathClean (path : List Char) : List Char :=
  if path = [] then ['.']
  else
    let rooted := decide (path.head? = some '/')
    let kept := (cleanElements rooted (stringsSplit path '/') []).reverse
    let joined := List.intercalate ['/'] kept
    let out := if rooted then '/' :: joined else joined
    if out = [] then ['.'] else out

/-- The sensitive system directories of `ValidateProjectPath`. -/
def restrictedPaths : List String := ["/etc", "/proc", "/sys", "/dev", "/root", "/boot"]

/-- The function `ValidateProjectPath` checks if a path is valid for analysis, for the
configured `config.AllowedProjectPaths`: `nil` or the error. -/
def ValidateProjectPath (AllowedProjectPaths : List String) (path : String) :
    Except String Unit :=
  -- Sanitize the path first
  match ValidateAndSanitizeInput path "file_path" with
  | Except.error err => Except.error err
  | Except.ok cleanPath =>
    let cleanPath := filepathClean cleanPath.data
    -- Basic security checks
    if stringsContains cleanPath ['.', '.'] then Except.error "path traversal not allowed"
    -- Check against allowed project paths from config
    else if AllowedProjectPaths.length > 0
        ∧ ¬ AllowedProjectPaths.any (fun allowedPath => allowedPath.data.isPrefixOf cleanPath)
    then Except.error "path not in allowed directories"
    -- Additional restrictions for absolute paths
    else if ['/'].isPrefixOf cleanPath
        ∧ restrictedPaths.any (fun restricted => restricted.data.isPrefixOf cleanPath)
    then Except.error "access to system directories not allowed"
    else Except.ok ()

/-- Default allowed project paths of `LoadConfig`. -/
def defaultProjectPaths : List String :=
  ["/home", "/Users", "/workspace", "C:\\Users", "C:\\Projects"]

def ScanTypeFull : String := "full"
def ScanTypeDependency : String := "dependency"
def ScanTypePattern : String := "pattern"

/-- The function `GetSupportedScanTypes` returns available scan types. -/
def GetSupportedScanTypes : List String :=
  [ScanTypeFull, ScanTypeDependency, ScanTypePattern]

/-- The elements of a path: the non-empty pieces between separators. -/
def pathElements (path : List Char) : List (List Char) :=
  (stringsSplit path '/').filter (fun element => !element.isEmpty)

/-- Whether `path` is `dir` itself or a descendant of it, element by element. -/
def withinDirectory (dir path : List Char) : Bool :=
  (pathElements dir).isPrefixOf (pathElements path)

/-! ### The analysis run (`RunAnalysis`, `RunAsyncAnalysis`) -/

/-- FileInfo represents a scanned file. -/
structure FileInfo where
  Path : String
  Name : String
  Extension : String
  Content : String
  Imports : List String
  Size : Int

/-- ScanSummary provides overview statistics. -/
structure ScanSummary where
  TotalFiles : Int
  JSFiles : Int
  TSFiles : Int
  IssuesFound : Int
  CriticalIssues : Int
  MissingFiles : Int

/-- ScanResult represents the result of project scanning. -/
structure ScanResult where
  ProjectPath : String
  ScanType : String
  AnalyzersUsed : List String
  Files : List FileInfo
  Issues : List Issue
  Summary : ScanSummary

/-- AnalysisScan represents a complete analysis scan. -/
structure AnalysisScan where
  ID : String
  ProjectID : String
  ScanType : String
  TotalFiles : Int
  TotalIssues : Int
  CriticalIssues : Int
  OverallScore : ℚ
  CategoryScores : List CategoryScore
  ScanDuration : Int
  Status : String

/-- AnalysisRecord represents a saved analysis result. -/
structure AnalysisRecord where
  ID : String
  ProjectID : String
  ScanType : String
  Results : ScanResult
  IssuesCount : Int
  PDFPath : Option String

/-- How a step of a run fails: with a returned `error`, or with a panic, which unwinds
to the `recover` of the goroutine. -/
inductive RunFailure where
  | error (message : String)
  | panic (value : String)

/-- What a run does to its collaborators, in order. -/
inductive RunEvent where
  | engineInvoked (projectPath : String)
  | scanPosted
  | achievementsChecked
  | resultPosted
  | reportRequested
  | emitAttempt (delivered : Bool)
deriving DecidableEq, Repr

/-- The collaborators of one run and their outcomes.  `engineOutput` is
`exec.Command(...).Output()`, `unmarshalScanResult` the decoding of the engine output,
`postScan` and `unmarshalRows` the request and the decoding of `saveScanToDatabase`
(a row's `id` is `none` when it is not a string), `postAnalysisResult` the request of
`submitAnalysisToDatabase`, `generateAnalysisReport` the PDF service, and
`hubReceiving` whether the hub is ready to receive on `cm.broadcast` when the
notification is sent. -/
structure Collaborators (σ : Type) where
  AllowedProjectPaths : List String
  engineOutput : String → Except String String
  unmarshalScanResult : String → Except String ScanResult
  catalogOrder : List (String × CategoryScore)
  rangeKeys : List String → List String
  elapsedMilliseconds : Int
  postScan : AnalysisScan → String → Except String String
  unmarshalRows : String → Except String (List (Option String))
  supabase : SupabaseClient σ
  db : σ
  postAnalysisResult : AnalysisRecord → Except String String
  generateAnalysisReport : AnalysisRecord → String → Except String String
  hubReceiving : Bool

/-- The function `saveScanToDatabase` saves scan results to Supabase: the scan id. -/
def saveScanToDatabase {σ : Type} (c : Collaborators σ) (scan : AnalysisScan)
    (userID : String) : Except RunFailure String :=
  match c.postScan scan userID with
  | Except.error err => Except.error (RunFailure.error ("failed to save scan: " ++ err))
  | Except.ok data =>
    match c.unmarshalRows data with
    | Except.error _ => Except.error (RunFailure.error "failed to parse scan result")
    | Except.ok [] => Except.error (RunFailure.error "failed to parse scan result")
    | Except.ok (some scanID :: _) => Except.ok scanID
    | Except.ok (none :: _) =>
      Except.error (RunFailure.panic "interface conversion: interface is not string")

/-- The scan record that `RunAnalysis` creates from the engine result. -/
def buildScan {σ : Type} (c : Collaborators σ) (projectID : String) (result : ScanResult) :
    AnalysisScan :=
  -- Calculate category scores
  let categoryScores := calculateCategoryScores c.catalogOrder c.rangeKeys result.Issues
  -- Calculate overall score
  let overallScore := calculateOverallScore categoryScores
  { ID := "",
    ProjectID := projectID,
    ScanType := "full",
    TotalFiles := result.Summary.TotalFiles,
    TotalIssues := result.Summary.IssuesFound,
    CriticalIssues := result.Summary.CriticalIssues,
    OverallScore := overallScore,
    CategoryScores := categoryScores,
    ScanDuration := c.elapsedMilliseconds,
    Status := "completed" }

/-- The function `RunAnalysis` executes the analysis engine and processes results: the
scan or the failure, and what was done to the collaborators. -/
def RunAnalysis {σ : Type} (c : Collaborators σ) (projectPath projectID userID : String) :
    Except RunFailure AnalysisScan × List RunEvent :=
  -- Validate project path first
  match ValidateProjectPath c.AllowedProjectPaths projectPath with
  | Except.error err =>
    (Except.error (RunFailure.error ("invalid project path: " ++ err)), [])
  | Except.ok _ =>
    -- Run the analysis engine
    match c.engineOutput projectPath with
    | Except.error err =>
      (Except.error (RunFailure.error ("analysis engine failed: " ++ err)),
        [RunEvent.engineInvoked projectPath])
    | Except.ok output =>
      -- Parse the analysis result
      match c.unmarshalScanResult output with
      | Except.error err =>
        (Except.error (RunFailure.error ("failed to parse analysis result: " ++ err)),
          [RunEvent.engineInvoked projectPath])
      | Except.ok result =>
        let scan := buildScan c projectID result
        -- Save to database
        match saveScanToDatabase c scan userID with
        | Except.error (RunFailure.error err) =>
          (Except.error (RunFailure.error ("failed to save scan: " ++ err)),
            [RunEvent.engineInvoked projectPath, RunEvent.scanPosted])
        | Except.error (RunFailure.panic value) =>
          (Except.error (RunFailure.panic value),
            [RunEvent.engineInvoked projectPath, RunEvent.scanPosted])
        | Except.ok scanID =>
          let scan := { scan with ID := scanID }
          -- Check for achievements; a failure would only be logged
          let _achievements :=
            checkAchievements c.supabase c.db userID projectID scanID scan.CategoryScores
          (Except.ok scan,
            [RunEvent.engineInvoked projectPath, RunEvent.scanPosted,
              RunEvent.achievementsChecked])

/-- The analysis record that `RunAsyncAnalysis` creates from the scan. -/
def buildRecord (projectID scanType : String) (result : AnalysisScan) : AnalysisRecord :=
  let scanResult : ScanResult :=
    { ProjectPath := result.ProjectID,
      ScanType := scanType,
      AnalyzersUsed := [],
      Files := [],
      Issues := [],
      Summary :=
        { TotalFiles := result.TotalFiles, JSFiles := 0, TSFiles := 0,
          IssuesFound := result.TotalIssues, CriticalIssues := result.CriticalIssues,
          MissingFiles := 0 } }
  { ID := "",
    ProjectID := projectID,
    ScanType := scanType,
    Results := scanResult,
    IssuesCount := result.TotalIssues,
    PDFPath := none }

/-- The function `submitAnalysisToDatabase` saves analysis results to Supabase. -/
def submitAnalysisToDatabase {σ : Type} (c : Collaborators σ) (analysis : AnalysisRecord) :
    Except String Unit :=
  match c.postAnalysisResult analysis with
  | Except.error err => Except.error ("supabase insertion failed: " ++ err)
  | Except.ok _ => Except.ok ()

/-- The function `notifyAnalysisComplete` sends the real-time notification.  Encoding
the notification, a map of strings and integers, cannot fail; the `select` sends the
message if the hub is receiving and takes its `default` branch otherwise. -/
def notifyAnalysisComplete {σ : Type} (c : Collaborators σ) (_projectID : String)
    (_analysis : AnalysisRecord) : List RunEvent :=
  if c.hubReceiving then [RunEvent.emitAttempt true] else [RunEvent.emitAttempt false]

/-- The body of the goroutine of `RunAsyncAnalysis`: what one run does to its
collaborators.  Every failure, a recovered panic included, ends the run. -/
def RunAsyncAnalysis {σ : Type} (c : Collaborators σ) (projectID projectPath scanType : String) :
    List RunEvent :=
  -- Run analysis
  match RunAnalysis c projectPath projectID "" with
  | (Except.error _, events) => events
  | (Except.ok result, events) =>
    let analysis := buildRecord projectID scanType result
    -- Submit to database
    match submitAnalysisToDatabase c analysis with
    | Except.error _ => events ++ [RunEvent.resultPosted]
    | Except.ok _ =>
      -- Generate PDF report; a failure is only logged
      let projectName := "Project-" ++ projectID
      let _pdfPath := c.generateAnalysisReport analysis projectName
      -- Trigger real-time notification
      events ++ [RunEvent.resultPosted, RunEvent.reportRequested]
        ++ notifyAnalysisComplete c projectID analysis

/-- Number of attempts to emit a completion event in a trace. -/
def emitCount (events : List RunEvent) : Nat :=
  events.countP (fun e => decide (e = RunEvent.emitAttempt true ∨ e = RunEvent.emitAttempt false))

/-- Path validation, engine execution, output parsing, scan persistence and result
persistence all succeed for the run, stated on the outcomes of the collaborators: the
path is accepted, the engine returns an output, the output decodes to a result, the
request that stores the scan is answered with rows that decode and whose first row
carries a string `id`, and the request that stores the analysis record succeeds. -/
def AllSucceed {σ : Type} (c : Collaborators σ) (projectID projectPath scanType : String) :
    Prop :=
  ValidateProjectPath c.AllowedProjectPaths projectPath = Except.ok ()
  ∧ ∃ output, c.engineOutput projectPath = Except.ok output
    ∧ ∃ result, c.unmarshalScanResult output = Except.ok result
      ∧ ∃ data, c.postScan (buildScan c projectID result) "" = Except.ok data
        ∧ ∃ scanID rest, c.unmarshalRows data = Except.ok (some scanID :: rest)
          ∧ ∃ body, c.postAnalysisResult
              (buildRecord projectID scanType
                { buildScan c projectID result with ID := scanID })
              = Except.ok body

/-- The collaborators `c` with other outcomes for the report rendering, the
achievement store and the readiness of the hub. -/
def replaceAuxiliary {σ τ : Type} (c : Collaborators σ)
    (report : AnalysisRecord → String → Except String String)
    (supabase : SupabaseClient τ) (db : τ) (receiving : Bool) : Collaborators τ :=
  { AllowedProjectPaths := c.AllowedProjectPaths,
    engineOutput := c.engineOutput,
    unmarshalScanResult := c.unmarshalScanResult,
    catalogOrder := c.catalogOrder,
    rangeKeys := c.rangeKeys,
    elapsedMilliseconds := c.elapsedMilliseconds,
    postScan := c.postScan,
    unmarshalRows := c.unmarshalRows,
    supabase := supabase,
    db := db,
    postAnalysisResult := c.postAnalysisResult,
    generateAnalysisReport := report,
    hubReceiving := receiving }

/-- Collaborators for which the five decisive steps succeed on an allowed path, while
the report rendering fails and the hub is not receiving. -/
def demoCollaborators : Collaborators (List Achievement) :=
  { AllowedProjectPaths := defaultProjectPaths,
    engineOutput := fun _ => Except.ok "engine output",
    unmarshalScanResult := fun _ =>
      Except.ok
        { ProjectPath := "", ScanType := "", AnalyzersUsed := [], Files := [],
          Issues := [mkIssue "xss_vulnerability" "critical" "escape output"],
          Summary :=
            { TotalFiles := 1, JSFiles := 1, TSFiles := 0, IssuesFound := 1,
              CriticalIssues := 1, MissingFiles := 0 } },
    catalogOrder := CategoryDefinitions,
    rangeKeys := id,
    elapsedMilliseconds := 12,
    postScan := fun _ _ => Except.ok "rows",
    unmarshalRows := fun _ => Except.ok [some "scan-1"],
    supabase := memoryClient,
    db := [],
    postAnalysisResult := fun _ => Except.ok "",
    generateAnalysisReport := fun _ _ => Except.error "cannot write the report",
    hubReceiving := false }

/-- The steps of a run that can fail, with the four ways in which storing the scan
fails: the request fails, the answer does not decode, it holds no row, or the `id` of
its first row is not a string. -/
inductive FailingStep where
  | engine
  | parse
  | scanRequest
  | scanRows
  | scanNoRow
  | scanId
  | resultRequest
deriving DecidableEq, Repr

/-- The collaborators of `demoCollaborators` with one failing step; the report
rendering succeeds and the hub is receiving. -/
def failingCollaborators (step : FailingStep) : Collaborators (List Achievement) :=
  { demoCollaborators with
    engineOutput := fun path =>
      if step = FailingStep.engine then Except.error "exit status 1"
      else demoCollaborators.engineOutput path,
    unmarshalScanResult := fun output =>
      if step = FailingStep.parse then Except.error "unexpected end of JSON input"
      else demoCollaborators.unmarshalScanResult output,
    postScan := fun scan userID =>
      if step = FailingStep.scanRequest then Except.error "API error (status 503)"
      else demoCollaborators.postScan scan userID,
    unmarshalRows := fun data =>
      if step = FailingStep.scanRows then Except.error "invalid character"
      else if step = FailingStep.scanNoRow then Except.ok []
      else if step = FailingStep.scanId then Except.ok [none]
      else demoCollaborators.unmarshalRows data,
    postAnalysisResult := fun analysis =>
      if step = FailingStep.resultRequest then Except.error "API error (status 500)"
      else demoCollaborators.postAnalysisResult analysis,
    generateAnalysisReport := fun _ _ => Except.ok "/reports/Project-p1.pdf",
    hubReceiving := true }

/-! ## Machine integers -/

theorem wrapInt64_self (x : Int) (h1 : -9223372036854775808 ≤ x)
    (h2 : x < 9223372036854775808) : wrapInt64 x = x := by
  unfold wrapInt64 Int.bmod
  simp only []
  split_ifs <;> omega

/-! ## Rounding to `float64` -/

theorem roundHalfEven_intCast (n : Int) : roundHalfEven (n : ℚ) = n := by
  unfold roundHalfEven
  rw [Int.floor_intCast, sub_self, if_pos (by norm_num)]

theorem roundHalfEven_near (x : ℚ) : |((roundHalfEven x : Int) : ℚ) - x| ≤ 1 / 2 := by
  have h1 := Int.floor_le x
  have h2 := Int.lt_floor_add_one x
  unfold roundHalfEven
  split_ifs with a b c
  · rw [abs_le]; constructor <;> linarith
  · push_cast; rw [abs_le]; constructor <;> linarith
  · rw [abs_le]; constructor <;> linarith
  · push_cast; rw [abs_le]; constructor <;> linarith

theorem roundHalfEven_le {x : ℚ} {k : Int} (h : x ≤ (k : ℚ)) : roundHalfEven x ≤ k := by
  have hf : ⌊x⌋ ≤ k := by
    have := Int.floor_le x
    exact_mod_cast (this.trans h)
  rcases lt_or_eq_of_le hf with hlt | heq
  · unfold roundHalfEven
    split_ifs <;> omega
  · have hx : x = (k : ℚ) := le_antisymm h (by rw [← heq]; exact Int.floor_le x)
    rw [hx, roundHalfEven_intCast]

theorem le_roundHalfEven {x : ℚ} {k : Int} (h : (k : ℚ) ≤ x) : k ≤ roundHalfEven x := by
  have hf : k ≤ ⌊x⌋ := Int.le_floor.mpr h
  unfold roundHalfEven
  split_ifs <;> omega

/-- A rational strictly within one half of an integer rounds to that integer. -/
theorem roundHalfEven_eq_of_near (x : ℚ) (n : Int) (h1 : (n : ℚ) - 1 / 2 < x)
    (h2 : x < (n : ℚ) + 1 / 2) : roundHalfEven x = n := by
  by_cases hx : (n : ℚ) ≤ x
  · have hf : ⌊x⌋ = n := by
      rw [Int.floor_eq_iff]; constructor <;> linarith
    unfold roundHalfEven
    rw [hf, if_pos (by linarith)]
  · have hf : ⌊x⌋ = n - 1 := by
      rw [Int.floor_eq_iff]; push_cast; constructor <;> linarith
    unfold roundHalfEven
    rw [hf, if_neg (by push_cast; linarith), if_pos (by push_cast; linarith)]
    omega

/-- A rational halfway between two integers rounds to the even one. -/
theorem roundHalfEven_tie (x : ℚ) (n : Int) (hx : x = (n : ℚ) + 1 / 2) :
    roundHalfEven x = if n % 2 = 0 then n else n + 1 := by
  have hf : ⌊x⌋ = n := by
    rw [Int.floor_eq_iff]; constructor <;> linarith
  unfold roundHalfEven
  rw [hf, if_neg (by linarith), if_neg (by linarith)]

theorem binade_eq (x : ℚ) (e : Int) (h1 : (2 : ℚ) ^ e ≤ |x|) (h2 : |x| < (2 : ℚ) ^ (e + 1)) :
    binade x = e := by
  have hpos : 0 < |x| := lt_of_lt_of_le (zpow_pos (by norm_num) e) h1
  have a : e ≤ Int.log 2 |x| :=
    (Int.zpow_le_iff_le_log (by norm_num) hpos).mp (by exact_mod_cast h1)
  have b : Int.log 2 |x| < e + 1 :=
    (Int.lt_zpow_iff_log_lt (by norm_num) hpos).mp (by exact_mod_cast h2)
  unfold binade
  omega

theorem binade_spec (x : ℚ) (hx : x ≠ 0) :
    (2 : ℚ) ^ binade x ≤ |x| ∧ |x| < (2 : ℚ) ^ (binade x + 1) := by
  have hpos : 0 < |x| := abs_pos.mpr hx
  constructor
  · have := @Int.zpow_log_le_self ℚ _ _ 2 |x| (by norm_num) hpos
    exact_mod_cast this
  · have := @Int.lt_zpow_succ_log_self ℚ _ _ 2 (by norm_num) |x|
    exact_mod_cast this

theorem f64_zero : f64 0 = 0 := by simp [f64]

/-- Evaluation of `f64` at a positive rational whose binade and significand are
known. -/
theorem f64_eq (x : ℚ) (e n : Int) (h1 : (2 : ℚ) ^ e ≤ x) (h2 : x < (2 : ℚ) ^ (e + 1))
    (hn : roundHalfEven (x / (2 : ℚ) ^ (e - 52)) = n) :
    f64 x = (n : ℚ) * (2 : ℚ) ^ (e - 52) := by
  have hpos : 0 < x := lt_of_lt_of_le (zpow_pos (by norm_num) e) h1
  have hb : binade x = e := binade_eq x e (by rwa [abs_of_pos hpos]) (by rwa [abs_of_pos hpos])
  unfold f64
  rw [if_neg hpos.ne', hb, hn]

/-- A rational whose scaled value is an integer is a `float64`. -/
theorem f64_of_mantissa (x : ℚ) (m : Int) (hm : x / (2 : ℚ) ^ (binade x - 52) = (m : ℚ)) :
    f64 x = x := by
  by_cases hx : x = 0
  · rw [hx, f64_zero]
  · unfold f64
    rw [if_neg hx, hm, roundHalfEven_intCast, ← hm]
    have : (2 : ℚ) ^ (binade x - 52) ≠ 0 := (zpow_pos (by norm_num) _).ne'
    field_simp

/-- An integer of magnitude below `2^53` is a `float64`. -/
theorem f64_intCast (z : Int) (h : |z| < 9007199254740992) : f64 (z : ℚ) = (z : ℚ) := by
  by_cases hz : z = 0
  · rw [hz]; simp [f64_zero]
  have hzq : (z : ℚ) ≠ 0 := by exact_mod_cast hz
  obtain ⟨b1, b2⟩ := binade_spec (z : ℚ) hzq
  have habs : |(z : ℚ)| < (2 : ℚ) ^ (53 : Int) := by
    have : |(z : ℚ)| < 9007199254740992 := by exact_mod_cast h
    norm_num; exact this
  have he : binade (z : ℚ) < 53 := by
    have := lt_of_le_of_lt b1 habs
    exact (zpow_lt_zpow_iff_right₀ (by norm_num : (1 : ℚ) < 2)).mp this
  obtain ⟨k, hk⟩ : ∃ k : Nat, (k : Int) = 52 - binade (z : ℚ) :=
    ⟨(52 - binade (z : ℚ)).toNat, by omega⟩
  apply f64_of_mantissa _ (z * 2 ^ k)
  have he2 : binade (z : ℚ) - 52 = -(k : Int) := by omega
  rw [he2, zpow_neg, zpow_natCast]
  push_cast
  field_simp

theorem f64_natCast (n : Nat) (h : n < 9007199254740992) : f64 (n : ℚ) = (n : ℚ) := by
  have := f64_intCast (n : Int) (by rw [abs_of_nonneg (Int.natCast_nonneg n)]; exact_mod_cast h)
  exact_mod_cast this

theorem f64_nonpos {x : ℚ} (h : x ≤ 0) : f64 x ≤ 0 := by
  unfold f64
  split_ifs with hx
  · exact le_refl _
  · have hu : (0 : ℚ) < (2 : ℚ) ^ (binade x - 52) := zpow_pos (by norm_num) _
    have hq : x / (2 : ℚ) ^ (binade x - 52) ≤ ((0 : Int) : ℚ) := by
      rw [Int.cast_zero]; exact div_nonpos_of_nonpos_of_nonneg h hu.le
    have hn : ((roundHalfEven (x / (2 : ℚ) ^ (binade x - 52)) : Int) : ℚ) ≤ 0 := by
      exact_mod_cast roundHalfEven_le hq
    exact mul_nonpos_of_nonpos_of_nonneg hn hu.le

theorem f64_nonneg {x : ℚ} (h : 0 ≤ x) : 0 ≤ f64 x := by
  unfold f64
  split_ifs with hx
  · exact le_refl _
  · have hu : (0 : ℚ) < (2 : ℚ) ^ (binade x - 52) := zpow_pos (by norm_num) _
    have hq : ((0 : Int) : ℚ) ≤ x / (2 : ℚ) ^ (binade x - 52) := by
      rw [Int.cast_zero]; exact div_nonneg h hu.le
    have hn : (0 : ℚ) ≤ ((roundHalfEven (x / (2 : ℚ) ^ (binade x - 52)) : Int) : ℚ) := by
      exact_mod_cast le_roundHalfEven hq
    exact mul_nonneg hn hu.le

theorem zpow_binade_split (x : ℚ) :
    (2 : ℚ) ^ binade x = 4503599627370496 * (2 : ℚ) ^ (binade x - 52) := by
  have : (2 : ℚ) ^ binade x = (2 : ℚ) ^ (52 : Int) * (2 : ℚ) ^ (binade x - 52) := by
    rw [← zpow_add₀ (by norm_num : (2 : ℚ) ≠ 0)]; congr 1; omega
  rw [this]; norm_num

/-- Rounding does not go below `2^52` from above it. -/
theorem f64_ge_two_pow {x : ℚ} (h : (4503599627370496 : ℚ) ≤ x) :
    (4503599627370496 : ℚ) ≤ f64 x := by
  have hpos : (0 : ℚ) < x := lt_of_lt_of_le (by norm_num) h
  have hx : x ≠ 0 := hpos.ne'
  obtain ⟨b1, b2⟩ := binade_spec x hx
  rw [abs_of_pos hpos] at b1 b2
  have he : 52 ≤ binade x := by
    have h52 : (2 : ℚ) ^ (52 : Int) < (2 : ℚ) ^ (binade x + 1) := by
      refine lt_of_le_of_lt ?_ b2
      norm_num; exact h
    have := (zpow_lt_zpow_iff_right₀ (by norm_num : (1 : ℚ) < 2)).mp h52
    omega
  have hu : (1 : ℚ) ≤ (2 : ℚ) ^ (binade x - 52) := one_le_zpow₀ (by norm_num) (by omega)
  have hu0 : (0 : ℚ) < (2 : ℚ) ^ (binade x - 52) := lt_of_lt_of_le one_pos hu
  have hq : ((4503599627370496 : Int) : ℚ) ≤ x / (2 : ℚ) ^ (binade x - 52) := by
    rw [le_div_iff₀ hu0]
    rw [zpow_binade_split] at b1
    norm_num at b1 ⊢
    exact b1
  have hn : (4503599627370496 : ℚ)
      ≤ ((roundHalfEven (x / (2 : ℚ) ^ (binade x - 52)) : Int) : ℚ) := by
    exact_mod_cast le_roundHalfEven hq
  unfold f64
  rw [if_neg hx]
  calc (4503599627370496 : ℚ) = 4503599627370496 * 1 := by ring
    _ ≤ _ := mul_le_mul hn hu (by norm_num) (le_trans (by norm_num) hn)

/-- The relative error of one rounding is at most `2^-53`. -/
theorem f64_err (x : ℚ) : |f64 x - x| ≤ |x| / 9007199254740992 := by
  by_cases hx : x = 0
  · rw [hx, f64_zero]; simp
  obtain ⟨b1, b2⟩ := binade_spec x hx
  have hu0 : (0 : ℚ) < (2 : ℚ) ^ (binade x - 52) := zpow_pos (by norm_num) _
  have hnear := roundHalfEven_near (x / (2 : ℚ) ^ (binade x - 52))
  unfold f64
  rw [if_neg hx]
  have heq : ((roundHalfEven (x / (2 : ℚ) ^ (binade x - 52)) : Int) : ℚ)
        * (2 : ℚ) ^ (binade x - 52) - x
      = (((roundHalfEven (x / (2 : ℚ) ^ (binade x - 52)) : Int) : ℚ)
          - x / (2 : ℚ) ^ (binade x - 52)) * (2 : ℚ) ^ (binade x - 52) := by
    field_simp
  rw [heq, abs_mul, abs_of_pos hu0]
  have : |((roundHalfEven (x / (2 : ℚ) ^ (binade x - 52)) : Int) : ℚ)
      - x / (2 : ℚ) ^ (binade x - 52)| * (2 : ℚ) ^ (binade x - 52)
      ≤ 1 / 2 * (2 : ℚ) ^ (binade x - 52) := mul_le_mul_of_nonneg_right hnear hu0.le
  refine this.trans ?_
  rw [zpow_binade_split] at b1
  rw [le_div_iff₀ (by norm_num)]
  linarith

/-- Concrete roundings: `2^53 + 1` is halfway between two floats and rounds to `2^53`,
`2^53 + 3` rounds up to `2^53 + 4`, and `0.575`, `0.57` and `0.58` round to the
neighbours shown. -/
theorem f64_examples :
    f64 9007199254740993 = 9007199254740992
    ∧ f64 9007199254740995 = 9007199254740996
    ∧ f64 (23 / 40) = 2589569785738035 / 4503599627370496
    ∧ f64 (57 / 100) = 5134103575202365 / 9007199254740992
    ∧ f64 (58 / 100) = 5224175567749775 / 9007199254740992 := by
  refine ⟨?_, ?_, ?_, ?_, ?_⟩
  · rw [f64_eq _ 53 4503599627370496 (by norm_num) (by norm_num)
      ((roundHalfEven_tie _ 4503599627370496 (by norm_num)).trans (by decide))]
    norm_num
  · rw [f64_eq _ 53 4503599627370498 (by norm_num) (by norm_num)
      ((roundHalfEven_tie _ 4503599627370497 (by norm_num)).trans (by decide))]
    norm_num
  · rw [f64_eq _ (-1) 5179139571476070 (by norm_num) (by norm_num)
      (roundHalfEven_eq_of_near _ _ (by norm_num) (by norm_num))]
    norm_num
  · rw [f64_eq _ (-1) 5134103575202365 (by norm_num) (by norm_num)
      (roundHalfEven_eq_of_near _ _ (by norm_num) (by norm_num))]
    norm_num
  · rw [f64_eq _ (-1) 5224175567749775 (by norm_num) (by norm_num)
      (roundHalfEven_eq_of_near _ _ (by norm_num) (by norm_num))]
    norm_num

/-! ## Scoring lemmas -/

theorem floor_half : ⌊(1 / 2 : ℚ)⌋ = 0 := by
  rw [Int.floor_eq_iff]; norm_num

theorem mathRound_intCast (n : Int) : mathRound (n : ℚ) = (n : ℚ) := by
  unfold mathRound
  split_ifs with h
  · rw [Int.floor_int_add, floor_half]; simp
  · have : (-(n : ℚ) + 1 / 2) = (((-n : Int) : ℚ) + 1 / 2) := by push_cast; ring
    rw [this, Int.floor_int_add, floor_half]; simp

theorem roundTo2_intCast (n : Int) : roundTo2 (n : ℚ) = (n : ℚ) := by
  unfold roundTo2
  have : ((n : ℚ) * 100) = (((n * 100 : Int)) : ℚ) := by push_cast; ring
  rw [this, mathRound_intCast]; push_cast; field_simp

theorem totalPenalty_nil : totalPenalty [] = 0 := by
  simp [totalPenalty, severityCount]

/-- One iteration of the penalty loop adds the penalty of the issue, rounded; an issue
without penalty leaves the sum as it is. -/
theorem penaltyStep_eq (p : ℚ) (i : Issue) :
    penaltyStep p i
      = if totalPenalty [i] = 0 then p else f64 (p + (totalPenalty [i] : ℚ)) := by
  unfold penaltyStep totalPenalty severityCount SeverityCritical SeverityHigh SeverityMedium
    SeverityLow
  by_cases h1 : i.Severity = "critical"
  · simp [h1]
  · by_cases h2 : i.Severity = "high"
    · simp [h2]
    · by_cases h3 : i.Severity = "medium"
      · simp [h3]
      · by_cases h4 : i.Severity = "low"
        · simp [h4]
        · simp [h1, h2, h3, h4]

theorem totalPenalty_single_le (i : Issue) : totalPenalty [i] ≤ 15 := by
  unfold totalPenalty severityCount
  by_cases h1 : i.Severity = "critical"
  · simp [h1]
  · by_cases h2 : i.Severity = "high"
    · simp [h2]
    · by_cases h3 : i.Severity = "medium"
      · simp [h3]
      · by_cases h4 : i.Severity = "low"
        · simp [h4]
        · simp [h1, h2, h3, h4]

theorem totalPenalty_cons (i : Issue) (L : List Issue) :
    totalPenalty (i :: L) = totalPenalty [i] + totalPenalty L := by
  simp only [totalPenalty, severityCount, List.countP_cons, List.countP_nil]
  ring

/-- One iteration keeps the invariant of the penalty loop: the rounded sum is the exact
sum while that is below `2^53`, and it never drops below `2^52` afterwards. -/
theorem penaltyStep_inv (p : ℚ) (T : Nat) (i : Issue)
    (h : (p = (T : ℚ) ∧ T < 9007199254740992)
      ∨ ((4503599627370496 : ℚ) ≤ p ∧ 4503599627370496 ≤ T)) :
    (penaltyStep p i = ((T + totalPenalty [i] : Nat) : ℚ)
        ∧ T + totalPenalty [i] < 9007199254740992)
      ∨ ((4503599627370496 : ℚ) ≤ penaltyStep p i
        ∧ 4503599627370496 ≤ T + totalPenalty [i]) := by
  rw [penaltyStep_eq]
  have hw := totalPenalty_single_le i
  by_cases hz : totalPenalty [i] = 0
  · rw [if_pos hz, hz, Nat.add_zero]
    exact h
  · rw [if_neg hz]
    rcases h with ⟨hp, hT⟩ | ⟨hp, hT⟩
    · have hsum : p + (totalPenalty [i] : ℚ) = ((T + totalPenalty [i] : Nat) : ℚ) := by
        rw [hp]; push_cast; ring
      rw [hsum]
      by_cases hlt : T + totalPenalty [i] < 9007199254740992
      · exact Or.inl ⟨f64_natCast _ hlt, hlt⟩
      · refine Or.inr ⟨f64_ge_two_pow ?_, by omega⟩
        have : 4503599627370496 ≤ T + totalPenalty [i] := by omega
        exact_mod_cast this
    · refine Or.inr ⟨f64_ge_two_pow ?_, by omega⟩
      have : (0 : ℚ) ≤ (totalPenalty [i] : ℚ) := Nat.cast_nonneg _
      linarith

theorem foldl_penaltyStep_inv (L : List Issue) (p : ℚ) (T : Nat)
    (h : (p = (T : ℚ) ∧ T < 9007199254740992)
      ∨ ((4503599627370496 : ℚ) ≤ p ∧ 4503599627370496 ≤ T)) :
    (L.foldl penaltyStep p = ((T + totalPenalty L : Nat) : ℚ)
        ∧ T + totalPenalty L < 9007199254740992)
      ∨ ((4503599627370496 : ℚ) ≤ L.foldl penaltyStep p
        ∧ 4503599627370496 ≤ T + totalPenalty L) := by
  induction L generalizing p T with
  | nil => simpa [totalPenalty_nil] using h
  | cons i L ih =>
    rw [List.foldl_cons, totalPenalty_cons i L, ← Nat.add_assoc]
    exact ih _ _ (penaltyStep_inv p T i h)

/-- The penalty loop from zero: the exact total penalty while that is below `2^53`, and
at least `2^52` otherwise. -/
theorem foldl_penaltyStep (L : List Issue) :
    (L.foldl penaltyStep 0 = (totalPenalty L : ℚ) ∧ totalPenalty L < 9007199254740992)
      ∨ ((4503599627370496 : ℚ) ≤ L.foldl penaltyStep 0
        ∧ 4503599627370496 ≤ totalPenalty L) := by
  have h := foldl_penaltyStep_inv L 0 0 (Or.inl ⟨by simp, by norm_num⟩)
  simpa using h

/-- The last line of `calculateCategoryScore` on a whole score between `0` and
`9 * 10^13`: the product with 100 is below `2^53`, so nothing is rounded. -/
theorem score_tail (d : Int) (h0 : 0 ≤ d) (h1 : d ≤ 90000000000000) :
    f64 (mathRound (f64 ((d : ℚ) * 100)) / 100) = (d : ℚ) := by
  have hc : ((d : ℚ) * 100) = (((d * 100 : Int)) : ℚ) := by push_cast; ring
  rw [hc, f64_intCast _ (by rw [abs_of_nonneg (by omega)]; omega), mathRound_intCast]
  have hd : (((d * 100 : Int)) : ℚ) / 100 = (d : ℚ) := by push_cast; field_simp
  rw [hd, f64_intCast _ (by rw [abs_of_nonneg h0]; omega)]

/-- A difference that is not positive is clamped to zero. -/
theorem clamp_nonpos {x : ℚ} (h : x ≤ 0) : (if f64 x < 0 then 0 else f64 x) = 0 := by
  split_ifs with hlt
  · rfl
  · exact le_antisymm (f64_nonpos h) (not_lt.mp hlt)

/-- For `|maxScore| ≤ 9 * 10^13` the clamped difference that `calculateCategoryScore`
computes is the integer `max 0 (maxScore - totalPenalty L)`, for every list. -/
theorem clamped_score (L : List Issue) (maxScore : Int) (hb : |maxScore| ≤ 90000000000000) :
    (if f64 (f64 (maxScore : ℚ) - L.foldl penaltyStep 0) < 0 then 0
        else f64 (f64 (maxScore : ℚ) - L.foldl penaltyStep 0))
      = ((max 0 (maxScore - (totalPenalty L : Int)) : Int) : ℚ) := by
  have hb1 := (abs_le.mp hb).1
  have hb2 := (abs_le.mp hb).2
  have hm : f64 (maxScore : ℚ) = (maxScore : ℚ) :=
    f64_intCast _ (lt_of_le_of_lt hb (by norm_num))
  have hT : (0 : Int) ≤ (totalPenalty L : Int) := Int.natCast_nonneg _
  rw [hm]
  rcases foldl_penaltyStep L with ⟨hp, _⟩ | ⟨hp, hbig⟩
  · rw [hp]
    have hcast : ((maxScore : ℚ) - (totalPenalty L : ℚ))
        = (((maxScore - (totalPenalty L : Int) : Int)) : ℚ) := by push_cast; ring
    rw [hcast]
    by_cases hd : 0 ≤ maxScore - (totalPenalty L : Int)
    · rw [f64_intCast _ (by rw [abs_of_nonneg hd]; omega), max_eq_right hd,
        if_neg (by exact_mod_cast not_lt.mpr hd)]
    · rw [clamp_nonpos (by exact_mod_cast (le_of_lt (not_le.mp hd))),
        max_eq_left (le_of_lt (not_le.mp hd))]
      simp
  · have hm2 : (maxScore : ℚ) ≤ 90000000000000 := by exact_mod_cast hb2
    rw [clamp_nonpos (by linarith), max_eq_left (by omega)]
    simp

/-- For `|maxScore| ≤ 9 * 10^13`, on a non-empty list the score is the integer
`max 0 (maxScore - totalPenalty L)`. -/
theorem calculateCategoryScore_of_ne_nil (L : List Issue) (maxScore : Int) (hL : L ≠ [])
    (hb : |maxScore| ≤ 90000000000000) :
    calculateCategoryScore L maxScore
      = ((max 0 (maxScore - (totalPenalty L : Int)) : Int) : ℚ) := by
  have hb2 := (abs_le.mp hb).2
  have hlen : ¬ L.length = 0 := by
    intro h; exact hL (List.length_eq_zero.mp h)
  have hT : (0 : Int) ≤ (totalPenalty L : Int) := Int.natCast_nonneg _
  unfold calculateCategoryScore
  rw [if_neg hlen]
  simp only []
  rw [clamped_score L maxScore hb]
  exact score_tail _ (le_max_left 0 _) (max_le (by norm_num) (by omega))

theorem calculateCategoryScore_cons (i : Issue) (L : List Issue) (maxScore : Int)
    (hb : |maxScore| ≤ 90000000000000) :
    calculateCategoryScore (i :: L) maxScore
      = ((max 0 (maxScore - (totalPenalty (i :: L) : Int)) : Int) : ℚ) :=
  calculateCategoryScore_of_ne_nil (i :: L) maxScore (by simp) hb

/-- On the empty list the score is `float64(maxScore)`. -/
theorem calculateCategoryScore_nil (maxScore : Int) :
    calculateCategoryScore [] maxScore = f64 (maxScore : ℚ) := by
  simp [calculateCategoryScore]

theorem calculateCategoryScore_nil_exact (maxScore : Int)
    (hb : |maxScore| ≤ 90000000000000) :
    calculateCategoryScore [] maxScore = (maxScore : ℚ) := by
  rw [calculateCategoryScore_nil]
  exact f64_intCast _ (lt_of_le_of_lt hb (by norm_num))

theorem categoryScoreSpec_cons (i : Issue) (L : List Issue) (maxScore : Int) :
    categoryScoreSpec (i :: L) maxScore
      = ((max 0 (maxScore - (totalPenalty (i :: L) : Int)) : Int) : ℚ) := by
  have hcast : (maxScore : ℚ) -
      (15 * (severityCount "critical" (i :: L) : ℚ) + 10 * (severityCount "high" (i :: L) : ℚ)
        + 5 * (severityCount "medium" (i :: L) : ℚ) + 2 * (severityCount "low" (i :: L) : ℚ))
      = (((maxScore - (totalPenalty (i :: L) : Int) : Int)) : ℚ) := by
    unfold totalPenalty; push_cast; ring
  have hmax : max (0 : ℚ) (((maxScore - (totalPenalty (i :: L) : Int) : Int)) : ℚ)
      = ((max 0 (maxScore - (totalPenalty (i :: L) : Int)) : Int) : ℚ) := by
    rw [Int.cast_max]; simp
  show roundTo2 _ = _
  rw [hcast, hmax, roundTo2_intCast]

theorem totalPenalty_append (A B : List Issue) :
    totalPenalty (A ++ B) = totalPenalty A + totalPenalty B := by
  simp only [totalPenalty, severityCount, List.countP_append]
  ring

theorem totalPenalty_critical (c : Issue) (hc : c.Severity = SeverityCritical) :
    totalPenalty [c] = 15 := by
  simp [totalPenalty, severityCount, hc, SeverityCritical]

theorem totalPenalty_insert_critical (L1 L2 : List Issue) (c : Issue)
    (hc : c.Severity = SeverityCritical) :
    totalPenalty (L1 ++ c :: L2) = totalPenalty (L1 ++ L2) + 15 := by
  rw [totalPenalty_append, totalPenalty_cons, totalPenalty_critical c hc, totalPenalty_append]
  ring

/-- The score of one critical finding for `maxScore = 3518327057984836987`: the
product with 100 and the quotient by 100 are both rounded, and the result is 512
above `float64(maxScore)`. -/
theorem calculateCategoryScore_large_critical :
    calculateCategoryScore [] 3518327057984836987 = 3518327057984837120
    ∧ calculateCategoryScore [issueOfSeverity SeverityCritical] 3518327057984836987
        = 3518327057984837632 := by
  have hmax : f64 ((3518327057984836987 : Int) : ℚ) = 3518327057984837120 := by
    rw [f64_eq _ 61 6871732535126635 (by norm_num) (by norm_num)
      (roundHalfEven_eq_of_near _ _ (by norm_num) (by norm_num))]
    norm_num
  have hpen : [issueOfSeverity SeverityCritical].foldl penaltyStep 0 = 15 := by
    rw [List.foldl_cons, List.foldl_nil, penaltyStep_eq,
      totalPenalty_critical _ rfl, if_neg (by decide)]
    have : (0 : ℚ) + ((15 : Nat) : ℚ) = ((15 : Nat) : ℚ) := by norm_num
    rw [this, f64_natCast 15 (by norm_num)]
    norm_num
  have hsub : f64 ((3518327057984837120 : ℚ) - 15) = 3518327057984837120 := by
    rw [f64_eq _ 61 6871732535126635 (by norm_num) (by norm_num)
      (roundHalfEven_eq_of_near _ _ (by norm_num) (by norm_num))]
    norm_num
  have hmul : f64 ((3518327057984837120 : ℚ) * 100) = ((351832705798483738624 : Int) : ℚ) := by
    rw [f64_eq _ 68 5368541043067684 (by norm_num) (by norm_num)
      (roundHalfEven_eq_of_near _ _ (by norm_num) (by norm_num))]
    norm_num
  have hdiv : f64 (((351832705798483738624 : Int) : ℚ) / 100) = 3518327057984837632 := by
    rw [f64_eq _ 61 6871732535126636 (by norm_num) (by norm_num)
      (roundHalfEven_eq_of_near _ _ (by norm_num) (by norm_num))]
    norm_num
  refine ⟨by rw [calculateCategoryScore_nil, hmax], ?_⟩
  unfold calculateCategoryScore
  rw [if_neg (by simp)]
  simp only []
  rw [hmax, hpen, hsub, if_neg (by norm_num), hmul, mathRound_intCast, hdiv]

/-- The score of one low finding for `maxScore = 2^53 + 1`. -/
theorem calculateCategoryScore_large_low :
    calculateCategoryScore [issueOfSeverity SeverityLow] 9007199254740993
      = 9007199254740989 := by
  have hmax : f64 ((9007199254740993 : Int) : ℚ) = 9007199254740992 := by
    have := f64_examples.1
    exact_mod_cast this
  have hpen : [issueOfSeverity SeverityLow].foldl penaltyStep 0 = 2 := by
    rw [List.foldl_cons, List.foldl_nil, penaltyStep_eq]
    have ht : totalPenalty [issueOfSeverity SeverityLow] = 2 := by
      simp [totalPenalty, severityCount, issueOfSeverity, SeverityLow]
    rw [ht, if_neg (by decide)]
    have : (0 : ℚ) + ((2 : Nat) : ℚ) = ((2 : Nat) : ℚ) := by norm_num
    rw [this, f64_natCast 2 (by norm_num)]
    norm_num
  have hsub : f64 ((9007199254740992 : ℚ) - 2) = 9007199254740990 := by
    have h := f64_intCast 9007199254740990 (by norm_num)
    have e : ((9007199254740992 : ℚ) - 2) = ((9007199254740990 : Int) : ℚ) := by norm_num
    rw [e, h]; norm_num
  have hmul : f64 ((9007199254740990 : ℚ) * 100) = ((900719925474098944 : Int) : ℚ) := by
    rw [f64_eq _ 59 7036874417766398 (by norm_num) (by norm_num)
      (roundHalfEven_eq_of_near _ _ (by norm_num) (by norm_num))]
    norm_num
  have hdiv : f64 (((900719925474098944 : Int) : ℚ) / 100) = 9007199254740989 := by
    rw [f64_eq _ 52 9007199254740989 (by norm_num) (by norm_num)
      (roundHalfEven_eq_of_near _ _ (by norm_num) (by norm_num))]
    norm_num
  unfold calculateCategoryScore
  rw [if_neg (by simp)]
  simp only []
  rw [hmax, hpen, hsub, if_neg (by norm_num), hmul, mathRound_intCast, hdiv]

/-! ## Claims on `calculateCategoryScore` -/

/-- C1 (as stated, refuted): `maxScore = 2^53 + 1` is not a `float64`.  On the empty
list the code returns `float64(maxScore) = 2^53`, not `maxScore`; on one low finding
it returns `9007199254740989`, while the reference value is `maxScore - 2`. -/
theorem calculateCategoryScore_eq_spec_fails :
    calculateCategoryScore [] 9007199254740993 = 9007199254740992
    ∧ categoryScoreSpec [] 9007199254740993 = 9007199254740993
    ∧ calculateCategoryScore [] 9007199254740993 ≠ categoryScoreSpec [] 9007199254740993
    ∧ calculateCategoryScore [issueOfSeverity SeverityLow] 9007199254740993
        = 9007199254740989
    ∧ categoryScoreSpec [issueOfSeverity SeverityLow] 9007199254740993
        = 9007199254740991 := by
  have h1 : calculateCategoryScore [] 9007199254740993 = 9007199254740992 := by
    rw [calculateCategoryScore_nil]
    have := f64_examples.1
    exact_mod_cast this
  have h2 : categoryScoreSpec [] 9007199254740993 = 9007199254740993 := by
    simp [categoryScoreSpec]
  refine ⟨h1, h2, ?_, calculateCategoryScore_large_low, ?_⟩
  · rw [h1, h2]; norm_num
  · rw [categoryScoreSpec_cons]
    simp [totalPenalty, severityCount, issueOfSeverity, SeverityLow]

/-- C1 (amended): for every finding list and every integer `maxScore` with
`|maxScore| ≤ 9 * 10^13`, `calculateCategoryScore` equals the reference definition
(`maxScore` on the empty list, otherwise `max(0, maxScore - (15c + 10h + 5m + 2l))`
rounded to two decimals); a finding of severity info leaves the penalty unchanged;
and `[critical, critical, medium]` with `maxScore = 100` scores 65. -/
theorem calculateCategoryScore_eq_spec (L : List Issue) (maxScore : Int)
    (hb : |maxScore| ≤ 90000000000000) :
    calculateCategoryScore L maxScore = categoryScoreSpec L maxScore
    ∧ (∀ (penalty : ℚ) (i : Issue),
        penaltyStep penalty { i with Severity := SeverityInfo } = penalty)
    ∧ calculateCategoryScore
        [issueOfSeverity SeverityCritical, issueOfSeverity SeverityCritical,
          issueOfSeverity SeverityMedium] 100 = 65 := by
  refine ⟨?_, ?_, ?_⟩
  · cases L with
    | nil => rw [calculateCategoryScore_nil_exact _ hb]; rfl
    | cons i L => rw [calculateCategoryScore_cons _ _ _ hb, categoryScoreSpec_cons]
  · intro penalty i
    simp [penaltyStep, SeverityInfo, SeverityCritical, SeverityHigh, SeverityMedium, SeverityLow]
  · rw [calculateCategoryScore_cons _ _ _ (by norm_num)]
    simp [totalPenalty, severityCount, issueOfSeverity, SeverityCritical, SeverityMedium]

/-- Instance of the C1 theorem at a concrete input, hypotheses discharged. -/
theorem calculateCategoryScore_eq_spec_witness :
    |(100 : Int)| ≤ 90000000000000
      ∧ calculateCategoryScore [issueOfSeverity SeverityHigh, issueOfSeverity SeverityInfo] 100
        = categoryScoreSpec [issueOfSeverity SeverityHigh, issueOfSeverity SeverityInfo] 100 :=
  ⟨by norm_num,
    (calculateCategoryScore_eq_spec
      [issueOfSeverity SeverityHigh, issueOfSeverity SeverityInfo] 100 (by norm_num)).1⟩

/-- C2 (as stated, refuted): for `maxScore = 2^53 + 3` and no finding the code returns
`float64(maxScore) = 2^53 + 4`, which is above `maxScore`. -/
theorem calculateCategoryScore_bounds_fails :
    calculateCategoryScore [] 9007199254740995 = 9007199254740996
    ∧ ¬ (0 ≤ calculateCategoryScore [] 9007199254740995
        ∧ calculateCategoryScore [] 9007199254740995 ≤ ((9007199254740995 : Int) : ℚ)) := by
  have h1 : calculateCategoryScore [] 9007199254740995 = 9007199254740996 := by
    rw [calculateCategoryScore_nil]
    have := f64_examples.2.1
    exact_mod_cast this
  refine ⟨h1, ?_⟩
  rw [h1]
  norm_num

/-- C2 (amended): for every finding list and every `maxScore` with
`0 ≤ maxScore ≤ 9 * 10^13`, the category score lies in the closed interval
`[0, maxScore]`. -/
theorem calculateCategoryScore_bounds (L : List Issue) (maxScore : Int)
    (hmax : 0 ≤ maxScore) (hb : maxScore ≤ 90000000000000) :
    0 ≤ calculateCategoryScore L maxScore
      ∧ calculateCategoryScore L maxScore ≤ (maxScore : ℚ) := by
  have habs : |maxScore| ≤ 90000000000000 := by rw [abs_of_nonneg hmax]; exact hb
  cases L with
  | nil =>
    rw [calculateCategoryScore_nil_exact _ habs]
    exact ⟨by exact_mod_cast hmax, le_refl _⟩
  | cons i L =>
    rw [calculateCategoryScore_cons _ _ _ habs]
    constructor
    · exact_mod_cast le_max_left 0 _
    · have h : max 0 (maxScore - (totalPenalty (i :: L) : Int)) ≤ maxScore := by
        apply max_le hmax
        have : (0 : Int) ≤ (totalPenalty (i :: L) : Int) := Int.natCast_nonneg _
        omega
      exact_mod_cast h

/-- Instance of the C2 theorem at a concrete input, hypotheses discharged. -/
theorem calculateCategoryScore_bounds_witness :
    (0 : Int) ≤ 100 ∧ (100 : Int) ≤ 90000000000000
      ∧ (0 ≤ calculateCategoryScore [issueOfSeverity SeverityCritical] 100
        ∧ calculateCategoryScore [issueOfSeverity SeverityCritical] 100 ≤ ((100 : Int) : ℚ)) :=
  ⟨by decide, by decide,
    calculateCategoryScore_bounds [issueOfSeverity SeverityCritical] 100 (by decide)
      (by decide)⟩

/-- C3 (as stated, refuted): with `maxScore = -5`, adding one critical finding to the
empty list raises the score from `-5` to `0`; and with
`maxScore = 3518327057984836987`, where the product with 100 is rounded, it raises
the score from `3518327057984837120` to `3518327057984837632`. -/
theorem calculateCategoryScore_monotone_fails :
    ¬ (calculateCategoryScore ([] ++ [issueOfSeverity SeverityCritical]) (-5)
        ≤ calculateCategoryScore [] (-5))
    ∧ ¬ (calculateCategoryScore ([] ++ [issueOfSeverity SeverityCritical])
          3518327057984836987
        ≤ calculateCategoryScore [] 3518327057984836987) := by
  constructor
  · rw [calculateCategoryScore_nil_exact _ (by norm_num), List.nil_append,
      calculateCategoryScore_cons _ _ _ (by norm_num)]
    simp [totalPenalty, severityCount, issueOfSeverity, SeverityCritical]
  · rw [List.nil_append, calculateCategoryScore_large_critical.1,
      calculateCategoryScore_large_critical.2]
    norm_num

/-- C3 (amended): if `|maxScore| ≤ 9 * 10^13` and the list is non-empty or
`maxScore ≥ 0`, then inserting one additional critical finding at any position never
increases the category score. -/
theorem calculateCategoryScore_add_critical (L1 L2 : List Issue) (c : Issue)
    (maxScore : Int) (hc : c.Severity = SeverityCritical)
    (h : L1 ++ L2 ≠ [] ∨ 0 ≤ maxScore) (hb : |maxScore| ≤ 90000000000000) :
    calculateCategoryScore (L1 ++ c :: L2) maxScore
      ≤ calculateCategoryScore (L1 ++ L2) maxScore := by
  have hne : L1 ++ c :: L2 ≠ [] := by simp
  rw [calculateCategoryScore_of_ne_nil _ _ hne hb, totalPenalty_insert_critical L1 L2 c hc]
  by_cases hL : L1 ++ L2 = []
  · have hmax : 0 ≤ maxScore := by
      rcases h with h | h
      · exact absurd hL h
      · exact h
    rw [hL, calculateCategoryScore_nil_exact _ hb, totalPenalty_nil]
    have : max 0 (maxScore - ((0 + 15 : Nat) : Int)) ≤ maxScore := by
      apply max_le hmax
      push_cast; omega
    exact_mod_cast this
  · rw [calculateCategoryScore_of_ne_nil _ _ hL hb]
    have : max 0 (maxScore - ((totalPenalty (L1 ++ L2) + 15 : Nat) : Int))
        ≤ max 0 (maxScore - (totalPenalty (L1 ++ L2) : Int)) := by
      apply max_le_max (le_refl _)
      push_cast; omega
    exact_mod_cast this

/-- Instance of the C3 theorem at a concrete input, hypotheses discharged. -/
theorem calculateCategoryScore_add_critical_witness :
    (issueOfSeverity SeverityCritical).Severity = SeverityCritical
      ∧ (([issueOfSeverity SeverityLow] ++ [issueOfSeverity SeverityHigh] ≠ []) ∨ (0 : Int) ≤ 100)
      ∧ |(100 : Int)| ≤ 90000000000000
      ∧ calculateCategoryScore
          ([issueOfSeverity SeverityLow] ++ issueOfSeverity SeverityCritical
            :: [issueOfSeverity SeverityHigh]) 100
        ≤ calculateCategoryScore
          ([issueOfSeverity SeverityLow] ++ [issueOfSeverity SeverityHigh]) 100 :=
  ⟨rfl, Or.inr (by decide), by norm_num,
    calculateCategoryScore_add_critical [issueOfSeverity SeverityLow]
      [issueOfSeverity SeverityHigh] (issueOfSeverity SeverityCritical) 100 rfl
      (Or.inr (by decide)) (by norm_num)⟩

/-! ## Claims on `calculateOverallScore` -/

/-- A sum of whole scores between 0 and 100 is a whole number, at most 100 per
entry. -/
theorem sum_whole (xs : List ℚ) (hs : ∀ x ∈ xs, ∃ k : Nat, x = (k : ℚ) ∧ k ≤ 100) :
    ∃ t : Nat, xs.sum = (t : ℚ) ∧ t ≤ 100 * xs.length := by
  induction xs with
  | nil => exact ⟨0, by simp, by simp⟩
  | cons x xs ih =>
    obtain ⟨k, hk, hk100⟩ := hs x (List.mem_cons_self _ _)
    obtain ⟨t, ht, ht100⟩ := ih (fun y hy => hs y (List.mem_cons_of_mem _ hy))
    refine ⟨k + t, ?_, ?_⟩
    · rw [List.sum_cons, hk, ht]; push_cast; ring
    · rw [List.length_cons]; omega

/-- The accumulation loop of `calculateOverallScore` rounds nothing while the scores
are whole numbers between 0 and 100 and their count is far below `2^53 / 100`. -/
theorem foldl_add_score (cs : List CategoryScore) (a : Nat)
    (hs : ∀ x ∈ cs.map (fun s => s.Score), ∃ k : Nat, x = (k : ℚ) ∧ k ≤ 100)
    (hlen : a + 100 * cs.length < 9007199254740992) :
    cs.foldl (fun total score => f64 (total + score.Score)) (a : ℚ)
      = (a : ℚ) + (cs.map (fun s => s.Score)).sum := by
  induction cs generalizing a with
  | nil => simp
  | cons c cs ih =>
    obtain ⟨k, hk, hk100⟩ := hs c.Score (by simp)
    rw [List.length_cons] at hlen
    have hadd : (a : ℚ) + c.Score = ((a + k : Nat) : ℚ) := by rw [hk]; push_cast; ring
    rw [List.foldl_cons, hadd, f64_natCast _ (by omega),
      ih (a + k) (fun y hy => hs y (by
        rw [List.map_cons]; exact List.mem_cons_of_mem _ hy)) (by omega)]
    rw [List.map_cons, List.sum_cons, hk]
    push_cast; ring

/-- For at most `2^32` whole scores between 0 and 100 the sum and the count are exact,
and the three roundings of the last line remain. -/
theorem calculateOverallScore_eq (cs : List CategoryScore) (hne : cs ≠ [])
    (hs : ∀ x ∈ cs.map (fun s => s.Score), ∃ k : Nat, x = (k : ℚ) ∧ k ≤ 100)
    (hlen : cs.length ≤ 4294967296) :
    calculateOverallScore cs
      = f64 (mathRound (f64 (f64 ((cs.map (fun s => s.Score)).sum
          / (((cs.map (fun s => s.Score)).length : Nat) : ℚ)) * 100)) / 100) := by
  have hl : ¬ cs.length = 0 := fun h => hne (List.length_eq_zero.mp h)
  have hfold : cs.foldl (fun total score => f64 (total + score.Score)) 0
      = (cs.map (fun s => s.Score)).sum := by
    have h := foldl_add_score cs 0 hs (by omega)
    simpa using h
  unfold calculateOverallScore
  rw [if_neg hl]
  simp only []
  rw [hfold, f64_natCast _ (by omega), List.length_map]

theorem calculateOverallScore_congr {cs1 cs2 : List CategoryScore}
    (h : (cs1.map (fun s => s.Score)).Perm (cs2.map (fun s => s.Score)))
    (hs : ∀ x ∈ cs1.map (fun s => s.Score), ∃ k : Nat, x = (k : ℚ) ∧ k ≤ 100)
    (hlen : cs1.length ≤ 4294967296) :
    calculateOverallScore cs1 = calculateOverallScore cs2 := by
  have hlen_eq : cs1.length = cs2.length := by
    have := h.length_eq
    rwa [List.length_map, List.length_map] at this
  by_cases hne : cs1 = []
  · have h2 : cs2 = [] := by
      apply List.length_eq_zero.mp
      rw [← hlen_eq, hne]; rfl
    rw [hne, h2]
  · have hne2 : cs2 ≠ [] := by
      intro e
      apply hne
      apply List.length_eq_zero.mp
      rw [hlen_eq, e]; rfl
    rw [calculateOverallScore_eq cs1 hne hs hlen,
      calculateOverallScore_eq cs2 hne2 (fun x hx => hs x (h.mem_iff.mpr hx))
        (by rw [← hlen_eq]; exact hlen),
      h.length_eq, h.sum_eq]

/-- Go `math.Round` gives the same integer for two non-negative arguments that are
closer than `1/(2n)`, when the first is a multiple of `1/(2n)` and not halfway
between two integers. -/
theorem mathRound_stable (x y : ℚ) (n : Nat) (hn : 0 < n) (hx : 0 ≤ x) (hy : 0 ≤ y)
    (z : Int) (hz : x * (2 * (n : ℚ)) = (z : ℚ))
    (hhalf : ∀ k : Int, x ≠ (k : ℚ) + 1 / 2)
    (hclose : |y - x| < 1 / (2 * (n : ℚ))) : mathRound y = mathRound x := by
  have h2n : (0 : ℚ) < 2 * (n : ℚ) := by positivity
  have hk1 := Int.floor_le (x + 1 / 2)
  have hk2 := Int.lt_floor_add_one (x + 1 / 2)
  have e1 : (x + 1 / 2 - (⌊x + 1 / 2⌋ : ℚ)) * (2 * (n : ℚ))
      = ((z + n - 2 * n * ⌊x + 1 / 2⌋ : Int) : ℚ) := by
    push_cast; rw [← hz]; ring
  have e2 : ((⌊x + 1 / 2⌋ : ℚ) + 1 - (x + 1 / 2)) * (2 * (n : ℚ))
      = ((2 * n * ⌊x + 1 / 2⌋ + n - z : Int) : ℚ) := by
    push_cast; rw [← hz]; ring
  have p1 : 0 < x + 1 / 2 - (⌊x + 1 / 2⌋ : ℚ) := by
    refine lt_of_le_of_ne (sub_nonneg.mpr hk1) ?_
    intro h0
    apply hhalf (⌊x + 1 / 2⌋ - 1)
    push_cast
    linarith
  have p2 : 0 < (⌊x + 1 / 2⌋ : ℚ) + 1 - (x + 1 / 2) := by linarith
  have w1 : (1 : ℚ) ≤ (x + 1 / 2 - (⌊x + 1 / 2⌋ : ℚ)) * (2 * (n : ℚ)) := by
    have hpos := mul_pos p1 h2n
    rw [e1] at hpos ⊢
    have : (0 : Int) < z + n - 2 * n * ⌊x + 1 / 2⌋ := by exact_mod_cast hpos
    exact_mod_cast Int.add_one_le_iff.mpr this
  have w2 : (1 : ℚ) ≤ ((⌊x + 1 / 2⌋ : ℚ) + 1 - (x + 1 / 2)) * (2 * (n : ℚ)) := by
    have hpos := mul_pos p2 h2n
    rw [e2] at hpos ⊢
    have : (0 : Int) < 2 * n * ⌊x + 1 / 2⌋ + n - z := by exact_mod_cast hpos
    exact_mod_cast Int.add_one_le_iff.mpr this
  have d1 : 1 / (2 * (n : ℚ)) ≤ x + 1 / 2 - (⌊x + 1 / 2⌋ : ℚ) :=
    (div_le_iff₀ h2n).mpr w1
  have d2 : 1 / (2 * (n : ℚ)) ≤ (⌊x + 1 / 2⌋ : ℚ) + 1 - (x + 1 / 2) :=
    (div_le_iff₀ h2n).mpr w2
  have hc := abs_lt.mp hclose
  have hfl : ⌊y + 1 / 2⌋ = ⌊x + 1 / 2⌋ := by
    rw [Int.floor_eq_iff]
    constructor <;> linarith [hc.1, hc.2]
  unfold mathRound
  rw [if_pos hx, if_pos hy, hfl]

/-- For at most `2^32` whole scores between 0 and 100 whose mean, taken 100 times, is
not halfway between two integers, the result is the `float64` nearest to the mean
rounded to two decimals. -/
theorem calculateOverallScore_round (cs : List CategoryScore) (hne : cs ≠ [])
    (hs : ∀ x ∈ cs.map (fun s => s.Score), ∃ k : Nat, x = (k : ℚ) ∧ k ≤ 100)
    (hlen : cs.length ≤ 4294967296)
    (hhalf : ∀ k : Int, (cs.map (fun s => s.Score)).sum / ((cs.length : Nat) : ℚ) * 100
      ≠ (k : ℚ) + 1 / 2) :
    calculateOverallScore cs
      = f64 (roundTo2 ((cs.map (fun s => s.Score)).sum / ((cs.length : Nat) : ℚ))) := by
  obtain ⟨t, ht, ht100⟩ := sum_whole _ hs
  rw [List.length_map] at ht100
  have hpos : 0 < cs.length := List.length_pos.mpr hne
  have hnq : (0 : ℚ) < (cs.length : ℚ) := by exact_mod_cast hpos
  have hnle : (cs.length : ℚ) ≤ 4294967296 := by exact_mod_cast hlen
  have htq : (t : ℚ) ≤ 100 * (cs.length : ℚ) := by exact_mod_cast ht100
  have ht0 : (0 : ℚ) ≤ (t : ℚ) := Nat.cast_nonneg _
  rw [calculateOverallScore_eq cs hne hs hlen, List.length_map]
  rw [ht] at hhalf ⊢
  have hmean0 : 0 ≤ (t : ℚ) / (cs.length : ℚ) := div_nonneg ht0 hnq.le
  have hmean100 : (t : ℚ) / (cs.length : ℚ) ≤ 100 := by
    rw [div_le_iff₀ hnq]; exact htq
  have hm0 : 0 ≤ f64 ((t : ℚ) / (cs.length : ℚ)) := f64_nonneg hmean0
  have herr1 := abs_le.mp (f64_err ((t : ℚ) / (cs.length : ℚ)))
  rw [abs_of_nonneg hmean0] at herr1
  have hm100 : 0 ≤ f64 ((t : ℚ) / (cs.length : ℚ)) * 100 := by positivity
  have herr2 := abs_le.mp (f64_err (f64 ((t : ℚ) / (cs.length : ℚ)) * 100))
  rw [abs_of_nonneg hm100] at herr2
  have hsmall : (1 : ℚ) / 8589934592 ≤ 1 / (2 * (cs.length : ℚ)) := by
    apply one_div_le_one_div_of_le (by positivity)
    linarith
  have hstable := mathRound_stable ((t : ℚ) / (cs.length : ℚ) * 100)
    (f64 (f64 ((t : ℚ) / (cs.length : ℚ)) * 100)) cs.length hpos (by positivity)
    (f64_nonneg hm100) (200 * t)
    (by push_cast; field_simp; ring) hhalf
    (by
      refine lt_of_lt_of_le ?_ hsmall
      rw [abs_lt]
      constructor <;> linarith [herr1.1, herr1.2, herr2.1, herr2.2])
  unfold roundTo2
  rw [hstable]

/-- A count that is odd never puts 100 times the mean of whole scores halfway between
two integers. -/
theorem odd_length_not_half (t n : Nat) (hn : n % 2 = 1) (k : Int) :
    (t : ℚ) / (n : ℚ) * 100 ≠ (k : ℚ) + 1 / 2 := by
  intro h
  have hn0 : (n : ℚ) ≠ 0 := by
    have : n ≠ 0 := by omega
    exact_mod_cast this
  have hq : (200 * (t : ℚ)) = (n : ℚ) * (2 * (k : ℚ) + 1) := by
    field_simp at h
    linarith
  have hz : (200 * (t : Int)) = (n : Int) * (2 * k + 1) := by exact_mod_cast hq
  have hodd : Odd ((n : Int) * (2 * k + 1)) :=
    Odd.mul (by rw [Int.odd_iff]; omega) ⟨k, rfl⟩
  rw [← hz] at hodd
  have heven : Even (200 * (t : Int)) := ⟨100 * t, by ring⟩
  exact (Int.not_even_iff_odd.mpr hodd) heven

/-- C4 (as stated, refuted): for the 40 scores `23, 0, ..., 0` the mean is `0.575`,
which rounds to `0.58`; the code divides in `float64`, where the quotient is below
`0.575` and its product with 100 below `57.5`, and returns `0.57`. -/
theorem calculateOverallScore_eq_spec_fails :
    calculateOverallScore (mkScore "security" 23 100 :: List.replicate 39 (mkScore "" 0 100))
        = f64 (57 / 100)
    ∧ overallScoreSpec (mkScore "security" 23 100 :: List.replicate 39 (mkScore "" 0 100))
        = 58 / 100
    ∧ calculateOverallScore (mkScore "security" 23 100 :: List.replicate 39 (mkScore "" 0 100))
        ≠ f64 (58 / 100)
    ∧ 1 / 200 < |calculateOverallScore
          (mkScore "security" 23 100 :: List.replicate 39 (mkScore "" 0 100))
        - overallScoreSpec
          (mkScore "security" 23 100 :: List.replicate 39 (mkScore "" 0 100))| := by
  have hsum : ((mkScore "security" 23 100 :: List.replicate 39 (mkScore "" 0 100)).map
      (fun s => s.Score)).sum = 23 := by
    simp [mkScore, List.sum_replicate]
  have hmul : f64 ((2589569785738035 / 4503599627370496 : ℚ) * 100)
      = 8092405580431359 / 140737488355328 := by
    rw [f64_eq _ 5 8092405580431359 (by norm_num) (by norm_num)
      (roundHalfEven_eq_of_near _ _ (by norm_num) (by norm_num))]
    norm_num
  have hround : mathRound (8092405580431359 / 140737488355328 : ℚ) = 57 := by
    unfold mathRound
    rw [if_pos (by norm_num)]
    have : ⌊(8092405580431359 / 140737488355328 : ℚ) + 1 / 2⌋ = 57 := by
      rw [Int.floor_eq_iff]; norm_num
    rw [this]; norm_num
  have hcode : calculateOverallScore
      (mkScore "security" 23 100 :: List.replicate 39 (mkScore "" 0 100)) = f64 (57 / 100) := by
    rw [calculateOverallScore_eq _ (by simp)
      (by
        intro x hx
        simp only [List.map_cons, List.map_replicate, List.mem_cons, List.mem_replicate] at hx
        rcases hx with rfl | ⟨_, rfl⟩
        · exact ⟨23, by simp [mkScore], by norm_num⟩
        · exact ⟨0, by simp [mkScore], by norm_num⟩)
      (by simp), hsum]
    have hq : (23 : ℚ) / (((List.map (fun s => s.Score)
        (mkScore "security" 23 100 :: List.replicate 39 (mkScore "" 0 100))).length : Nat) : ℚ)
        = 23 / 40 := by
      simp
    rw [hq, f64_examples.2.2.1, hmul, hround]
  have hspec : overallScoreSpec
      (mkScore "security" 23 100 :: List.replicate 39 (mkScore "" 0 100)) = 58 / 100 := by
    show roundTo2 _ = _
    rw [hsum]
    have hq : (23 : ℚ) / (((mkScore "security" 23 100
        :: List.replicate 39 (mkScore "" 0 100)).length : Nat) : ℚ) = 23 / 40 := by
      simp
    rw [hq]
    unfold roundTo2 mathRound
    rw [if_pos (by norm_num)]
    have : ⌊(23 / 40 : ℚ) * 100 + 1 / 2⌋ = 58 := by
      rw [Int.floor_eq_iff]; norm_num
    rw [this]; norm_num
  refine ⟨hcode, hspec, ?_, ?_⟩
  · rw [hcode, f64_examples.2.2.2.1, f64_examples.2.2.2.2]; norm_num
  · rw [hcode, hspec, f64_examples.2.2.2.1]
    rw [lt_abs]
    right
    norm_num

/-- C4 (amended): `calculateOverallScore` is `0` on the empty list.  On a non-empty
list of at most `2^32` entries whose scores are whole numbers between 0 and 100, it
returns the `float64` nearest to the arithmetic mean of the `Score` fields rounded to
two decimals, provided 100 times the mean is not halfway between two integers; this
is so whenever the number of entries is odd, as for the nine catalog categories.  The
result does not depend on the `IssueCount` fields. -/
theorem calculateOverallScore_mean (cs : List CategoryScore)
    (hs : ∀ s ∈ cs, ∃ k : Nat, s.Score = (k : ℚ) ∧ k ≤ 100)
    (hlen : cs.length ≤ 4294967296) :
    calculateOverallScore [] = 0
    ∧ (cs ≠ [] →
        (∀ k : Int, (cs.map (fun s => s.Score)).sum / ((cs.length : Nat) : ℚ) * 100
          ≠ (k : ℚ) + 1 / 2) →
        calculateOverallScore cs = f64 (overallScoreSpec cs))
    ∧ (cs.length % 2 = 1 → calculateOverallScore cs = f64 (overallScoreSpec cs))
    ∧ (∀ f : CategoryScore → Int,
        calculateOverallScore (cs.map (fun s => { s with IssueCount := f s }))
          = calculateOverallScore cs) := by
  have hs' : ∀ x ∈ cs.map (fun s => s.Score), ∃ k : Nat, x = (k : ℚ) ∧ k ≤ 100 := by
    intro x hx
    obtain ⟨s, hs1, rfl⟩ := List.mem_map.mp hx
    exact hs s hs1
  have hspec : cs ≠ [] → overallScoreSpec cs
      = roundTo2 ((cs.map (fun s => s.Score)).sum / ((cs.length : Nat) : ℚ)) := by
    intro hne
    cases cs with
    | nil => exact absurd rfl hne
    | cons c cs => rfl
  have hmain : cs ≠ [] →
      (∀ k : Int, (cs.map (fun s => s.Score)).sum / ((cs.length : Nat) : ℚ) * 100
        ≠ (k : ℚ) + 1 / 2) →
      calculateOverallScore cs = f64 (overallScoreSpec cs) := by
    intro hne hhalf
    rw [hspec hne]
    exact calculateOverallScore_round cs hne hs' hlen hhalf
  refine ⟨by simp [calculateOverallScore], hmain, ?_, ?_⟩
  · intro hodd
    have hne : cs ≠ [] := by
      intro e; rw [e] at hodd; simp at hodd
    apply hmain hne
    intro k
    obtain ⟨t, ht, _⟩ := sum_whole _ hs'
    rw [ht]
    exact odd_length_not_half t cs.length hodd k
  · intro f
    unfold calculateOverallScore
    simp only [List.length_map, List.foldl_map]

/-- Instance of the C4 theorem at a concrete input, hypotheses discharged. -/
theorem calculateOverallScore_mean_witness :
    (∀ s ∈ [mkScore "security" 85 100, mkScore "testing" 100 100, mkScore "logging" 98 100],
        ∃ k : Nat, s.Score = (k : ℚ) ∧ k ≤ 100)
    ∧ [mkScore "security" 85 100, mkScore "testing" 100 100, mkScore "logging" 98 100].length
        ≤ 4294967296
    ∧ calculateOverallScore
        [mkScore "security" 85 100, mkScore "testing" 100 100, mkScore "logging" 98 100]
      = f64 (overallScoreSpec
        [mkScore "security" 85 100, mkScore "testing" 100 100, mkScore "logging" 98 100]) :=
  have hs : ∀ s ∈ [mkScore "security" 85 100, mkScore "testing" 100 100,
      mkScore "logging" 98 100], ∃ k : Nat, s.Score = (k : ℚ) ∧ k ≤ 100 := by
    intro s hs
    simp only [List.mem_cons, List.mem_singleton, List.not_mem_nil, or_false] at hs
    rcases hs with rfl | rfl | rfl
    · exact ⟨85, by simp [mkScore], by norm_num⟩
    · exact ⟨100, by simp [mkScore], by norm_num⟩
    · exact ⟨98, by simp [mkScore], by norm_num⟩
  ⟨hs, by decide, (calculateOverallScore_mean _ hs (by decide)).2.2.1 (by decide)⟩

/-! ## Lemmas on `calculateCategoryScores` -/

theorem foldl_append_singleton {α β : Type} (g : α → β) (l : List α) (init : List β) :
    l.foldl (fun acc e => acc ++ [g e]) init = init ++ l.map g := by
  induction l generalizing init with
  | nil => simp
  | cons a l ih => rw [List.foldl_cons, ih]; simp

/-- The catalog loop produces one entry per visited catalog entry, in visiting order. -/
theorem calculateCategoryScores_eq_map (catalogOrder : List (String × CategoryScore))
    (rangeKeys : List String → List String) (issues : List Issue) :
    calculateCategoryScores catalogOrder rangeKeys issues
      = catalogOrder.map (fun entry =>
          categoryScoreFor rangeKeys (issues.foldl groupStep (fun _ => [])) entry.1 entry.2) := by
  unfold calculateCategoryScores
  simp only []
  rw [foldl_append_singleton (fun entry : String × CategoryScore =>
    categoryScoreFor rangeKeys (issues.foldl groupStep (fun _ => [])) entry.1 entry.2)]
  simp

/-- The grouping loop collects, per category, the findings classified into it, in
input order. -/
theorem foldl_groupStep (L : List Issue) (init : String → List Issue) (c : String) :
    (L.foldl groupStep init) c = init c ++ issuesOfCategory c L := by
  induction L generalizing init with
  | nil => simp [issuesOfCategory]
  | cons i L ih =>
    rw [List.foldl_cons, ih]
    by_cases h : mapIssueTypeToCategory i.Type' = c
    · subst h
      simp [groupStep, issuesOfCategory, List.filter_cons]
    · have h' : c ≠ mapIssueTypeToCategory i.Type' := fun e => h e.symm
      simp [groupStep, issuesOfCategory, List.filter_cons, h, Function.update_noteq h']

theorem grouped_eq (L : List Issue) (c : String) :
    (L.foldl groupStep (fun _ => [])) c = issuesOfCategory c L := by
  rw [foldl_groupStep]; simp

/-- Number of findings of severity critical or high. -/
theorem foldl_countStep (L : List Issue) (c : SeverityCounters) :
    L.foldl countStep c
      = { criticalCount := c.criticalCount
            + (L.countP (fun i =>
                decide (i.Severity = SeverityCritical ∨ i.Severity = SeverityHigh)) : Nat),
          warningCount := c.warningCount
            + (L.countP (fun i => decide (i.Severity = SeverityMedium)) : Nat),
          infoCount := c.infoCount
            + (L.countP (fun i => decide (i.Severity = SeverityLow)) : Nat) } := by
  induction L generalizing c with
  | nil => simp
  | cons i L ih =>
    rw [List.foldl_cons, ih]
    unfold countStep SeverityCritical SeverityHigh SeverityMedium SeverityLow
    by_cases h1 : i.Severity = "critical"
    · simp [h1, List.countP_cons]; ring
    · by_cases h2 : i.Severity = "high"
      · simp [h2, List.countP_cons]; ring
      · by_cases h3 : i.Severity = "medium"
        · simp [h3, List.countP_cons]; ring
        · by_cases h4 : i.Severity = "low"
          · simp [h4, List.countP_cons]; ring
          · simp [h1, h2, h3, h4, List.countP_cons]

theorem totalPenalty_perm {A B : List Issue} (h : A.Perm B) :
    totalPenalty A = totalPenalty B := by
  simp only [totalPenalty, severityCount, h.countP_eq]

theorem calculateCategoryScore_perm {A B : List Issue} (h : A.Perm B) (maxScore : Int)
    (hb : |maxScore| ≤ 90000000000000) :
    calculateCategoryScore A maxScore = calculateCategoryScore B maxScore := by
  by_cases hA : A = []
  · subst hA
    rw [List.nil_perm.mp h]
  · have hB : B ≠ [] := fun e => hA (by subst e; exact List.perm_nil.mp h)
    rw [calculateCategoryScore_of_ne_nil A maxScore hA hb,
      calculateCategoryScore_of_ne_nil B maxScore hB hb, totalPenalty_perm h]

/-- With `maxScore = 100` the score is the whole number `max 0 (100 - totalPenalty G)`,
for every finding list. -/
theorem calculateCategoryScore_hundred (G : List Issue) :
    calculateCategoryScore G 100 = ((max 0 (100 - (totalPenalty G : Int)) : Int) : ℚ) := by
  by_cases hG : G = []
  · subst hG
    rw [calculateCategoryScore_nil_exact _ (by norm_num), totalPenalty_nil]
    norm_num
  · exact calculateCategoryScore_of_ne_nil G 100 hG (by norm_num)

/-- With `maxScore = 100` the score is a whole number between 0 and 100. -/
theorem calculateCategoryScore_hundred_whole (G : List Issue) :
    ∃ k : Nat, calculateCategoryScore G 100 = (k : ℚ) ∧ k ≤ 100 := by
  refine ⟨(max 0 (100 - (totalPenalty G : Int))).toNat, ?_, ?_⟩
  · rw [calculateCategoryScore_hundred]
    have h : ((max 0 (100 - (totalPenalty G : Int))).toNat : Int)
        = max 0 (100 - (totalPenalty G : Int)) := Int.toNat_of_nonneg (le_max_left 0 _)
    have hq : (((max 0 (100 - (totalPenalty G : Int))).toNat : Int) : ℚ)
        = ((max 0 (100 - (totalPenalty G : Int)) : Int) : ℚ) := by rw [h]
    rw [← hq]; norm_cast
  · have : max 0 (100 - (totalPenalty G : Int)) ≤ 100 := max_le (by norm_num) (by omega)
    omega

theorem issuesOfCategory_perm {L1 L2 : List Issue} (h : L1.Perm L2) (c : String) :
    (issuesOfCategory c L1).Perm (issuesOfCategory c L2) :=
  h.filter _

/-- The fields of the entry computed for one catalog entry, in closed form. -/
theorem categoryScoreFor_fields (rangeKeys : List String → List String) (L : List Issue)
    (name : String) (d : CategoryScore) :
    (categoryScoreFor rangeKeys (L.foldl groupStep (fun _ => [])) name d).CategoryName = name
    ∧ (categoryScoreFor rangeKeys (L.foldl groupStep (fun _ => [])) name d).MaxScore
        = d.MaxScore
    ∧ (categoryScoreFor rangeKeys (L.foldl groupStep (fun _ => [])) name d).Score
        = calculateCategoryScore (issuesOfCategory name L) d.MaxScore
    ∧ (categoryScoreFor rangeKeys (L.foldl groupStep (fun _ => [])) name d).IssueCount
        = ((issuesOfCategory name L).length : Int)
    ∧ (categoryScoreFor rangeKeys (L.foldl groupStep (fun _ => [])) name d).CriticalIssues
        = (((issuesOfCategory name L).countP (fun i =>
            decide (i.Severity = SeverityCritical ∨ i.Severity = SeverityHigh)) : Nat) : Int)
    ∧ (categoryScoreFor rangeKeys (L.foldl groupStep (fun _ => [])) name d).WarningIssues
        = (((issuesOfCategory name L).countP (fun i =>
            decide (i.Severity = SeverityMedium)) : Nat) : Int)
    ∧ (categoryScoreFor rangeKeys (L.foldl groupStep (fun _ => [])) name d).InfoIssues
        = (((issuesOfCategory name L).countP (fun i =>
            decide (i.Severity = SeverityLow)) : Nat) : Int) := by
  unfold categoryScoreFor
  simp [grouped_eq, foldl_countStep]

theorem mem_calculateCategoryScores {catalogOrder : List (String × CategoryScore)}
    {rangeKeys : List String → List String} {issues : List Issue} {s : CategoryScore}
    (hs : s ∈ calculateCategoryScores catalogOrder rangeKeys issues) :
    ∃ entry ∈ catalogOrder,
      s = categoryScoreFor rangeKeys (issues.foldl groupStep (fun _ => [])) entry.1 entry.2 := by
  rw [calculateCategoryScores_eq_map, List.mem_map] at hs
  obtain ⟨entry, hmem, heq⟩ := hs
  exact ⟨entry, hmem, heq.symm⟩

theorem CategoryDefinitions_maxScore {entry : String × CategoryScore}
    (h : entry ∈ CategoryDefinitions) : entry.2.MaxScore = 100 := by
  simp only [CategoryDefinitions, List.mem_cons, List.mem_singleton, List.not_mem_nil,
    or_false] at h
  rcases h with h | h | h | h | h | h | h | h | h <;> (subst h; rfl)

theorem CategoryDefinitions_keys : CategoryDefinitions.map Prod.fst = catalogNames := rfl

/-- Every score of the result is a whole number between 0 and 100. -/
theorem calculateCategoryScores_whole (order : List (String × CategoryScore))
    (rangeKeys : List String → List String) (L : List Issue)
    (horder : order.Perm CategoryDefinitions) :
    ∀ x ∈ (calculateCategoryScores order rangeKeys L).map (fun s => s.Score),
      ∃ k : Nat, x = (k : ℚ) ∧ k ≤ 100 := by
  intro x hx
  obtain ⟨s, hs, rfl⟩ := List.mem_map.mp hx
  obtain ⟨e, he, rfl⟩ := mem_calculateCategoryScores hs
  rw [(categoryScoreFor_fields rangeKeys L e.1 e.2).2.2.1,
    CategoryDefinitions_maxScore (horder.subset he)]
  exact calculateCategoryScore_hundred_whole _

theorem calculateCategoryScores_length (order : List (String × CategoryScore))
    (rangeKeys : List String → List String) (L : List Issue)
    (horder : order.Perm CategoryDefinitions) :
    (calculateCategoryScores order rangeKeys L).length = 9 := by
  rw [calculateCategoryScores_eq_map, List.length_map, horder.length_eq]
  rfl

theorem score_map_perm (L1 L2 : List Issue) (order1 order2 : List (String × CategoryScore))
    (range1 range2 : List String → List String) (hL : L1.Perm L2)
    (h1 : order1.Perm CategoryDefinitions) (h2 : order2.Perm CategoryDefinitions) :
    ((calculateCategoryScores order1 range1 L1).map (fun s => s.Score)).Perm
      ((calculateCategoryScores order2 range2 L2).map (fun s => s.Score)) := by
  rw [calculateCategoryScores_eq_map, calculateCategoryScores_eq_map, List.map_map, List.map_map]
  have hfun : order1.map ((fun s : CategoryScore => s.Score) ∘
        fun entry : String × CategoryScore =>
          categoryScoreFor range1 (L1.foldl groupStep (fun _ => [])) entry.1 entry.2)
      = order1.map ((fun s : CategoryScore => s.Score) ∘
        fun entry : String × CategoryScore =>
          categoryScoreFor range2 (L2.foldl groupStep (fun _ => [])) entry.1 entry.2) := by
    apply List.map_congr_left
    intro entry he
    simp only [Function.comp_apply]
    rw [(categoryScoreFor_fields range1 L1 entry.1 entry.2).2.2.1,
      (categoryScoreFor_fields range2 L2 entry.1 entry.2).2.2.1,
      CategoryDefinitions_maxScore (h1.subset he)]
    exact calculateCategoryScore_perm (issuesOfCategory_perm hL _) _ (by norm_num)
  rw [hfun]
  exact (h1.trans h2.symm).map _

theorem name_map_eq (order : List (String × CategoryScore))
    (rangeKeys : List String → List String) (L : List Issue) :
    (calculateCategoryScores order rangeKeys L).map (fun s => s.CategoryName)
      = order.map Prod.fst := by
  rw [calculateCategoryScores_eq_map, List.map_map]
  apply List.map_congr_left
  intro entry _
  exact (categoryScoreFor_fields rangeKeys L entry.1 entry.2).1

/-! ## Claims on `calculateCategoryScores` -/

/-- C5: scores are deterministic in the findings.  For two finding lists that are
permutations of each other and any two iteration orders of the category catalog (and
of the suggestion maps), the two results list the same categories, entries of the
same category agree on Score, IssueCount, CriticalIssues, WarningIssues and
InfoIssues, and the overall scores are equal. -/
theorem calculateCategoryScores_deterministic (L1 L2 : List Issue)
    (order1 order2 : List (String × CategoryScore))
    (range1 range2 : List String → List String)
    (hL : L1.Perm L2) (h1 : order1.Perm CategoryDefinitions)
    (h2 : order2.Perm CategoryDefinitions) :
    (∀ s1 ∈ calculateCategoryScores order1 range1 L1,
      ∀ s2 ∈ calculateCategoryScores order2 range2 L2,
        s1.CategoryName = s2.CategoryName →
          s1.Score = s2.Score ∧ s1.IssueCount = s2.IssueCount
            ∧ s1.CriticalIssues = s2.CriticalIssues
            ∧ s1.WarningIssues = s2.WarningIssues ∧ s1.InfoIssues = s2.InfoIssues)
    ∧ ((calculateCategoryScores order1 range1 L1).map (fun s => s.CategoryName)).Perm
        ((calculateCategoryScores order2 range2 L2).map (fun s => s.CategoryName))
    ∧ calculateOverallScore (calculateCategoryScores order1 range1 L1)
        = calculateOverallScore (calculateCategoryScores order2 range2 L2) := by
  refine ⟨?_, ?_, ?_⟩
  · intro s1 hs1 s2 hs2 hname
    obtain ⟨e1, he1, rfl⟩ := mem_calculateCategoryScores hs1
    obtain ⟨e2, he2, rfl⟩ := mem_calculateCategoryScores hs2
    have f1 := categoryScoreFor_fields range1 L1 e1.1 e1.2
    have f2 := categoryScoreFor_fields range2 L2 e2.1 e2.2
    have hkey : e1.1 = e2.1 := by rw [← f1.1, ← f2.1]; exact hname
    have hm1 : e1.2.MaxScore = 100 := CategoryDefinitions_maxScore (h1.subset he1)
    have hm2 : e2.2.MaxScore = 100 := CategoryDefinitions_maxScore (h2.subset he2)
    have hperm := issuesOfCategory_perm hL e1.1
    rw [f1.2.2.1, f1.2.2.2.1, f1.2.2.2.2.1, f1.2.2.2.2.2.1, f1.2.2.2.2.2.2,
      f2.2.2.1, f2.2.2.2.1, f2.2.2.2.2.1, f2.2.2.2.2.2.1, f2.2.2.2.2.2.2,
      ← hkey, hm1, hm2, calculateCategoryScore_perm hperm 100 (by norm_num), hperm.length_eq,
      hperm.countP_eq, hperm.countP_eq, hperm.countP_eq]
    exact ⟨rfl, rfl, rfl, rfl, rfl⟩
  · rw [name_map_eq, name_map_eq]
    exact (h1.trans h2.symm).map _
  · exact calculateOverallScore_congr
      (score_map_perm L1 L2 order1 order2 range1 range2 hL h1 h2)
      (calculateCategoryScores_whole order1 range1 L1 h1)
      (by rw [calculateCategoryScores_length order1 range1 L1 h1]; norm_num)

/-- Instance of the C5 theorem at a concrete input, hypotheses discharged. -/
theorem calculateCategoryScores_deterministic_witness :
    [mkIssue "xss_vulnerability" "critical" "escape output", mkIssue "test_missing" "low" ""].Perm
        [mkIssue "test_missing" "low" "", mkIssue "xss_vulnerability" "critical" "escape output"]
    ∧ CategoryDefinitions.Perm CategoryDefinitions
    ∧ CategoryDefinitions.reverse.Perm CategoryDefinitions
    ∧ calculateOverallScore (calculateCategoryScores CategoryDefinitions id
          [mkIssue "xss_vulnerability" "critical" "escape output", mkIssue "test_missing" "low" ""])
        = calculateOverallScore (calculateCategoryScores CategoryDefinitions.reverse List.reverse
          [mkIssue "test_missing" "low" "", mkIssue "xss_vulnerability" "critical" "escape output"]) :=
  ⟨List.Perm.swap _ _ _, List.Perm.refl _, List.reverse_perm _,
    (calculateCategoryScores_deterministic _ _ CategoryDefinitions CategoryDefinitions.reverse
      id List.reverse (List.Perm.swap _ _ _) (List.Perm.refl _) (List.reverse_perm _)).2.2⟩

theorem catalogNames_nodup : catalogNames.Nodup := by
  simp [catalogNames]

theorem sum_replicate_hundred (n : Nat) :
    (List.replicate n (100 : ℚ)).sum = (n : ℚ) * 100 := by
  simp [List.sum_replicate]

/-- C6: for every finding list and every iteration order of the catalog,
`calculateCategoryScores` returns exactly 9 entries, exactly one for each of the nine
catalog categories, each with `MaxScore = 100`; an entry whose category received no
finding has `Score = MaxScore`; and for the empty finding list every score is 100 and
the overall score is 100. -/
theorem calculateCategoryScores_catalog (order : List (String × CategoryScore))
    (rangeKeys : List String → List String) (L : List Issue)
    (horder : order.Perm CategoryDefinitions) :
    (calculateCategoryScores order rangeKeys L).length = 9
    ∧ (∀ s ∈ calculateCategoryScores order rangeKeys L, s.CategoryName ∈ catalogNames)
    ∧ (∀ c ∈ catalogNames,
        ((calculateCategoryScores order rangeKeys L).map (fun s => s.CategoryName)).count c = 1)
    ∧ (∀ s ∈ calculateCategoryScores order rangeKeys L,
        s.MaxScore = 100
        ∧ ((∀ f ∈ L, mapIssueTypeToCategory f.Type' ≠ s.CategoryName) →
            s.Score = (s.MaxScore : ℚ)))
    ∧ (∀ s ∈ calculateCategoryScores order rangeKeys [], s.Score = 100)
    ∧ calculateOverallScore (calculateCategoryScores order rangeKeys []) = 100 := by
  have hnames : ((calculateCategoryScores order rangeKeys L).map
      (fun s => s.CategoryName)).Perm catalogNames := by
    rw [name_map_eq, ← CategoryDefinitions_keys]
    exact horder.map _
  have hempty : ∀ s ∈ calculateCategoryScores order rangeKeys [], s.Score = 100 := by
    intro s hs
    obtain ⟨e, he, rfl⟩ := mem_calculateCategoryScores hs
    rw [(categoryScoreFor_fields rangeKeys [] e.1 e.2).2.2.1,
      CategoryDefinitions_maxScore (horder.subset he)]
    have hnil : issuesOfCategory e.1 [] = [] := rfl
    rw [hnil, calculateCategoryScore_nil_exact _ (by norm_num)]
    norm_num
  have hlen : ∀ L' : List Issue, (calculateCategoryScores order rangeKeys L').length = 9 := by
    intro L'
    rw [calculateCategoryScores_eq_map, List.length_map, horder.length_eq]
    rfl
  refine ⟨hlen L, ?_, ?_, ?_, hempty, ?_⟩
  · intro s hs
    exact hnames.subset (List.mem_map_of_mem _ hs)
  · intro c hc
    rw [hnames.count_eq]
    exact List.count_eq_one_of_mem catalogNames_nodup hc
  · intro s hs
    obtain ⟨e, he, rfl⟩ := mem_calculateCategoryScores hs
    have f := categoryScoreFor_fields rangeKeys L e.1 e.2
    have hm : e.2.MaxScore = 100 := CategoryDefinitions_maxScore (horder.subset he)
    refine ⟨by rw [f.2.1, hm], ?_⟩
    intro hnone
    rw [f.1] at hnone
    have hnil : issuesOfCategory e.1 L = [] := by
      unfold issuesOfCategory
      rw [List.filter_eq_nil_iff]
      intro f hf
      simpa using hnone f hf
    rw [f.2.2.1, f.2.1, hnil, hm, calculateCategoryScore_nil_exact _ (by norm_num)]
  · have hrep : (calculateCategoryScores order rangeKeys []).map (fun s => s.Score)
        = List.replicate 9 (100 : ℚ) := by
      rw [List.eq_replicate_iff]
      refine ⟨by rw [List.length_map, hlen []], ?_⟩
      intro x hx
      obtain ⟨s, hs, rfl⟩ := List.mem_map.mp hx
      exact hempty s hs
    have hne : calculateCategoryScores order rangeKeys [] ≠ [] := by
      intro e
      have := hlen []
      rw [e] at this
      cases this
    rw [calculateOverallScore_eq _ hne (calculateCategoryScores_whole order rangeKeys [] horder)
      (by rw [hlen []]; norm_num), hrep, sum_replicate_hundred, List.length_replicate]
    have h100 : ((9 : Nat) : ℚ) * 100 / ((9 : Nat) : ℚ) = ((100 : Int) : ℚ) := by norm_num
    have h10000 : (((100 : Int) : ℚ) * 100) = ((10000 : Int) : ℚ) := by norm_num
    have hdiv : (((10000 : Int) : ℚ) / 100) = ((100 : Int) : ℚ) := by norm_num
    rw [h100, f64_intCast _ (by norm_num), h10000, f64_intCast _ (by norm_num),
      mathRound_intCast, hdiv, f64_intCast _ (by norm_num)]
    norm_num

/-- Instance of the C6 theorem at a concrete input, hypotheses discharged. -/
theorem calculateCategoryScores_catalog_witness :
    CategoryDefinitions.Perm CategoryDefinitions
    ∧ (calculateCategoryScores CategoryDefinitions id
        [mkIssue "xss_vulnerability" "critical" "escape output"]).length = 9
    ∧ calculateOverallScore (calculateCategoryScores CategoryDefinitions id []) = 100 :=
  ⟨List.Perm.refl _,
    (calculateCategoryScores_catalog CategoryDefinitions id
      [mkIssue "xss_vulnerability" "critical" "escape output"] (List.Perm.refl _)).1,
    (calculateCategoryScores_catalog CategoryDefinitions id
      [mkIssue "xss_vulnerability" "critical" "escape output"] (List.Perm.refl _)).2.2.2.2.2⟩

/-! ## Claims on `mapIssueTypeToCategory` -/

theorem mapLookup_some {table : List (String × String)} {key v : String}
    (h : mapLookup table key = some v) : (key, v) ∈ table := by
  induction table with
  | nil => simp [mapLookup] at h
  | cons p rest ih =>
    obtain ⟨k, w⟩ := p
    unfold mapLookup at h
    split_ifs at h with hk
    · cases h; subst hk; exact List.mem_cons_self _ _
    · exact List.mem_cons_of_mem _ (ih h)

theorem mapLookup_none {table : List (String × String)} {key : String}
    (h : key ∉ table.map Prod.fst) : mapLookup table key = none := by
  induction table with
  | nil => rfl
  | cons p rest ih =>
    obtain ⟨k, w⟩ := p
    simp only [List.map_cons, List.mem_cons, not_or] at h
    unfold mapLookup
    rw [if_neg (fun e => h.1 e.symm)]
    exact ih h.2

theorem categoryMap_values {p : String × String} (h : p ∈ categoryMap) :
    p.2 ∈ catalogNames := by
  have hall : ∀ q ∈ categoryMap, q.2 ∈ catalogNames := by decide
  exact hall p h

/-- C7: `mapIssueTypeToCategory` is a total function: every type string is mapped to
one of the nine catalog categories, and every string that is not a key of the static
table, such as the empty string or an unknown tag, is mapped to `code_quality`. -/
theorem mapIssueTypeToCategory_total (t : String) :
    mapIssueTypeToCategory t ∈ catalogNames
    ∧ (t ∉ categoryMap.map Prod.fst → mapIssueTypeToCategory t = "code_quality")
    ∧ mapIssueTypeToCategory "" = "code_quality"
    ∧ mapIssueTypeToCategory "unknown_tag" = "code_quality" := by
  refine ⟨?_, ?_, by decide, by decide⟩
  · unfold mapIssueTypeToCategory
    cases h : mapLookup categoryMap t with
    | none => simp [catalogNames]
    | some v => exact categoryMap_values (mapLookup_some h)
  · intro h
    unfold mapIssueTypeToCategory
    rw [mapLookup_none h]

/-! ## Severity buckets of `calculateCategoryScores` -/

/-- C8: every `CategoryScore` produced by `calculateCategoryScores` has `CriticalIssues`
equal to the number of its category's findings of severity critical or high,
`WarningIssues` equal to the number of severity medium and `InfoIssues` equal to the
number of severity low. -/
theorem calculateCategoryScores_buckets (order : List (String × CategoryScore))
    (rangeKeys : List String → List String) (L : List Issue) (s : CategoryScore)
    (hs : s ∈ calculateCategoryScores order rangeKeys L) :
    s.CriticalIssues
        = (((issuesOfCategory s.CategoryName L).countP (fun i =>
            decide (i.Severity = "critical" ∨ i.Severity = "high")) : Nat) : Int)
    ∧ s.WarningIssues
        = (((issuesOfCategory s.CategoryName L).countP (fun i =>
            decide (i.Severity = "medium")) : Nat) : Int)
    ∧ s.InfoIssues
        = (((issuesOfCategory s.CategoryName L).countP (fun i =>
            decide (i.Severity = "low")) : Nat) : Int) := by
  obtain ⟨e, _, rfl⟩ := mem_calculateCategoryScores hs
  have f := categoryScoreFor_fields rangeKeys L e.1 e.2
  rw [f.1]
  exact ⟨f.2.2.2.2.1, f.2.2.2.2.2.1, f.2.2.2.2.2.2⟩

/-- Instance of the C8 theorem at a concrete input, hypotheses discharged. -/
theorem calculateCategoryScores_buckets_witness :
    categoryScoreFor id
        ([mkIssue "xss_vulnerability" "critical" "escape output",
          mkIssue "https_missing" "medium" ""].foldl groupStep (fun _ => []))
        "security" (categoryDefinition "security" "Security Analysis" "🔒")
      ∈ calculateCategoryScores CategoryDefinitions id
        [mkIssue "xss_vulnerability" "critical" "escape output",
          mkIssue "https_missing" "medium" ""]
    ∧ (categoryScoreFor id
        ([mkIssue "xss_vulnerability" "critical" "escape output",
          mkIssue "https_missing" "medium" ""].foldl groupStep (fun _ => []))
        "security" (categoryDefinition "security" "Security Analysis" "🔒")).CriticalIssues
      = 1 := by
  have hmem : categoryScoreFor id
        ([mkIssue "xss_vulnerability" "critical" "escape output",
          mkIssue "https_missing" "medium" ""].foldl groupStep (fun _ => []))
        "security" (categoryDefinition "security" "Security Analysis" "🔒")
      ∈ calculateCategoryScores CategoryDefinitions id
        [mkIssue "xss_vulnerability" "critical" "escape output",
          mkIssue "https_missing" "medium" ""] := by
    rw [calculateCategoryScores_eq_map]
    exact List.mem_map_of_mem
      (fun entry : String × CategoryScore => categoryScoreFor id
        ([mkIssue "xss_vulnerability" "critical" "escape output",
          mkIssue "https_missing" "medium" ""].foldl groupStep (fun _ => [])) entry.1 entry.2)
      (List.mem_cons_self _ _)
  refine ⟨hmem, ?_⟩
  rw [(calculateCategoryScores_buckets CategoryDefinitions id _ _ hmem).1]
  decide

/-! ## Claims on `generateImprovements` -/

theorem collectImprovements_eq (keys result : List String) (count : Nat) :
    collectImprovements keys result count
      = result ++ keys.take (maxImprovements - count) := by
  induction keys generalizing result count with
  | nil => simp [collectImprovements]
  | cons k rest ih =>
    unfold collectImprovements
    split_ifs with h
    · have : maxImprovements - count = 0 := by omega
      simp [this]
    · have : maxImprovements - count = (maxImprovements - (count + 1)) + 1 := by omega
      rw [ih, this, List.take_succ_cons]
      simp

theorem distinctSuggestions_nil : distinctSuggestions [] = ∅ := rfl

theorem mem_distinctSuggestions {L : List Issue} {s : String} :
    s ∈ distinctSuggestions L ↔ s ≠ "" ∧ ∃ i ∈ L, i.Suggestion = s := by
  unfold distinctSuggestions
  simp only [List.mem_toFinset, List.mem_filter, List.mem_map, decide_eq_true_eq]
  tauto

theorem distinctSuggestions_cons_empty {i : Issue} (L : List Issue) (h : i.Suggestion = "") :
    distinctSuggestions (i :: L) = distinctSuggestions L := by
  ext s
  simp only [mem_distinctSuggestions, List.mem_cons]
  constructor
  · rintro ⟨hs, j, hj | hj, rfl⟩
    · subst hj; exact absurd h hs
    · exact ⟨hs, j, hj, rfl⟩
  · rintro ⟨hs, j, hj, rfl⟩
    exact ⟨hs, j, Or.inr hj, rfl⟩

theorem distinctSuggestions_cons {i : Issue} (L : List Issue) (h : i.Suggestion ≠ "") :
    distinctSuggestions (i :: L) = insert i.Suggestion (distinctSuggestions L) := by
  ext s
  simp only [mem_distinctSuggestions, List.mem_cons, Finset.mem_insert]
  constructor
  · rintro ⟨hs, j, hj | hj, rfl⟩
    · subst hj; exact Or.inl rfl
    · exact Or.inr ⟨hs, j, hj, rfl⟩
  · rintro (rfl | ⟨hs, j, hj, rfl⟩)
    · exact ⟨h, i, Or.inl rfl, rfl⟩
    · exact ⟨hs, j, Or.inr hj, rfl⟩

/-- Invariant of the first loop of `generateImprovements`: the map holds distinct keys
drawn from its initial keys and the non-empty suggestions, and it holds
`min(10, number of such keys)` of them. -/
theorem foldl_improvementsInsert (L : List Issue) (acc : List String)
    (hnd : acc.Nodup) (hlen : acc.length ≤ 10) :
    (L.foldl improvementsInsert acc).Nodup
    ∧ (L.foldl improvementsInsert acc).toFinset ⊆ acc.toFinset ∪ distinctSuggestions L
    ∧ (L.foldl improvementsInsert acc).length
        = min 10 (acc.toFinset ∪ distinctSuggestions L).card := by
  induction L generalizing acc with
  | nil =>
    simp only [List.foldl_nil, distinctSuggestions_nil, Finset.union_empty]
    refine ⟨hnd, Finset.Subset.refl _, ?_⟩
    rw [List.toFinset_card_of_nodup hnd]
    omega
  | cons i L ih =>
    rw [List.foldl_cons]
    by_cases hs : i.Suggestion = ""
    · have hacc : improvementsInsert acc i = acc := by simp [improvementsInsert, hs]
      rw [hacc, distinctSuggestions_cons_empty L hs]
      exact ih acc hnd hlen
    · rw [distinctSuggestions_cons L hs]
      by_cases hfull : acc.length < maxImprovements * 2
      · by_cases hmem : i.Suggestion ∈ acc
        · have hacc : improvementsInsert acc i = acc := by
            simp [improvementsInsert, hs, hfull, hmem]
          have hU : acc.toFinset ∪ insert i.Suggestion (distinctSuggestions L)
              = acc.toFinset ∪ distinctSuggestions L := by
            ext x
            simp only [Finset.mem_union, Finset.mem_insert, List.mem_toFinset]
            constructor
            · rintro (h | h | h)
              · exact Or.inl h
              · subst h; exact Or.inl hmem
              · exact Or.inr h
            · rintro (h | h)
              · exact Or.inl h
              · exact Or.inr (Or.inr h)
          rw [hacc, hU]
          exact ih acc hnd hlen
        · have hacc : improvementsInsert acc i = acc ++ [i.Suggestion] := by
            simp [improvementsInsert, hs, hfull, hmem]
          have hnd' : (acc ++ [i.Suggestion]).Nodup := by
            rw [List.nodup_append]
            refine ⟨hnd, List.nodup_singleton _, ?_⟩
            intro a ha hb
            rw [List.mem_singleton] at hb
            subst hb
            exact hmem ha
          have hlen' : (acc ++ [i.Suggestion]).length ≤ 10 := by
            simp only [List.length_append, List.length_singleton]
            unfold maxImprovements at hfull
            omega
          have hU : (acc ++ [i.Suggestion]).toFinset ∪ distinctSuggestions L
              = acc.toFinset ∪ insert i.Suggestion (distinctSuggestions L) := by
            ext x
            simp only [Finset.mem_union, Finset.mem_insert, List.mem_toFinset, List.mem_append,
              List.mem_singleton]
            tauto
          rw [hacc, ← hU]
          exact ih _ hnd' hlen'
      · have hacc : improvementsInsert acc i = acc := by
          simp [improvementsInsert, hfull]
        have hten : acc.length = 10 := by
          unfold maxImprovements at hfull
          omega
        obtain ⟨h1, h2, h3⟩ := ih acc hnd hlen
        rw [hacc]
        refine ⟨h1, ?_, ?_⟩
        · intro x hx
          have := h2 hx
          simp only [Finset.mem_union, Finset.mem_insert] at this ⊢
          tauto
        · have hc : ∀ S : Finset String, 10 ≤ (acc.toFinset ∪ S).card := by
            intro S
            calc 10 = acc.toFinset.card := by rw [List.toFinset_card_of_nodup hnd, hten]
              _ ≤ (acc.toFinset ∪ S).card := Finset.card_le_card Finset.subset_union_left
          rw [h3, min_eq_left (hc _), min_eq_left (hc _)]

theorem generateImprovements_eq (rangeKeys : List String → List String) (issues : List Issue)
    (hne : issues ≠ []) :
    generateImprovements rangeKeys issues
      = (rangeKeys (issues.foldl improvementsInsert [])).take maxImprovements := by
  unfold generateImprovements
  have : ¬ issues.length = 0 := by
    intro h; exact hne (List.length_eq_zero.mp h)
  rw [if_neg this]
  simp [collectImprovements_eq]

/-- C9: for every finding list and every admissible iteration order of the suggestion
map, `generateImprovements` returns a duplicate-free list of non-empty strings, each
the `Suggestion` of some input finding, of length exactly
`min(5, number of distinct non-empty suggestions)`; when there are at most 5 distinct
non-empty suggestions, every one of them is returned. -/
theorem generateImprovements_spec (rangeKeys : List String → List String)
    (issues : List Issue) (hrange : ValidRange rangeKeys) :
    (generateImprovements rangeKeys issues).Nodup
    ∧ (∀ s ∈ generateImprovements rangeKeys issues,
        s ≠ "" ∧ ∃ i ∈ issues, i.Suggestion = s)
    ∧ (generateImprovements rangeKeys issues).length
        = min 5 (distinctSuggestions issues).card
    ∧ ((distinctSuggestions issues).card ≤ 5 →
        ∀ i ∈ issues, i.Suggestion ≠ "" → i.Suggestion ∈ generateImprovements rangeKeys issues) := by
  by_cases hne : issues = []
  · subst hne
    simp [generateImprovements, distinctSuggestions_nil]
  · rw [generateImprovements_eq rangeKeys issues hne]
    obtain ⟨hnd, hsub, hlen⟩ := foldl_improvementsInsert issues [] List.nodup_nil (by simp)
    simp only [List.toFinset_nil, Finset.empty_union] at hsub hlen
    have hperm := hrange (issues.foldl improvementsInsert [])
    have hnd' : (rangeKeys (issues.foldl improvementsInsert [])).Nodup :=
      hperm.nodup_iff.mpr hnd
    refine ⟨hnd'.sublist (List.take_sublist _ _), ?_, ?_, ?_⟩
    · intro s hs
      have h1 : s ∈ issues.foldl improvementsInsert [] :=
        hperm.subset (List.mem_of_mem_take hs)
      exact mem_distinctSuggestions.mp (hsub (List.mem_toFinset.mpr h1))
    · rw [List.length_take, hperm.length_eq, hlen]
      unfold maxImprovements
      omega
    · intro hcard i hi hs
      have hlen' : (issues.foldl improvementsInsert []).length
          = (distinctSuggestions issues).card := by rw [hlen]; omega
      have heq : (issues.foldl improvementsInsert []).toFinset = distinctSuggestions issues := by
        apply Finset.eq_of_subset_of_card_le hsub
        rw [List.toFinset_card_of_nodup hnd, hlen']
      have hin : i.Suggestion ∈ issues.foldl improvementsInsert [] := by
        rw [← List.mem_toFinset, heq]
        exact mem_distinctSuggestions.mpr ⟨hs, i, hi, rfl⟩
      have htake : (rangeKeys (issues.foldl improvementsInsert [])).take maxImprovements
          = rangeKeys (issues.foldl improvementsInsert []) := by
        apply List.take_of_length_le
        rw [hperm.length_eq, hlen']
        exact hcard
      rw [htake]
      exact hperm.symm.subset hin

/-- Instance of the C9 theorem at a concrete input, hypotheses discharged. -/
theorem generateImprovements_spec_witness :
    ValidRange List.reverse
    ∧ generateImprovements List.reverse
        [mkIssue "xss_vulnerability" "critical" "escape output",
          mkIssue "https_missing" "medium" "", mkIssue "secret_exposure" "high" "use a vault",
          mkIssue "xss_vulnerability" "critical" "escape output"]
      = ["use a vault", "escape output"]
    ∧ (generateImprovements List.reverse
        [mkIssue "xss_vulnerability" "critical" "escape output",
          mkIssue "https_missing" "medium" "", mkIssue "secret_exposure" "high" "use a vault",
          mkIssue "xss_vulnerability" "critical" "escape output"]).Nodup :=
  ⟨fun m => List.reverse_perm m, by decide,
    (generateImprovements_spec List.reverse
      [mkIssue "xss_vulnerability" "critical" "escape output",
        mkIssue "https_missing" "medium" "", mkIssue "secret_exposure" "high" "use a vault",
        mkIssue "xss_vulnerability" "critical" "escape output"]
      (fun m => List.reverse_perm m)).1⟩

/-! ## Claims on `checkAchievements` -/

theorem perfect_ne_master (x : String) : "perfect_" ++ x ≠ "category_master" := by
  intro h
  have h2 := congrArg String.data h
  rw [String.data_append] at h2
  have h3 : ("perfect_".data ++ x.data).head? = some 'p' := rfl
  rw [h2] at h3
  exact absurd h3 (by decide)

theorem mem_appendIfNew {σ : Type} (client : SupabaseClient σ) (db : σ) (userID : String)
    (acc : List Achievement) (cand a : Achievement) :
    a ∈ appendIfNew client db userID acc cand
      ↔ a ∈ acc ∨ (a = cand
          ∧ checkAchievementExists client db userID cand.AchievementType cand.Category
            = Except.ok false) := by
  unfold appendIfNew
  cases h : checkAchievementExists client db userID cand.AchievementType cand.Category with
  | error e => simp
  | ok b => cases b <;> simp

theorem mem_achievementsFor {σ : Type} (client : SupabaseClient σ) (db : σ)
    (userID projectID : String) (acc : List Achievement) (score : CategoryScore)
    (a : Achievement) :
    a ∈ achievementsFor client db userID projectID acc score
      ↔ a ∈ acc ∨ Earns client db userID projectID score a := by
  have hm : ∀ l : List Achievement,
      a ∈ appendIfNew client db userID l (categoryMasterAchievement userID projectID score)
        ↔ a ∈ l ∨ (a = categoryMasterAchievement userID projectID score
          ∧ checkAchievementExists client db userID "category_master" score.CategoryName
            = Except.ok false) := fun l => mem_appendIfNew client db userID l _ a
  have hp : ∀ l : List Achievement,
      a ∈ appendIfNew client db userID l (perfectAchievement userID projectID score)
        ↔ a ∈ l ∨ (a = perfectAchievement userID projectID score
          ∧ checkAchievementExists client db userID ("perfect_" ++ score.CategoryName)
            score.CategoryName = Except.ok false) := fun l => mem_appendIfNew client db userID l _ a
  unfold achievementsFor Earns
  by_cases h90 : score.Score ≥ 90
  · by_cases h100 : score.Score = 100
    · rw [if_pos h90, if_pos h100, hp, hm]
      constructor
      · rintro ((h | h) | h)
        · exact Or.inl h
        · exact Or.inr (Or.inl ⟨h90, h⟩)
        · exact Or.inr (Or.inr ⟨h100, h⟩)
      · rintro (h | ⟨_, h⟩ | ⟨_, h⟩)
        · exact Or.inl (Or.inl h)
        · exact Or.inl (Or.inr h)
        · exact Or.inr h
    · rw [if_pos h90, if_neg h100, hm]
      constructor
      · rintro (h | h)
        · exact Or.inl h
        · exact Or.inr (Or.inl ⟨h90, h⟩)
      · rintro (h | ⟨_, h⟩ | ⟨h, _⟩)
        · exact Or.inl h
        · exact Or.inr h
        · exact absurd h h100
  · by_cases h100 : score.Score = 100
    · rw [if_neg h90, if_pos h100, hp]
      constructor
      · rintro (h | h)
        · exact Or.inl h
        · exact Or.inr (Or.inr ⟨h100, h⟩)
      · rintro (h | ⟨h, _⟩ | ⟨_, h⟩)
        · exact Or.inl h
        · exact absurd h h90
        · exact Or.inr h
    · rw [if_neg h90, if_neg h100]
      constructor
      · intro h; exact Or.inl h
      · rintro (h | ⟨h, _⟩ | ⟨h, _⟩)
        · exact h
        · exact absurd h h90
        · exact absurd h h100

theorem mem_foldl_achievementsFor {σ : Type} (client : SupabaseClient σ) (db : σ)
    (userID projectID : String) (scores : List CategoryScore) (acc : List Achievement)
    (a : Achievement) :
    a ∈ scores.foldl (achievementsFor client db userID projectID) acc
      ↔ a ∈ acc ∨ ∃ score ∈ scores, Earns client db userID projectID score a := by
  induction scores generalizing acc with
  | nil => simp
  | cons s rest ih =>
    rw [List.foldl_cons, ih, mem_achievementsFor]
    simp only [List.mem_cons, exists_eq_or_imp]
    rw [or_assoc]

theorem mem_checkAchievements {σ : Type} (client : SupabaseClient σ) (db : σ)
    (userID projectID scanID : String) (scores : List CategoryScore) (a : Achievement) :
    a ∈ (checkAchievements client db userID projectID scanID scores).1
      ↔ ∃ score ∈ scores, Earns client db userID projectID score a := by
  unfold checkAchievements
  simp only []
  rw [mem_foldl_achievementsFor]
  simp

/-- C10: `checkAchievements` returns an achievement of type `category_master` for
category `c` if and only if the score list has an entry for `c` with `Score ≥ 90` and
the existence lookup for `(user, "category_master", c)` succeeds and reports
not-yet-earned; and every returned achievement belongs to the user and is reported
as not yet earned by the lookup for its own `(user, type, category)`. -/
theorem checkAchievements_category_master {σ : Type} (client : SupabaseClient σ) (db : σ)
    (userID projectID scanID : String) (scores : List CategoryScore) (c : String) :
    ((∃ a ∈ (checkAchievements client db userID projectID scanID scores).1,
        a.AchievementType = "category_master" ∧ a.Category = c)
      ↔ (∃ s ∈ scores, s.CategoryName = c ∧ s.Score ≥ 90
          ∧ checkAchievementExists client db userID "category_master" c = Except.ok false))
    ∧ (∀ a ∈ (checkAchievements client db userID projectID scanID scores).1,
        a.UserID = userID
        ∧ checkAchievementExists client db a.UserID a.AchievementType a.Category
          = Except.ok false) := by
  constructor
  · constructor
    · rintro ⟨a, ha, htype, hcat⟩
      obtain ⟨s, hs, hearn⟩ := (mem_checkAchievements client db userID projectID scanID scores a).mp ha
      rcases hearn with ⟨h90, rfl, hlookup⟩ | ⟨_, rfl, _⟩
      · have hc : s.CategoryName = c := hcat
        exact ⟨s, hs, hc, h90, by rw [← hc]; exact hlookup⟩
      · exact absurd htype (perfect_ne_master s.CategoryName)
    · rintro ⟨s, hs, hc, h90, hlookup⟩
      refine ⟨categoryMasterAchievement userID projectID s, ?_, rfl, hc⟩
      rw [mem_checkAchievements]
      exact ⟨s, hs, Or.inl ⟨h90, rfl, by rw [hc]; exact hlookup⟩⟩
  · intro a ha
    obtain ⟨s, _, hearn⟩ := (mem_checkAchievements client db userID projectID scanID scores a).mp ha
    rcases hearn with ⟨_, rfl, hlookup⟩ | ⟨_, rfl, hlookup⟩
    · exact ⟨rfl, hlookup⟩
    · exact ⟨rfl, hlookup⟩

/-! ## The perfect-score rule -/

theorem checkAchievementExists_memory (db : List Achievement)
    (userID achievementType category : String) :
    checkAchievementExists memoryClient db userID achievementType category
      = Except.ok (decide ((db.filter (fun a =>
          decide (achievementEndpoint a.UserID a.AchievementType a.Category
            = achievementEndpoint userID achievementType category))).length > 0)) := rfl

/-- C11 (as stated, refuted): a category score with `Score = MaxScore = 50` and no
recorded achievement gets no `perfect_` achievement, because the code compares the
score with the constant 100 and not with `MaxScore`. -/
theorem checkAchievements_perfect_fails :
    (mkScore "security" 50 50).Score = ((mkScore "security" 50 50).MaxScore : ℚ)
    ∧ checkAchievementExists memoryClient [] "u1" "perfect_security" "security"
        = Except.ok false
    ∧ ¬ ∃ a ∈ (checkAchievements memoryClient [] "u1" "p1" "scan1"
          [mkScore "security" 50 50]).1, a.AchievementType = "perfect_security" := by
  refine ⟨by norm_num [mkScore], rfl, ?_⟩
  rintro ⟨a, ha, _⟩
  obtain ⟨s, hs, hearn⟩ := (mem_checkAchievements memoryClient [] "u1" "p1" "scan1" _ a).mp ha
  rw [List.mem_singleton] at hs
  subst hs
  rcases hearn with ⟨h, _⟩ | ⟨h, _⟩
  · norm_num [mkScore] at h
  · norm_num [mkScore] at h

/-- C11 (amended): `checkAchievements` returns an achievement of type
`"perfect_" + c` for category `c` if and only if the score list has an entry for `c`
with `Score = 100` (the `MaxScore` of every catalog category) and the existence lookup
for `(user, "perfect_" + c, c)` succeeds and reports not-yet-earned; an entry with any
other score yields no `perfect_` achievement. -/
theorem checkAchievements_perfect {σ : Type} (client : SupabaseClient σ) (db : σ)
    (userID projectID scanID : String) (scores : List CategoryScore) (c : String) :
    (∃ a ∈ (checkAchievements client db userID projectID scanID scores).1,
        a.AchievementType = "perfect_" ++ c ∧ a.Category = c)
      ↔ (∃ s ∈ scores, s.CategoryName = c ∧ s.Score = 100
          ∧ checkAchievementExists client db userID ("perfect_" ++ c) c = Except.ok false) := by
  constructor
  · rintro ⟨a, ha, htype, hcat⟩
    obtain ⟨s, hs, hearn⟩ := (mem_checkAchievements client db userID projectID scanID scores a).mp ha
    rcases hearn with ⟨_, rfl, _⟩ | ⟨h100, rfl, hlookup⟩
    · exact absurd htype.symm (perfect_ne_master c)
    · have hc : s.CategoryName = c := hcat
      exact ⟨s, hs, hc, h100, by rw [← hc]; exact hlookup⟩
  · rintro ⟨s, hs, hc, h100, hlookup⟩
    refine ⟨perfectAchievement userID projectID s, ?_, ?_, hc⟩
    · rw [mem_checkAchievements]
      exact ⟨s, hs, Or.inr ⟨h100, rfl, by rw [hc]; exact hlookup⟩⟩
    · show "perfect_" ++ s.CategoryName = "perfect_" ++ c
      rw [hc]

/-! ## Idempotence of `checkAchievements` -/

theorem checkAchievements_nil_of_not_earns {σ : Type} (client : SupabaseClient σ) (db : σ)
    (userID projectID scanID : String) (scores : List CategoryScore)
    (h : ∀ s ∈ scores, ∀ a, ¬ Earns client db userID projectID s a) :
    (checkAchievements client db userID projectID scanID scores).1 = [] := by
  apply List.eq_nil_iff_forall_not_mem.mpr
  intro a ha
  obtain ⟨s, hs, hearn⟩ := (mem_checkAchievements client db userID projectID scanID scores a).mp ha
  exact h s hs a hearn

/-- The first evaluation of the scenario: security score 95, empty store. -/
theorem checkAchievements_security95 :
    checkAchievements memoryClient [] "u1" "p1" "scan1" [mkScore "security" 95 100]
      = ([categoryMasterAchievement "u1" "p1" (mkScore "security" 95 100)],
         [categoryMasterAchievement "u1" "p1" (mkScore "security" 95 100)]) := by
  have h90 : (mkScore "security" 95 100).Score ≥ 90 := by norm_num [mkScore]
  have h100 : ¬ (mkScore "security" 95 100).Score = 100 := by norm_num [mkScore]
  have hfold : [mkScore "security" 95 100].foldl (achievementsFor memoryClient [] "u1" "p1") []
      = [categoryMasterAchievement "u1" "p1" (mkScore "security" 95 100)] := by
    rw [List.foldl_cons, List.foldl_nil]
    unfold achievementsFor
    rw [if_pos h90, if_neg h100]
    rfl
  unfold checkAchievements
  simp only [hfold]
  rfl

/-- C12 (as stated, refuted): while the store is unreachable the first evaluation of a
security score of 95 returns nothing, so everything it returned is recorded; the
second evaluation, with the store reachable, still returns an achievement. -/
theorem checkAchievements_idempotent_fails :
    ¬ ((∀ a ∈ (checkAchievements flakyClient (false, []) "u1" "p1" "scan1"
            [mkScore "security" 95 100]).1,
          checkAchievementExists flakyClient (true, []) "u1" a.AchievementType a.Category
            = Except.ok true)
        → (checkAchievements flakyClient (true, []) "u1" "p1" "scan1"
            [mkScore "security" 95 100]).1 = []) := by
  intro h
  have hfirst : (checkAchievements flakyClient (false, []) "u1" "p1" "scan1"
      [mkScore "security" 95 100]).1 = [] := by
    apply checkAchievements_nil_of_not_earns
    intro s _ a hearn
    rcases hearn with ⟨_, _, hl⟩ | ⟨_, _, hl⟩
    · exact absurd hl (by simp [checkAchievementExists, flakyClient])
    · exact absurd hl (by simp [checkAchievementExists, flakyClient])
  have hsecond := h (by rw [hfirst]; intro a ha; exact absurd ha (List.not_mem_nil a))
  have hmem : categoryMasterAchievement "u1" "p1" (mkScore "security" 95 100)
      ∈ (checkAchievements flakyClient (true, []) "u1" "p1" "scan1"
          [mkScore "security" 95 100]).1 := by
    rw [mem_checkAchievements]
    exact ⟨_, List.mem_singleton_self _, Or.inl ⟨by norm_num [mkScore], rfl, rfl⟩⟩
  rw [hsecond] at hmem
  exact absurd hmem (List.not_mem_nil _)

/-- C12 (amended): if every existence lookup that the first evaluation performs
succeeds, and at the second evaluation the lookup reports as earned every key that
the first lookup reported as earned and every achievement that the first evaluation
returned, then the second evaluation of the same scores returns no achievement. -/
theorem checkAchievements_idempotent {σ : Type} (client : SupabaseClient σ) (db1 db2 : σ)
    (userID projectID scanID : String) (scores : List CategoryScore)
    (hlookup : ∀ s ∈ scores,
      (s.Score ≥ 90 → ∃ b,
        checkAchievementExists client db1 userID "category_master" s.CategoryName
          = Except.ok b)
      ∧ (s.Score = 100 → ∃ b,
        checkAchievementExists client db1 userID ("perfect_" ++ s.CategoryName) s.CategoryName
          = Except.ok b))
    (hkept : ∀ t c, checkAchievementExists client db1 userID t c = Except.ok true →
      checkAchievementExists client db2 userID t c = Except.ok true)
    (hrecorded : ∀ a ∈ (checkAchievements client db1 userID projectID scanID scores).1,
      checkAchievementExists client db2 userID a.AchievementType a.Category = Except.ok true) :
    (checkAchievements client db2 userID projectID scanID scores).1 = [] := by
  apply checkAchievements_nil_of_not_earns
  intro s hs a hearn
  rcases hearn with ⟨h90, _, hl2⟩ | ⟨h100, _, hl2⟩
  · obtain ⟨b, hb⟩ := (hlookup s hs).1 h90
    cases b with
    | true =>
      have := hkept _ _ hb
      rw [this] at hl2
      cases hl2
    | false =>
      have hmem : categoryMasterAchievement userID projectID s
          ∈ (checkAchievements client db1 userID projectID scanID scores).1 := by
        rw [mem_checkAchievements]
        exact ⟨s, hs, Or.inl ⟨h90, rfl, hb⟩⟩
      have := hrecorded _ hmem
      have h2 : checkAchievementExists client db2 userID "category_master" s.CategoryName
          = Except.ok true := this
      rw [h2] at hl2
      cases hl2
  · obtain ⟨b, hb⟩ := (hlookup s hs).2 h100
    cases b with
    | true =>
      have := hkept _ _ hb
      rw [this] at hl2
      cases hl2
    | false =>
      have hmem : perfectAchievement userID projectID s
          ∈ (checkAchievements client db1 userID projectID scanID scores).1 := by
        rw [mem_checkAchievements]
        exact ⟨s, hs, Or.inr ⟨h100, rfl, hb⟩⟩
      have := hrecorded _ hmem
      have h2 : checkAchievementExists client db2 userID ("perfect_" ++ s.CategoryName)
          s.CategoryName = Except.ok true := this
      rw [h2] at hl2
      cases hl2

/-- Instance of the C12 theorem at the scenario of the specification: a security score
of 95 with an empty store returns exactly one `category_master`/security achievement,
and the evaluation against the store after the first call returns none. -/
theorem checkAchievements_idempotent_witness :
    (checkAchievements memoryClient [] "u1" "p1" "scan1" [mkScore "security" 95 100]).1
        = [categoryMasterAchievement "u1" "p1" (mkScore "security" 95 100)]
    ∧ (checkAchievements memoryClient
        (checkAchievements memoryClient [] "u1" "p1" "scan1" [mkScore "security" 95 100]).2
        "u1" "p1" "scan1" [mkScore "security" 95 100]).1 = [] :=
  ⟨by rw [checkAchievements_security95],
    checkAchievements_idempotent memoryClient []
      (checkAchievements memoryClient [] "u1" "p1" "scan1" [mkScore "security" 95 100]).2
      "u1" "p1" "scan1" [mkScore "security" 95 100]
      (fun _ _ => ⟨fun _ => ⟨_, rfl⟩, fun _ => ⟨_, rfl⟩⟩)
      (fun t c h => by
        rw [checkAchievementExists_memory] at h
        simp at h)
      (fun a ha => by
        rw [checkAchievements_security95] at ha ⊢
        rw [List.mem_singleton] at ha
        subst ha
        rfl)⟩

/-! ## At most one achievement per natural key -/

theorem rateLimitStep_none {store : RateLimitStore} {clientIP : String} (now limit : Int)
    (h : store clientIP = none) :
    rateLimitStep store clientIP now limit
      = (Function.update store clientIP (some { Count := 1, LastReset := now }),
          { nextCalled := true, statusCode := none, headers := [] }) := by
  unfold rateLimitStep
  simp only [h]

theorem rateLimitStep_expired {store : RateLimitStore} {clientIP : String} {e : RateLimitEntry}
    (now limit : Int) (h : store clientIP = some e) (hexp : now - e.LastReset > timeMinute) :
    rateLimitStep store clientIP now limit
      = (Function.update store clientIP (some { Count := 1, LastReset := now }),
          { nextCalled := true, statusCode := none, headers := [] }) := by
  unfold rateLimitStep
  simp only [h, if_pos hexp]

theorem rateLimitStep_reject {store : RateLimitStore} {clientIP : String} {e : RateLimitEntry}
    (now limit : Int) (h : store clientIP = some e) (hexp : ¬ now - e.LastReset > timeMinute)
    (hfull : e.Count ≥ limit) :
    rateLimitStep store clientIP now limit
      = (store,
          { nextCalled := false, statusCode := some StatusTooManyRequests,
            headers := [("X-RateLimit-Limit", limit), ("X-RateLimit-Remaining", 0),
              ("X-RateLimit-Reset", unixSeconds (e.LastReset + timeMinute))] }) := by
  unfold rateLimitStep
  simp only [h, if_neg hexp, if_pos hfull]

theorem rateLimitStep_increment {store : RateLimitStore} {clientIP : String}
    {e : RateLimitEntry} (now limit : Int) (h : store clientIP = some e)
    (hexp : ¬ now - e.LastReset > timeMinute) (hroom : ¬ e.Count ≥ limit) :
    rateLimitStep store clientIP now limit
      = (Function.update store clientIP
            (some { Count := e.Count + 1, LastReset := e.LastReset }),
          { nextCalled := true, statusCode := none,
            headers := [("X-RateLimit-Limit", limit),
              ("X-RateLimit-Remaining", limit - (e.Count + 1)),
              ("X-RateLimit-Reset", unixSeconds (e.LastReset + timeMinute))] }) := by
  unfold rateLimitStep
  simp only [h, if_neg hexp, if_neg hroom]

/-- The step never touches the entry of another client. -/
theorem rateLimitStep_frame (store : RateLimitStore) (clientIP : String) (now limit : Int)
    (other : String) (hother : other ≠ clientIP) :
    (rateLimitStep store clientIP now limit).1 other = store other := by
  cases h : store clientIP with
  | none => rw [rateLimitStep_none now limit h]; exact Function.update_noteq hother _ _
  | some e =>
    by_cases hexp : now - e.LastReset > timeMinute
    · rw [rateLimitStep_expired now limit h hexp]; exact Function.update_noteq hother _ _
    · by_cases hfull : e.Count ≥ limit
      · rw [rateLimitStep_reject now limit h hexp hfull]
      · rw [rateLimitStep_increment now limit h hexp hfull]
        exact Function.update_noteq hother _ _

/-- C15: the step of the rate limiter on the store is the specified algorithm.  If the
client has no entry or `now - LastReset` is more than 60 seconds, its entry becomes
`{Count 1, LastReset now}` and the request is allowed; otherwise, if `Count >= limit`,
the request is rejected and the store is unchanged; otherwise `Count` is incremented,
`LastReset` is kept and the request is allowed with `remaining = limit - Count` for
the incremented count; the entries of all other clients are unchanged. -/
theorem rateLimitStep_spec (store : RateLimitStore) (clientIP : String) (now limit : Int) :
    ((store clientIP = none
        ∨ ∃ e, store clientIP = some e ∧ now - e.LastReset > 60 * 1000000000) →
      (rateLimitStep store clientIP now limit).1 clientIP
          = some { Count := 1, LastReset := now }
        ∧ (rateLimitStep store clientIP now limit).2.nextCalled = true)
    ∧ (∀ e, store clientIP = some e → ¬ now - e.LastReset > 60 * 1000000000 →
        e.Count ≥ limit →
          (rateLimitStep store clientIP now limit).1 = store
          ∧ (rateLimitStep store clientIP now limit).2.nextCalled = false)
    ∧ (∀ e, store clientIP = some e → ¬ now - e.LastReset > 60 * 1000000000 →
        e.Count < limit →
          (rateLimitStep store clientIP now limit).1 clientIP
              = some { Count := e.Count + 1, LastReset := e.LastReset }
          ∧ (rateLimitStep store clientIP now limit).2.nextCalled = true
          ∧ headerValue (rateLimitStep store clientIP now limit).2.headers
              "X-RateLimit-Remaining" = some (limit - (e.Count + 1)))
    ∧ (∀ other, other ≠ clientIP →
        (rateLimitStep store clientIP now limit).1 other = store other) := by
  refine ⟨?_, ?_, ?_, ?_⟩
  · rintro (h | ⟨e, h, hexp⟩)
    · rw [rateLimitStep_none now limit h]
      exact ⟨Function.update_same _ _ _, rfl⟩
    · rw [rateLimitStep_expired now limit h hexp]
      exact ⟨Function.update_same _ _ _, rfl⟩
  · intro e h hexp hfull
    rw [rateLimitStep_reject now limit h hexp hfull]
    exact ⟨rfl, rfl⟩
  · intro e h hexp hroom
    rw [rateLimitStep_increment now limit h hexp (not_le.mpr hroom)]
    refine ⟨Function.update_same _ _ _, rfl, ?_⟩
    simp [headerValue]
  · intro other hother
    exact rateLimitStep_frame store clientIP now limit other hother

/-! ## The rate-limit invariant -/

theorem getClientIP_mkRequest_demo :
    getClientIP (mkRequest "/api/projects" "10.0.0.1") = "10.0.0.1"
    ∧ getClientIP (mkRequest "/api/download/info" "10.0.0.1") = "10.0.0.1" := by
  decide

/-- One step keeps every count below a bound that is at least 1 and at least the limit
applied. -/
theorem rateLimitStep_bound (store : RateLimitStore) (clientIP : String) (now limit B : Int)
    (hB : 1 ≤ B) (hlimit : limit ≤ B)
    (hinv : ∀ c e, store c = some e → e.Count ≤ B) :
    ∀ c e, (rateLimitStep store clientIP now limit).1 c = some e → e.Count ≤ B := by
  intro c e hc
  by_cases hcc : c = clientIP
  · subst hcc
    cases h : store c with
    | none =>
      rw [rateLimitStep_none now limit h] at hc
      dsimp only at hc
      rw [Function.update_same] at hc
      cases hc
      exact hB
    | some e0 =>
      by_cases hexp : now - e0.LastReset > timeMinute
      · rw [rateLimitStep_expired now limit h hexp] at hc
        dsimp only at hc
        rw [Function.update_same] at hc
        cases hc
        exact hB
      · by_cases hfull : e0.Count ≥ limit
        · rw [rateLimitStep_reject now limit h hexp hfull] at hc
          exact hinv c e hc
        · rw [rateLimitStep_increment now limit h hexp hfull] at hc
          dsimp only at hc
          rw [Function.update_same] at hc
          cases hc
          show e0.Count + 1 ≤ B
          omega
  · rw [rateLimitStep_frame store clientIP now limit c hcc] at hc
    exact hinv c e hc

theorem rateLimitMiddleware_bound (rpm : Int) (store : RateLimitStore) (now : Int)
    (r : Request) (B : Int) (hB : 1 ≤ B) (hlimit : rateLimitValueFor rpm r.Path ≤ B)
    (hinv : ∀ c e, store c = some e → e.Count ≤ B) :
    ∀ c e, (rateLimitMiddleware rpm store now r).1 c = some e → e.Count ≤ B := by
  unfold rateLimitMiddleware
  by_cases hp : r.Path = "/health"
  · rw [if_pos hp]
    exact hinv
  · rw [if_neg hp]
    exact rateLimitStep_bound store (getClientIP r) now _ B hB hlimit hinv

theorem runRequests_bound (rpm : Int) (requests : List (Int × Request)) (B : Int)
    (hB : 1 ≤ B) (hlimit : ∀ req ∈ requests, rateLimitValueFor rpm req.2.Path ≤ B)
    (store : RateLimitStore) (hinv : ∀ c e, store c = some e → e.Count ≤ B) :
    ∀ c e, runRequests rpm store requests c = some e → e.Count ≤ B := by
  unfold runRequests
  induction requests generalizing store with
  | nil => exact hinv
  | cons req rest ih =>
    rw [List.foldl_cons]
    apply ih
    · intro q hq
      exact hlimit q (List.mem_cons_of_mem _ hq)
    · exact rateLimitMiddleware_bound rpm store req.1 req.2 B hB
        (hlimit req (List.mem_cons_self _ _)) hinv

/-- The limit applied to a path when the tripled value fits a 64-bit `int`. -/
theorem rateLimitValueFor_eq (rpm : Int) (path : String)
    (hfit : -9223372036854775808 ≤ rpm * 3 ∧ rpm * 3 < 9223372036854775808) :
    rateLimitValueFor rpm path = if path = "/api/download/info" then rpm * 3 else rpm := by
  unfold rateLimitValueFor
  rw [wrapInt64_self _ hfit.1 hfit.2]

theorem rateLimitValueFor_le (rpm : Int) (path : String) (hrpm : 1 ≤ rpm)
    (hfit : rpm * 3 < 9223372036854775808) :
    rateLimitValueFor rpm path ≤ 3 * rpm := by
  rw [rateLimitValueFor_eq rpm path ⟨by omega, hfit⟩]
  split_ifs <;> omega

/-- C16 (as stated, refuted): with the configured limit 0, which the configuration
check only warns about, the first request of a client is allowed and leaves
`Count = 1 > 0`; and with the configured limit 1, two requests for
`/api/download/info` are both allowed and leave `Count = 2 > 1`. -/
theorem rateLimit_count_bounded_fails :
    ((rateLimitMiddleware 0 emptyStore 0 (mkRequest "/api/projects" "10.0.0.1")).2.nextCalled
        = true
      ∧ runRequests 0 emptyStore [(0, mkRequest "/api/projects" "10.0.0.1")] "10.0.0.1"
        = some { Count := 1, LastReset := 0 }
      ∧ ¬ ((1 : Int) ≤ 0))
    ∧ (runRequests 1 emptyStore
          [(0, mkRequest "/api/download/info" "10.0.0.1"),
           (1000000000, mkRequest "/api/download/info" "10.0.0.1")] "10.0.0.1"
        = some { Count := 2, LastReset := 0 }
      ∧ ¬ ((2 : Int) ≤ 1)) := by
  decide

/-- C16 (amended): for every configured limit `rpm ≥ 1` whose triple fits a 64-bit
`int` and every sequence of requests applied to the initially empty store, an allowed
request leaves its client's `Count` at most the limit applied to that request
(`rpm`, or `3 * rpm` for `/api/download/info`); hence in every reachable state every
entry's `Count` is at most `3 * rpm`, and at most `rpm` when no request is for
`/api/download/info`. -/
theorem rateLimit_count_bounded (rpm : Int) (requests : List (Int × Request))
    (hrpm : 1 ≤ rpm) (hfit : rpm * 3 < 9223372036854775808) :
    (∀ (store : RateLimitStore) (now : Int) (r : Request), r.Path ≠ "/health" →
        (rateLimitMiddleware rpm store now r).2.nextCalled = true →
        ∃ e, (rateLimitMiddleware rpm store now r).1 (getClientIP r) = some e
          ∧ e.Count ≤ rateLimitValueFor rpm r.Path
          ∧ rateLimitValueFor rpm r.Path
            = if r.Path = "/api/download/info" then 3 * rpm else rpm)
    ∧ (∀ c e, runRequests rpm emptyStore requests c = some e → e.Count ≤ 3 * rpm)
    ∧ ((∀ req ∈ requests, req.2.Path ≠ "/api/download/info") →
        ∀ c e, runRequests rpm emptyStore requests c = some e → e.Count ≤ rpm) := by
  refine ⟨?_, ?_, ?_⟩
  · intro store now r hpath hnext
    have hval : rateLimitValueFor rpm r.Path
        = if r.Path = "/api/download/info" then 3 * rpm else rpm := by
      rw [rateLimitValueFor_eq rpm r.Path ⟨by omega, hfit⟩, mul_comm]
    have hone : 1 ≤ rateLimitValueFor rpm r.Path := by
      rw [hval]
      split_ifs <;> omega
    unfold rateLimitMiddleware at hnext ⊢
    rw [if_neg hpath] at hnext ⊢
    dsimp only at hnext ⊢
    cases h : store (getClientIP r) with
    | none =>
      rw [rateLimitStep_none now _ h]
      exact ⟨_, Function.update_same _ _ _, hone, hval⟩
    | some e0 =>
      by_cases hexp : now - e0.LastReset > timeMinute
      · rw [rateLimitStep_expired now _ h hexp]
        exact ⟨_, Function.update_same _ _ _, hone, hval⟩
      · by_cases hfull : e0.Count ≥ rateLimitValueFor rpm r.Path
        · rw [rateLimitStep_reject now _ h hexp hfull] at hnext
          cases hnext
        · rw [rateLimitStep_increment now _ h hexp hfull]
          refine ⟨_, Function.update_same _ _ _, ?_, hval⟩
          show e0.Count + 1 ≤ rateLimitValueFor rpm r.Path
          omega
  · exact runRequests_bound rpm requests (3 * rpm) (by omega)
      (fun req _ => rateLimitValueFor_le rpm req.2.Path hrpm hfit) emptyStore
      (fun c e h => by cases h)
  · intro hpaths
    apply runRequests_bound rpm requests rpm hrpm _ emptyStore (fun c e h => by cases h)
    intro req hreq
    unfold rateLimitValueFor
    rw [if_neg (hpaths req hreq)]

/-- Instance of the C16 theorem at a concrete input, hypotheses discharged. -/
theorem rateLimit_count_bounded_witness :
    (1 : Int) ≤ 2 ∧ (2 : Int) * 3 < 9223372036854775808
    ∧ ∀ c e, runRequests 2 emptyStore
        [(0, mkRequest "/api/projects" "10.0.0.1"),
         (1000000000, mkRequest "/api/download/info" "10.0.0.1"),
         (2000000000, mkRequest "/api/projects" "10.0.0.2")] c = some e → e.Count ≤ 3 * 2 :=
  ⟨by decide, by decide,
    (rateLimit_count_bounded 2
      [(0, mkRequest "/api/projects" "10.0.0.1"),
       (1000000000, mkRequest "/api/download/info" "10.0.0.1"),
       (2000000000, mkRequest "/api/projects" "10.0.0.2")] (by decide) (by decide)).2.1⟩

/-! ## Rate-limit headers and the request budget -/

/-- C14 (evaluation at the failing input): with limit 2 and a new client, three
requests one second apart get: allowed with no `X-RateLimit-Remaining` header at all,
allowed with remaining 0, rejected with status 429 and remaining 0.  The two requests
within the budget are allowed and the third is rejected, but the first one reports no
remaining value. -/
theorem rateLimit_budget_trace :
    (serveRequests 2 emptyStore
        [(0, mkRequest "/api/projects" "10.0.0.1"),
         (1000000000, mkRequest "/api/projects" "10.0.0.1"),
         (2000000000, mkRequest "/api/projects" "10.0.0.1")]).2
      = [{ nextCalled := true, statusCode := none, headers := [] },
         { nextCalled := true, statusCode := none,
           headers := [("X-RateLimit-Limit", 2), ("X-RateLimit-Remaining", 0),
             ("X-RateLimit-Reset", 60)] },
         { nextCalled := false, statusCode := some 429,
           headers := [("X-RateLimit-Limit", 2), ("X-RateLimit-Remaining", 0),
             ("X-RateLimit-Reset", 60)] }]
    ∧ headerValue
        (rateLimitMiddleware 2 emptyStore 0 (mkRequest "/api/projects" "10.0.0.1")).2.headers
        "X-RateLimit-Remaining" = none := by
  decide

/-- C17 (evaluation at the failing input): the first request of a client, for a path
other than `/health`, is passed to the handler with none of the three rate-limit
headers set; so is the first request after the window has expired. -/
theorem rateLimit_first_request_no_headers :
    (rateLimitMiddleware 60 emptyStore 0 (mkRequest "/api/projects" "10.0.0.1")).2
      = { nextCalled := true, statusCode := none, headers := [] }
    ∧ (serveRequests 60 emptyStore
        [(0, mkRequest "/api/projects" "10.0.0.1"),
         (61000000000, mkRequest "/api/projects" "10.0.0.1")]).2
      = [{ nextCalled := true, statusCode := none, headers := [] },
         { nextCalled := true, statusCode := none, headers := [] }] := by
  decide

theorem unixSeconds_add_minute (t : Int) : unixSeconds (t + timeMinute) = unixSeconds t + 60 := by
  unfold unixSeconds timeMinute
  omega

/-- For a client with a live window both remaining branches set the three headers, the
reset header being the unix time of the window start plus 60 seconds, and a rejected
request gets status 429. -/
theorem rateLimitStep_headers_live {store : RateLimitStore} {clientIP : String}
    {e : RateLimitEntry} (now limit : Int) (h : store clientIP = some e)
    (hexp : ¬ now - e.LastReset > timeMinute) :
    headerValue (rateLimitStep store clientIP now limit).2.headers "X-RateLimit-Limit"
        = some limit
    ∧ (∃ remaining, headerValue (rateLimitStep store clientIP now limit).2.headers
        "X-RateLimit-Remaining" = some remaining)
    ∧ headerValue (rateLimitStep store clientIP now limit).2.headers "X-RateLimit-Reset"
        = some (unixSeconds e.LastReset + 60)
    ∧ ((rateLimitStep store clientIP now limit).2.nextCalled = false →
        (rateLimitStep store clientIP now limit).2.statusCode = some 429) := by
  by_cases hfull : e.Count ≥ limit
  · rw [rateLimitStep_reject now limit h hexp hfull]
    refine ⟨by simp [headerValue], ⟨0, by simp [headerValue]⟩, ?_, fun _ => rfl⟩
    simp [headerValue, unixSeconds_add_minute]
  · rw [rateLimitStep_increment now limit h hexp hfull]
    refine ⟨by simp [headerValue], ⟨limit - (e.Count + 1), by simp [headerValue]⟩, ?_,
      fun hn => by cases hn⟩
    simp [headerValue, unixSeconds_add_minute]

/-! ## Limit policy of `rateLimitMiddleware` -/

/-- C18 (as stated, refuted): for the configured value `2^62` the product with 3 does
not fit a 64-bit `int`; the limit applied to `/api/download/info` is the wrapped value
`-2^62`, not 3 times the configured value, and the second request of a client within
the window is rejected with status 429, while the limiter step with `3 * 2^62` would
pass it to the handler. -/
theorem rateLimitMiddleware_policy_fails :
    rateLimitValueFor 4611686018427387904 "/api/download/info" = -4611686018427387904
    ∧ rateLimitValueFor 4611686018427387904 "/api/download/info"
        ≠ 3 * 4611686018427387904
    ∧ (serveRequests 4611686018427387904 emptyStore
          [(0, mkRequest "/api/download/info" "10.0.0.1"),
           (1000000000, mkRequest "/api/download/info" "10.0.0.1")]).2.map
          (fun response => response.statusCode) = [none, some 429]
    ∧ (rateLimitMiddleware 4611686018427387904
          (rateLimitStep emptyStore "10.0.0.1" 0 (4611686018427387904 * 3)).1 1000000000
          (mkRequest "/api/download/info" "10.0.0.1")).2
        ≠ (rateLimitStep
          (rateLimitStep emptyStore "10.0.0.1" 0 (4611686018427387904 * 3)).1
          "10.0.0.1" 1000000000 (4611686018427387904 * 3)).2
    ∧ (rateLimitStep
          (rateLimitStep emptyStore "10.0.0.1" 0 (4611686018427387904 * 3)).1
          "10.0.0.1" 1000000000 (4611686018427387904 * 3)).2.nextCalled = true := by
  decide

/-- C18 (amended): a request for `/health` is passed to the handler, leaves the store as
it is and gets the same response whatever the store holds; for `/api/download/info`
the middleware runs the limiter step with 3 times the configured value, provided that
product fits a 64-bit `int`, and with the wrapped product in general; for every other
path it runs the step with exactly the configured value. -/
theorem rateLimitMiddleware_policy (rpm : Int) (store store' : RateLimitStore) (now : Int)
    (r : Request)
    (hfit : -9223372036854775808 ≤ rpm * 3 ∧ rpm * 3 < 9223372036854775808) :
    rateLimitMiddleware rpm store now { r with Path := "/health" }
        = (store, { nextCalled := true, statusCode := none, headers := [] })
    ∧ (rateLimitMiddleware rpm store now { r with Path := "/health" }).2
        = (rateLimitMiddleware rpm store' now { r with Path := "/health" }).2
    ∧ rateLimitMiddleware rpm store now { r with Path := "/api/download/info" }
        = rateLimitStep store (getClientIP r) now (rpm * 3)
    ∧ (r.Path ≠ "/health" → r.Path ≠ "/api/download/info" →
        rateLimitMiddleware rpm store now r = rateLimitStep store (getClientIP r) now rpm)
    ∧ (∀ value : Int,
        rateLimitMiddleware value store now { r with Path := "/api/download/info" }
          = rateLimitStep store (getClientIP r) now (wrapInt64 (value * 3))) := by
  have hne : ¬ ("/api/download/info" : String) = "/health" := by decide
  refine ⟨?_, ?_, ?_, ?_, ?_⟩
  · simp [rateLimitMiddleware]
  · simp [rateLimitMiddleware]
  · unfold rateLimitMiddleware
    rw [if_neg hne]
    simp only []
    rw [rateLimitValueFor_eq rpm _ hfit, if_pos rfl]
    rfl
  · intro h1 h2
    unfold rateLimitMiddleware rateLimitValueFor
    rw [if_neg h1, if_neg h2]
  · intro value
    unfold rateLimitMiddleware rateLimitValueFor
    rw [if_neg hne, if_pos rfl]
    rfl

/-- Instance of the C18 theorem at a concrete input, hypotheses discharged. -/
theorem rateLimitMiddleware_policy_witness :
    (-9223372036854775808 ≤ (60 : Int) * 3 ∧ (60 : Int) * 3 < 9223372036854775808)
    ∧ rateLimitMiddleware 60 emptyStore 0 (mkRequest "/api/download/info" "10.0.0.1")
        = rateLimitStep emptyStore "10.0.0.1" 0 180 :=
  ⟨by decide,
    (rateLimitMiddleware_policy 60 emptyStore emptyStore 0
      (mkRequest "/api/download/info" "10.0.0.1") (by decide)).2.2.1⟩

/-! ## Client identification -/

/-- The first piece of a split is the text before the first separator. -/
theorem stringsSplit_head (s : List Char) (sep : Char) :
    (stringsSplit s sep).headD [] = s.takeWhile (fun c => decide (c ≠ sep)) := by
  induction s with
  | nil => rfl
  | cons c cs ih =>
    unfold stringsSplit
    by_cases h : c = sep
    · simp [h]
    · rw [if_neg h]
      have ht : List.takeWhile (fun x => decide (x ≠ sep)) (c :: cs)
          = c :: List.takeWhile (fun x => decide (x ≠ sep)) cs := by
        rw [List.takeWhile_cons]
        simp [h]
      rw [ht, ← ih]
      cases stringsSplit cs sep with
      | nil => rfl
      | cons piece pieces => rfl

/-- What `strings.TrimSpace` returns: the text between a leading and a trailing run of
white space, itself neither starting nor ending with white space. -/
theorem stringsTrimSpace_spec (s : List Char) :
    ∃ pre post : List Char,
      s = pre ++ stringsTrimSpace s ++ post
      ∧ (∀ c ∈ pre, isSpace c = true) ∧ (∀ c ∈ post, isSpace c = true)
      ∧ (∀ c, (stringsTrimSpace s).head? = some c → isSpace c = false)
      ∧ (∀ c, (stringsTrimSpace s).getLast? = some c → isSpace c = false) := by
  have h1 := List.takeWhile_append_dropWhile isSpace s
  have h2 := List.takeWhile_append_dropWhile isSpace (s.dropWhile isSpace).reverse
  have h3 : s.dropWhile isSpace
      = stringsTrimSpace s ++ ((s.dropWhile isSpace).reverse.takeWhile isSpace).reverse := by
    have := congrArg List.reverse h2
    rw [List.reverse_append, List.reverse_reverse] at this
    exact this.symm
  have hlast : ∀ c, (stringsTrimSpace s).getLast? = some c → isSpace c = false := by
    intro c hc
    unfold stringsTrimSpace at hc
    rw [List.getLast?_reverse] at hc
    have := List.head?_dropWhile_not isSpace (s.dropWhile isSpace).reverse
    rw [hc] at this
    simpa using this
  refine ⟨s.takeWhile isSpace,
    ((s.dropWhile isSpace).reverse.takeWhile isSpace).reverse, ?_, ?_, ?_, ?_, hlast⟩
  · rw [List.append_assoc, ← h3, h1]
  · intro c hc
    exact List.mem_takeWhile_imp hc
  · intro c hc
    rw [List.mem_reverse] at hc
    exact List.mem_takeWhile_imp hc
  · intro c hc
    have hd := List.head?_dropWhile_not isSpace s
    rw [h3] at hd
    cases ht : stringsTrimSpace s with
    | nil => rw [ht] at hc; cases hc
    | cons x xs =>
      rw [ht] at hc hd
      simp only [List.head?_cons, Option.some.injEq] at hc
      subst hc
      simpa using hd

theorem stringsLastIndex_not_mem (s : List Char) (sep : Char) (h : sep ∉ s) :
    stringsLastIndex s sep = -1 := by
  induction s with
  | nil => rfl
  | cons c cs ih =>
    rw [List.mem_cons, not_or] at h
    unfold stringsLastIndex
    simp only [ih h.2]
    rw [if_neg (by simp), if_neg (fun e => h.1 e.symm)]

/-- When the separator occurs, `strings.LastIndex` is the position of its last
occurrence: the text splits there and the separator does not occur after it. -/
theorem stringsLastIndex_mem (s : List Char) (sep : Char) (h : sep ∈ s) :
    0 ≤ stringsLastIndex s sep
    ∧ ∃ rest, s = s.take (stringsLastIndex s sep).toNat ++ sep :: rest ∧ sep ∉ rest := by
  induction s with
  | nil => cases h
  | cons c cs ih =>
    by_cases hcs : sep ∈ cs
    · obtain ⟨hpos, rest, hsplit, hrest⟩ := ih hcs
      have hne : stringsLastIndex cs sep ≠ -1 := by omega
      have hval : stringsLastIndex (c :: cs) sep = stringsLastIndex cs sep + 1 := by
        rw [stringsLastIndex]
        simp only [if_pos hne]
      have hnat : (stringsLastIndex cs sep + 1).toNat = (stringsLastIndex cs sep).toNat + 1 := by
        omega
      rw [hval, hnat, List.take_succ_cons]
      refine ⟨by omega, rest, ?_, hrest⟩
      rw [List.cons_append, ← hsplit]
    · have hc : c = sep := by
        rcases List.mem_cons.mp h with h | h
        · exact h.symm
        · exact absurd h hcs
      have hval : stringsLastIndex (c :: cs) sep = 0 := by
        rw [stringsLastIndex]
        simp only [stringsLastIndex_not_mem cs sep hcs]
        rw [if_neg (by simp), if_pos hc]
      rw [hval]
      exact ⟨le_refl _, cs, by simp [hc], hcs⟩

/-- C19: `getClientIP` derives the client identifier by precedence.  A non-empty
`X-Forwarded-For` gives its text before the first comma with surrounding white space
trimmed; otherwise a non-empty `X-Real-IP` gives that value; otherwise `RemoteAddr`
gives itself when it has no colon and else its text before the last colon. -/
theorem getClientIP_spec (r : Request) :
    (r.XForwardedFor ≠ "" →
      getClientIP r
        = String.mk (stringsTrimSpace
            (r.XForwardedFor.data.takeWhile (fun c => decide (c ≠ ',')))))
    ∧ (r.XForwardedFor = "" → r.XRealIP ≠ "" → getClientIP r = r.XRealIP)
    ∧ (r.XForwardedFor = "" → r.XRealIP = "" → ':' ∉ r.RemoteAddr.data →
        getClientIP r = r.RemoteAddr)
    ∧ (r.XForwardedFor = "" → r.XRealIP = "" → ':' ∈ r.RemoteAddr.data →
        ∃ rest, r.RemoteAddr.data = (getClientIP r).data ++ ':' :: rest ∧ ':' ∉ rest)
    ∧ (∀ s : List Char, ∃ pre post : List Char,
        s = pre ++ stringsTrimSpace s ++ post
        ∧ (∀ c ∈ pre, isSpace c = true) ∧ (∀ c ∈ post, isSpace c = true)
        ∧ (∀ c, (stringsTrimSpace s).head? = some c → isSpace c = false)
        ∧ (∀ c, (stringsTrimSpace s).getLast? = some c → isSpace c = false))
    ∧ getClientIP
        { Path := "/", XForwardedFor := " 203.0.113.7 , 10.0.0.1",
          XRealIP := "198.51.100.2", RemoteAddr := "192.0.2.1:5000" } = "203.0.113.7"
    ∧ getClientIP
        { Path := "/", XForwardedFor := "", XRealIP := "198.51.100.2",
          RemoteAddr := "192.0.2.1:5000" } = "198.51.100.2"
    ∧ getClientIP
        { Path := "/", XForwardedFor := "", XRealIP := "",
          RemoteAddr := "[::1]:5000" } = "[::1]"
    ∧ getClientIP
        { Path := "/", XForwardedFor := "", XRealIP := "",
          RemoteAddr := "192.0.2.1" } = "192.0.2.1" := by
  refine ⟨?_, ?_, ?_, ?_, stringsTrimSpace_spec, by decide, by decide, by decide, by decide⟩
  · intro h
    unfold getClientIP
    simp only [if_pos h, stringsSplit_head]
  · intro h1 h2
    unfold getClientIP
    simp only [h1, h2, ne_eq, not_true_eq_false, if_false, not_false_eq_true, if_true]
  · intro h1 h2 h3
    unfold getClientIP
    have hx : ¬ r.XForwardedFor ≠ "" := fun hne => hne h1
    have hy : ¬ r.XRealIP ≠ "" := fun hne => hne h2
    simp only [if_neg hx, if_neg hy, stringsLastIndex_not_mem _ _ h3]
    rfl
  · intro h1 h2 h3
    obtain ⟨hpos, rest, hsplit, hrest⟩ := stringsLastIndex_mem _ _ h3
    have hx : ¬ r.XForwardedFor ≠ "" := fun hne => hne h1
    have hy : ¬ r.XRealIP ≠ "" := fun hne => hne h2
    have hne : stringsLastIndex r.RemoteAddr.data ':' ≠ -1 := by omega
    have hval : getClientIP r
        = String.mk (r.RemoteAddr.data.take (stringsLastIndex r.RemoteAddr.data ':').toNat) := by
      unfold getClientIP
      simp only [if_neg hx, if_neg hy, if_pos hne]
    rw [hval]
    exact ⟨rest, hsplit, hrest⟩

/-! ## The broadcast step of the hub -/

theorem broadcastBody_mem (writeMessage : Conn → String → Except String Unit)
    (message : String) (state : HubState) (client : Conn) (h : client ∈ state.clients) :
    broadcastBody writeMessage message state client
      = if sendOk writeMessage message client = true then
          { clients := state.clients, effects := state.effects ++ [HubEffect.write client] }
        else
          { clients := state.clients.erase client,
            effects := state.effects ++ [HubEffect.write client, HubEffect.close client] } := by
  unfold broadcastBody sendOk
  rw [if_pos h]
  cases writeMessage client message <;> simp

/-- Invariant of the broadcast loop over the keys still to visit. -/
theorem foldl_broadcastBody (writeMessage : Conn → String → Except String Unit)
    (message : String) (todo : List Conn) (state : HubState)
    (hnodup : todo.Nodup) (hsub : ∀ c ∈ todo, c ∈ state.clients) :
    (todo.foldl (broadcastBody writeMessage message) state).clients
        = state.clients.filter
            (fun c => c ∉ todo ∨ sendOk writeMessage message c = true)
    ∧ (∀ c, (todo.foldl (broadcastBody writeMessage message) state).effects.count
          (HubEffect.write c)
        = state.effects.count (HubEffect.write c) + (if c ∈ todo then 1 else 0))
    ∧ (∀ c, (todo.foldl (broadcastBody writeMessage message) state).effects.count
          (HubEffect.close c)
        = state.effects.count (HubEffect.close c)
          + (if c ∈ todo ∧ sendOk writeMessage message c = false then 1 else 0)) := by
  induction todo generalizing state with
  | nil =>
    refine ⟨?_, ?_, ?_⟩
    · simp
    · intro c; simp
    · intro c; simp
  | cons x rest ih =>
    rw [List.nodup_cons] at hnodup
    have hx : x ∈ state.clients := hsub x (List.mem_cons_self _ _)
    rw [List.foldl_cons, broadcastBody_mem writeMessage message state x hx]
    by_cases hok : sendOk writeMessage message x = true
    · rw [if_pos hok]
      obtain ⟨h1, h2, h3⟩ := ih
        { clients := state.clients, effects := state.effects ++ [HubEffect.write x] }
        hnodup.2 (fun c hc => hsub c (List.mem_cons_of_mem _ hc))
      refine ⟨?_, ?_, ?_⟩
      · rw [h1]
        ext c
        simp only [Finset.mem_filter, List.mem_cons, not_or]
        constructor
        · rintro ⟨hc, h | h⟩
          · by_cases hcx : c = x
            · exact ⟨hc, Or.inr (hcx ▸ hok)⟩
            · exact ⟨hc, Or.inl ⟨hcx, h⟩⟩
          · exact ⟨hc, Or.inr h⟩
        · rintro ⟨hc, h | h⟩
          · exact ⟨hc, Or.inl h.2⟩
          · exact ⟨hc, Or.inr h⟩
      · intro c
        rw [h2 c]
        by_cases hcx : c = x
        · subst hcx
          simp [hnodup.1]
        · have hne : HubEffect.write x ≠ HubEffect.write c := by
            intro e; cases e; exact hcx rfl
          simp [List.count_append, List.count_cons, hne, hcx]
      · intro c
        rw [h3 c]
        by_cases hcx : c = x
        · subst hcx
          simp [hnodup.1, hok, List.count_append, List.count_cons]
        · simp [List.count_append, List.count_cons, hcx]
    · rw [if_neg hok]
      have hfail : sendOk writeMessage message x = false := by
        cases h : sendOk writeMessage message x
        · rfl
        · exact absurd h hok
      obtain ⟨h1, h2, h3⟩ := ih
        { clients := state.clients.erase x,
          effects := state.effects ++ [HubEffect.write x, HubEffect.close x] }
        hnodup.2 (fun c hc => by
          have hcx : c ≠ x := fun e => hnodup.1 (e ▸ hc)
          exact Finset.mem_erase.mpr ⟨hcx, hsub c (List.mem_cons_of_mem _ hc)⟩)
      refine ⟨?_, ?_, ?_⟩
      · rw [h1]
        ext c
        simp only [Finset.mem_filter, Finset.mem_erase, List.mem_cons, not_or]
        constructor
        · rintro ⟨⟨hcx, hc⟩, h | h⟩
          · exact ⟨hc, Or.inl ⟨hcx, h⟩⟩
          · exact ⟨hc, Or.inr h⟩
        · rintro ⟨hc, h | h⟩
          · exact ⟨⟨h.1, hc⟩, Or.inl h.2⟩
          · have hcx : c ≠ x := by
              intro e
              rw [e, hfail] at h
              cases h
            exact ⟨⟨hcx, hc⟩, Or.inr h⟩
      · intro c
        rw [h2 c]
        by_cases hcx : c = x
        · subst hcx
          simp [hnodup.1, List.count_append, List.count_cons]
        · have hne : HubEffect.write x ≠ HubEffect.write c := by
            intro e; cases e; exact hcx rfl
          simp [List.count_append, List.count_cons, hne, hcx]
      · intro c
        rw [h3 c]
        by_cases hcx : c = x
        · subst hcx
          simp [hnodup.1, hfail, List.count_append, List.count_cons]
        · have hne : HubEffect.close x ≠ HubEffect.close c := by
            intro e; cases e; exact hcx rfl
          simp [List.count_append, List.count_cons, hne, hcx]

/-- C20: for every live connection set `S`, every payload and every iteration order,
after one broadcast the live set is exactly the connections of `S` whose send
succeeded; every connection of `S` got exactly one send attempt; a connection is
closed exactly once if it is in `S` and its send failed, and never otherwise; and
with `S` empty the step ends with the empty set and no effect at all. -/
theorem broadcast_spec (rangeClients : Finset Conn → List Conn)
    (writeMessage : Conn → String → Except String Unit) (S : Finset Conn) (message : String)
    (hrange : ValidClientRange rangeClients) :
    (broadcast rangeClients writeMessage S message).clients
        = S.filter (fun c => sendOk writeMessage message c = true)
    ∧ (∀ c, (broadcast rangeClients writeMessage S message).effects.count (HubEffect.write c)
        = if c ∈ S then 1 else 0)
    ∧ (∀ c, (broadcast rangeClients writeMessage S message).effects.count (HubEffect.close c)
        = if c ∈ S ∧ sendOk writeMessage message c = false then 1 else 0)
    ∧ (broadcast rangeClients writeMessage ∅ message).clients = ∅
    ∧ (broadcast rangeClients writeMessage ∅ message).effects = [] := by
  obtain ⟨hnodup, hkeys⟩ := hrange S
  have hmem : ∀ c, c ∈ rangeClients S ↔ c ∈ S := by
    intro c
    rw [← List.mem_toFinset, hkeys]
  obtain ⟨h1, h2, h3⟩ := foldl_broadcastBody writeMessage message (rangeClients S)
    { clients := S, effects := [] } hnodup (fun c hc => (hmem c).mp hc)
  have hempty : rangeClients ∅ = [] := by
    have := (hrange ∅).2
    exact List.toFinset_eq_empty_iff _ |>.mp this
  refine ⟨?_, ?_, ?_, ?_, ?_⟩
  · unfold broadcast
    rw [h1]
    ext c
    simp only [Finset.mem_filter, hmem]
    constructor
    · rintro ⟨hc, h | h⟩
      · exact absurd hc h
      · exact ⟨hc, h⟩
    · rintro ⟨hc, h⟩
      exact ⟨hc, Or.inr h⟩
  · intro c
    unfold broadcast
    rw [h2 c]
    simp [hmem]
  · intro c
    unfold broadcast
    rw [h3 c]
    simp [hmem]
  · unfold broadcast
    rw [hempty]
    rfl
  · unfold broadcast
    rw [hempty]
    rfl

/-- Instance of the C20 theorem at a concrete input: of the connections 1, 2, 3 the
send to 2 fails, and after the broadcast the live set is `{1, 3}`. -/
theorem broadcast_spec_witness :
    ValidClientRange (fun m => m.sort (fun a b => a ≤ b))
    ∧ (broadcast (fun m => m.sort (fun a b => a ≤ b))
        (fun c _ => if c = 2 then Except.error "closed" else Except.ok ())
        {1, 2, 3} "analysis_complete").clients = {1, 3} :=
  ⟨fun m => ⟨Finset.sort_nodup _ m, Finset.sort_toFinset _ m⟩,
    (broadcast_spec (fun m => m.sort (fun a b => a ≤ b))
      (fun c _ => if c = 2 then Except.error "closed" else Except.ok ())
      {1, 2, 3} "analysis_complete"
      (fun m => ⟨Finset.sort_nodup _ m, Finset.sort_toFinset _ m⟩)).1.trans (by decide)⟩

/-! ## Register and unregister of the hub -/

theorem hubUnregister_absent (state : HubState) (c : Conn) (h : c ∉ state.clients) :
    hubUnregister state c = state := by
  unfold hubUnregister
  rw [if_neg h]

theorem hubUnregister_present (state : HubState) (c : Conn) (h : c ∈ state.clients) :
    hubUnregister state c
      = { clients := state.clients.erase c,
          effects := state.effects ++ [HubEffect.close c] } := by
  unfold hubUnregister
  rw [if_pos h]

/-- C21: unregistering a connection that is not in the live set leaves the set and the
effects as they are (nothing is closed); unregistering a connection of the live set
removes exactly that connection and closes it once; unregistering twice gives the
same state as unregistering once; and registering a connection that is not in the set
and then unregistering it restores the set. -/
theorem hubUnregister_idempotent (S : Finset Conn) (effects : List HubEffect) (c : Conn) :
    (c ∉ S → hubUnregister { clients := S, effects := effects } c
        = { clients := S, effects := effects })
    ∧ (c ∈ S →
        (hubUnregister { clients := S, effects := effects } c).clients = S.erase c
        ∧ (∀ d, d ∈ (hubUnregister { clients := S, effects := effects } c).clients
            ↔ d ∈ S ∧ d ≠ c)
        ∧ (hubUnregister { clients := S, effects := effects } c).effects
            = effects ++ [HubEffect.close c])
    ∧ hubUnregister (hubUnregister { clients := S, effects := effects } c) c
        = hubUnregister { clients := S, effects := effects } c
    ∧ (c ∉ S →
        (hubUnregister (hubRegister { clients := S, effects := effects } c) c).clients = S)
    ∧ (hubUnregister { clients := {1, 2}, effects := [] } 3).effects = []
    ∧ (hubUnregister { clients := {1, 2}, effects := [] } 2).clients = {1}
    ∧ (hubUnregister { clients := {1, 2}, effects := [] } 2).effects = [HubEffect.close 2] := by
  refine ⟨?_, ?_, ?_, ?_, by decide, by decide, by decide⟩
  · intro h
    exact hubUnregister_absent _ c h
  · intro h
    rw [hubUnregister_present _ c h]
    refine ⟨rfl, ?_, rfl⟩
    intro d
    simp only [Finset.mem_erase]
    tauto
  · by_cases h : c ∈ S
    · rw [hubUnregister_present { clients := S, effects := effects } c h]
      exact hubUnregister_absent _ c (Finset.not_mem_erase c S)
    · rw [hubUnregister_absent { clients := S, effects := effects } c h]
      exact hubUnregister_absent _ c h
  · intro h
    have hin : c ∈ (hubRegister { clients := S, effects := effects } c).clients :=
      Finset.mem_insert_self c S
    rw [hubUnregister_present _ c hin]
    exact Finset.erase_insert h

/-! ## Exactness of the category score -/

/-- The score of one info finding for `maxScore = 360287970189641`: the product with
100 is halfway between two floats, and the quotient by 100 is not a whole number. -/
theorem calculateCategoryScore_large_info :
    calculateCategoryScore [issueOfSeverity SeverityInfo] 360287970189641
      = 5764607523034255 / 16 := by
  have hmax : f64 ((360287970189641 : Int) : ℚ) = 360287970189641 := by
    have := f64_intCast 360287970189641 (by norm_num)
    exact_mod_cast this
  have hpen : [issueOfSeverity SeverityInfo].foldl penaltyStep 0 = 0 := by
    rw [List.foldl_cons, List.foldl_nil, penaltyStep_eq]
    have ht : totalPenalty [issueOfSeverity SeverityInfo] = 0 := by
      simp [totalPenalty, severityCount, issueOfSeverity, SeverityInfo]
    rw [ht, if_pos rfl]
  have hsub : f64 ((360287970189641 : ℚ) - 0) = 360287970189641 := by
    have h := f64_intCast 360287970189641 (by norm_num)
    have e : ((360287970189641 : ℚ) - 0) = ((360287970189641 : Int) : ℚ) := by norm_num
    rw [e, h]; norm_num
  have hmul : f64 ((360287970189641 : ℚ) * 100) = ((36028797018964096 : Int) : ℚ) := by
    rw [f64_eq _ 55 4503599627370512 (by norm_num) (by norm_num)
      ((roundHalfEven_tie _ 4503599627370512 (by norm_num)).trans (by decide))]
    norm_num
  have hdiv : f64 (((36028797018964096 : Int) : ℚ) / 100) = 5764607523034255 / 16 := by
    rw [f64_eq _ 48 5764607523034255 (by norm_num) (by norm_num)
      (roundHalfEven_eq_of_near _ _ (by norm_num) (by norm_num))]
    norm_num
  unfold calculateCategoryScore
  rw [if_neg (by simp)]
  simp only []
  rw [hmax, hpen, hsub, if_neg (by norm_num), hmul, mathRound_intCast, hdiv]

/-- C24 (as stated, refuted): on the empty finding list with `maxScore = -5` the
function returns `-5`, not `max(0, maxScore - penalty) = 0`; and with
`maxScore = 360287970189641` and one info finding, where no penalty applies, the
rounding to two decimals is not the identity: the function returns
`360287970189640.9375`. -/
theorem calculateCategoryScore_exact_fails :
    ¬ (calculateCategoryScore [] (-5)
        = ((max 0 ((-5 : Int) - (totalPenalty [] : Int)) : Int) : ℚ))
    ∧ calculateCategoryScore [issueOfSeverity SeverityInfo] 360287970189641
        = 5764607523034255 / 16
    ∧ ¬ (calculateCategoryScore [issueOfSeverity SeverityInfo] 360287970189641
        = ((max 0 ((360287970189641 : Int)
            - (totalPenalty [issueOfSeverity SeverityInfo] : Int)) : Int) : ℚ)) := by
  refine ⟨?_, calculateCategoryScore_large_info, ?_⟩
  · rw [calculateCategoryScore_nil_exact _ (by norm_num), totalPenalty_nil]
    norm_num
  · rw [calculateCategoryScore_large_info]
    have ht : totalPenalty [issueOfSeverity SeverityInfo] = 0 := by
      simp [totalPenalty, severityCount, issueOfSeverity, SeverityInfo]
    rw [ht]
    norm_num

/-- C24 (amended): for every finding list and every integer `maxScore` with
`|maxScore| ≤ 9 * 10^13`, provided the list is non-empty or `maxScore ≥ 0`, the
clamped value `max(0, maxScore - penalty)` that the function computes is an integer,
the rounding to 2 decimal places of the last line is the identity on it, and the
returned score equals it exactly. -/
theorem calculateCategoryScore_exact (L : List Issue) (maxScore : Int)
    (h : L ≠ [] ∨ 0 ≤ maxScore) (hb : |maxScore| ≤ 90000000000000) :
    calculateCategoryScore L maxScore
        = ((max 0 (maxScore - (totalPenalty L : Int)) : Int) : ℚ)
    ∧ roundTo2 ((max 0 (maxScore - (totalPenalty L : Int)) : Int) : ℚ)
        = ((max 0 (maxScore - (totalPenalty L : Int)) : Int) : ℚ)
    ∧ f64 (mathRound (f64 (((max 0 (maxScore - (totalPenalty L : Int)) : Int) : ℚ) * 100)) / 100)
        = ((max 0 (maxScore - (totalPenalty L : Int)) : Int) : ℚ)
    ∧ (if f64 (f64 (maxScore : ℚ) - L.foldl penaltyStep 0) < 0 then 0
          else f64 (f64 (maxScore : ℚ) - L.foldl penaltyStep 0))
        = ((max 0 (maxScore - (totalPenalty L : Int)) : Int) : ℚ) := by
  have hb2 := (abs_le.mp hb).2
  have hT : (0 : Int) ≤ (totalPenalty L : Int) := Int.natCast_nonneg _
  refine ⟨?_, roundTo2_intCast _,
    score_tail _ (le_max_left 0 _) (max_le (by norm_num) (by omega)),
    clamped_score L maxScore hb⟩
  by_cases hL : L = []
  · subst hL
    have hmax : 0 ≤ maxScore := by
      rcases h with h | h
      · exact absurd rfl h
      · exact h
    rw [calculateCategoryScore_nil_exact _ hb, totalPenalty_nil]
    simp [hmax]
  · exact calculateCategoryScore_of_ne_nil L maxScore hL hb

/-- Instance of the C24 theorem at a concrete input, hypotheses discharged. -/
theorem calculateCategoryScore_exact_witness :
    ([issueOfSeverity SeverityCritical, issueOfSeverity SeverityLow] ≠ [] ∨ (0 : Int) ≤ 100)
    ∧ |(100 : Int)| ≤ 90000000000000
    ∧ calculateCategoryScore [issueOfSeverity SeverityCritical, issueOfSeverity SeverityLow] 100
        = ((max 0 ((100 : Int) - (totalPenalty
            [issueOfSeverity SeverityCritical, issueOfSeverity SeverityLow] : Int)) : Int) : ℚ) :=
  ⟨Or.inr (by decide), by norm_num,
    (calculateCategoryScore_exact
      [issueOfSeverity SeverityCritical, issueOfSeverity SeverityLow] 100
      (Or.inr (by decide)) (by norm_num)).1⟩

/-! ## Conservation of findings by the aggregation -/

theorem sum_indicator (names : List String) (a : String) :
    (names.map (fun c => if a = c then 1 else 0)).sum = names.count a := by
  induction names with
  | nil => rfl
  | cons n rest ih =>
    rw [List.map_cons, List.sum_cons, ih, List.count_cons]
    by_cases h : a = n
    · subst h
      simp
      omega
    · have h' : (n == a) = false := by simpa using Ne.symm h
      simp [h, h']

/-- Grouping a list by a key with values in a duplicate-free list of names loses and
duplicates nothing. -/
theorem sum_group_lengths (names : List String) (hnodup : names.Nodup)
    (key : Issue → String) (hkey : ∀ i, key i ∈ names) (L : List Issue) :
    (names.map (fun c => (L.filter (fun i => decide (key i = c))).length)).sum = L.length := by
  induction L with
  | nil => simp
  | cons i L ih =>
    have hstep : ∀ c, ((i :: L).filter (fun j => decide (key j = c))).length
        = (if key i = c then 1 else 0) + (L.filter (fun j => decide (key j = c))).length := by
      intro c
      by_cases h : key i = c
      · simp [List.filter_cons, h]
        omega
      · simp [List.filter_cons, h]
    simp only [hstep]
    rw [List.sum_map_add, ih, sum_indicator, List.count_eq_one_of_mem hnodup (hkey i)]
    simp
    omega

/-- The three buckets and the unrecognised severities partition a finding list. -/
theorem buckets_partition (G : List Issue) :
    G.countP (fun i => decide (i.Severity = SeverityCritical ∨ i.Severity = SeverityHigh))
      + G.countP (fun i => decide (i.Severity = SeverityMedium))
      + G.countP (fun i => decide (i.Severity = SeverityLow))
      + G.countP (fun i => !recognisedSeverity i.Severity)
      = G.length := by
  induction G with
  | nil => rfl
  | cons i G ih =>
    simp only [List.countP_cons, List.length_cons]
    by_cases h1 : i.Severity = "critical"
    · have b1 : decide (i.Severity = SeverityCritical ∨ i.Severity = SeverityHigh) = true := by
        simp [SeverityCritical, h1]
      have b2 : decide (i.Severity = SeverityMedium) = false := by simp [SeverityMedium, h1]
      have b3 : decide (i.Severity = SeverityLow) = false := by simp [SeverityLow, h1]
      have b4 : (!recognisedSeverity i.Severity) = false := by
        simp [recognisedSeverity, SeverityCritical, h1]
      simp only [b1, b2, b3, b4, if_true, Bool.false_eq_true, if_false]
      omega
    · by_cases h2 : i.Severity = "high"
      · have b1 : decide (i.Severity = SeverityCritical ∨ i.Severity = SeverityHigh) = true := by
          simp [SeverityHigh, h2]
        have b2 : decide (i.Severity = SeverityMedium) = false := by simp [SeverityMedium, h2]
        have b3 : decide (i.Severity = SeverityLow) = false := by simp [SeverityLow, h2]
        have b4 : (!recognisedSeverity i.Severity) = false := by
          simp [recognisedSeverity, SeverityHigh, h2]
        simp only [b1, b2, b3, b4, if_true, Bool.false_eq_true, if_false]
        omega
      · have b1 : decide (i.Severity = SeverityCritical ∨ i.Severity = SeverityHigh) = false := by
          simp [SeverityCritical, SeverityHigh, h1, h2]
        by_cases h3 : i.Severity = "medium"
        · have b2 : decide (i.Severity = SeverityMedium) = true := by simp [SeverityMedium, h3]
          have b3 : decide (i.Severity = SeverityLow) = false := by simp [SeverityLow, h3]
          have b4 : (!recognisedSeverity i.Severity) = false := by
            simp [recognisedSeverity, SeverityMedium, h3]
          simp only [b1, b2, b3, b4, if_true, Bool.false_eq_true, if_false]
          omega
        · have b2 : decide (i.Severity = SeverityMedium) = false := by simp [SeverityMedium, h3]
          by_cases h4 : i.Severity = "low"
          · have b3 : decide (i.Severity = SeverityLow) = true := by simp [SeverityLow, h4]
            have b4 : (!recognisedSeverity i.Severity) = false := by
              simp [recognisedSeverity, SeverityLow, h4]
            simp only [b1, b2, b3, b4, if_true, Bool.false_eq_true, if_false]
            omega
          · have b3 : decide (i.Severity = SeverityLow) = false := by simp [SeverityLow, h4]
            have b4 : (!recognisedSeverity i.Severity) = true := by
              simp [recognisedSeverity, SeverityCritical, SeverityHigh, SeverityMedium,
                SeverityLow, h1, h2, h3, h4]
            simp only [b1, b2, b3, b4, if_true, Bool.false_eq_true, if_false]
            omega

theorem mapIssueTypeToCategory_mem_catalog (t : String) :
    mapIssueTypeToCategory t ∈ catalogNames := by
  unfold mapIssueTypeToCategory
  cases h : mapLookup categoryMap t with
  | none => simp [catalogNames]
  | some v => exact categoryMap_values (mapLookup_some h)

theorem issueCount_map_eq (order : List (String × CategoryScore))
    (rangeKeys : List String → List String) (L : List Issue) :
    (calculateCategoryScores order rangeKeys L).map (fun s => s.IssueCount)
      = (order.map Prod.fst).map (fun c => (((issuesOfCategory c L).length : Nat) : Int)) := by
  rw [calculateCategoryScores_eq_map, List.map_map, List.map_map]
  apply List.map_congr_left
  intro entry _
  exact (categoryScoreFor_fields rangeKeys L entry.1 entry.2).2.2.2.1

/-- C25: every value of `mapIssueTypeToCategory` is a key of `CategoryDefinitions`; for
every finding list the `IssueCount` fields of the returned entries sum to the length
of the list; and in every entry `CriticalIssues + WarningIssues + InfoIssues` is at
most `IssueCount`, with equality exactly when every finding of the category has one of
the severities critical, high, medium, low. -/
theorem calculateCategoryScores_conserves (order : List (String × CategoryScore))
    (rangeKeys : List String → List String) (L : List Issue)
    (horder : order.Perm CategoryDefinitions) :
    (∀ t, mapIssueTypeToCategory t ∈ CategoryDefinitions.map Prod.fst)
    ∧ ((calculateCategoryScores order rangeKeys L).map (fun s => s.IssueCount)).sum
        = (L.length : Int)
    ∧ (∀ s ∈ calculateCategoryScores order rangeKeys L,
        s.CriticalIssues + s.WarningIssues + s.InfoIssues ≤ s.IssueCount
        ∧ (s.CriticalIssues + s.WarningIssues + s.InfoIssues = s.IssueCount
            ↔ ∀ i ∈ issuesOfCategory s.CategoryName L, recognisedSeverity i.Severity = true)) := by
  refine ⟨?_, ?_, ?_⟩
  · intro t
    rw [CategoryDefinitions_keys]
    exact mapIssueTypeToCategory_mem_catalog t
  · rw [issueCount_map_eq]
    have hperm : (order.map Prod.fst).Perm catalogNames := by
      rw [← CategoryDefinitions_keys]
      exact horder.map _
    rw [(hperm.map _).sum_eq]
    have hsum := sum_group_lengths catalogNames catalogNames_nodup
      (fun i => mapIssueTypeToCategory i.Type') (fun i => mapIssueTypeToCategory_mem_catalog _) L
    have hcast : (catalogNames.map
        (fun c => (((issuesOfCategory c L).length : Nat) : Int))).sum
        = (((catalogNames.map (fun c => (issuesOfCategory c L).length)).sum : Nat) : Int) := by
      rw [Nat.cast_list_sum, List.map_map]
      rfl
    rw [hcast]
    exact congrArg Nat.cast hsum
  · intro s hs
    obtain ⟨e, _, rfl⟩ := mem_calculateCategoryScores hs
    have f := categoryScoreFor_fields rangeKeys L e.1 e.2
    have hpart := buckets_partition (issuesOfCategory e.1 L)
    rw [f.1, f.2.2.2.1, f.2.2.2.2.1, f.2.2.2.2.2.1, f.2.2.2.2.2.2]
    constructor
    · omega
    · constructor
      · intro heq
        have hzero : (issuesOfCategory e.1 L).countP
            (fun i => !recognisedSeverity i.Severity) = 0 := by omega
        intro i hi
        have := (List.countP_eq_zero.mp hzero) i hi
        simpa using this
      · intro hall
        have hzero : (issuesOfCategory e.1 L).countP
            (fun i => !recognisedSeverity i.Severity) = 0 := by
          rw [List.countP_eq_zero]
          intro i hi
          simp [hall i hi]
        omega

/-- Instance of the C25 theorem at a concrete input, hypotheses discharged. -/
theorem calculateCategoryScores_conserves_witness :
    CategoryDefinitions.Perm CategoryDefinitions
    ∧ ((calculateCategoryScores CategoryDefinitions id
          [mkIssue "xss_vulnerability" "critical" "escape output",
           mkIssue "never_seen_tag" "info" "", mkIssue "test_missing" "low" ""]).map
        (fun s => s.IssueCount)).sum = 3 :=
  ⟨List.Perm.refl _,
    (calculateCategoryScores_conserves CategoryDefinitions id
      [mkIssue "xss_vulnerability" "critical" "escape output",
       mkIssue "never_seen_tag" "info" "", mkIssue "test_missing" "low" ""]
      (List.Perm.refl _)).2.1⟩

/-! ## Scorer and evaluator composed -/

theorem score_ge_ninety_iff (G : List Issue) :
    calculateCategoryScore G 100 ≥ 90 ↔ totalPenalty G ≤ 10 := by
  rw [calculateCategoryScore_hundred]
  have hcast : (((max 0 (100 - (totalPenalty G : Int)) : Int) : ℚ) ≥ 90)
      ↔ (max 0 (100 - (totalPenalty G : Int)) ≥ 90) := by
    constructor
    · intro h; exact_mod_cast h
    · intro h; exact_mod_cast h
  rw [hcast]
  constructor
  · intro h
    rcases max_cases (0 : Int) (100 - (totalPenalty G : Int)) with ⟨he, _⟩ | ⟨he, _⟩
    · rw [he] at h; omega
    · rw [he] at h; omega
  · intro h
    have : (90 : Int) ≤ 100 - (totalPenalty G : Int) := by omega
    exact le_trans this (le_max_right _ _)

theorem totalPenalty_ge_of_critical (G : List Issue)
    (h : ∃ i ∈ G, i.Severity = "critical") : 15 ≤ totalPenalty G := by
  obtain ⟨i, hi, hsev⟩ := h
  have hpos : 0 < severityCount "critical" G := by
    unfold severityCount
    rw [List.countP_pos_iff]
    exact ⟨i, hi, by simpa using hsev⟩
  unfold totalPenalty
  omega

theorem score_le_of_critical (G : List Issue) (h : ∃ i ∈ G, i.Severity = "critical") :
    calculateCategoryScore G 100 ≤ 85 := by
  rw [calculateCategoryScore_hundred]
  have hp := totalPenalty_ge_of_critical G h
  have : max 0 (100 - (totalPenalty G : Int)) ≤ 85 := by
    apply max_le <;> omega
  exact_mod_cast this

theorem entry_of_catalog_name (order : List (String × CategoryScore))
    (horder : order.Perm CategoryDefinitions) (c : String) (hc : c ∈ catalogNames) :
    ∃ e ∈ order, e.1 = c := by
  rw [← CategoryDefinitions_keys] at hc
  obtain ⟨e, he, hec⟩ := List.mem_map.mp hc
  exact ⟨e, horder.symm.subset he, hec⟩

/-- C26: for the category scores produced by `calculateCategoryScores` and a lookup that
reports no prior achievement, a catalog category yields a `category_master`
achievement if and only if its total penalty `15c + 10h + 5m + 2l` is at most 10; a
category containing a critical finding has a score of at most 85 and yields no
achievement at all. -/
theorem mastery_iff_penalty {σ : Type} (client : SupabaseClient σ) (db : σ)
    (userID projectID scanID : String) (order : List (String × CategoryScore))
    (rangeKeys : List String → List String) (L : List Issue) (c : String)
    (horder : order.Perm CategoryDefinitions)
    (hnone : ∀ t cat, checkAchievementExists client db userID t cat = Except.ok false)
    (hc : c ∈ catalogNames) :
    ((∃ a ∈ (checkAchievements client db userID projectID scanID
          (calculateCategoryScores order rangeKeys L)).1,
        a.AchievementType = "category_master" ∧ a.Category = c)
      ↔ totalPenalty (issuesOfCategory c L) ≤ 10)
    ∧ ((∃ i ∈ issuesOfCategory c L, i.Severity = "critical") →
        (∀ s ∈ calculateCategoryScores order rangeKeys L, s.CategoryName = c → s.Score ≤ 85)
        ∧ ¬ ∃ a ∈ (checkAchievements client db userID projectID scanID
            (calculateCategoryScores order rangeKeys L)).1, a.Category = c) := by
  have hscore : ∀ s ∈ calculateCategoryScores order rangeKeys L, s.CategoryName = c →
      s.Score = calculateCategoryScore (issuesOfCategory c L) 100 := by
    intro s hs hname
    obtain ⟨e, he, rfl⟩ := mem_calculateCategoryScores hs
    have f := categoryScoreFor_fields rangeKeys L e.1 e.2
    rw [f.1] at hname
    rw [f.2.2.1, CategoryDefinitions_maxScore (horder.subset he), hname]
  constructor
  · constructor
    · rintro ⟨a, ha, htype, hcat⟩
      obtain ⟨s, hs, hearn⟩ := (mem_checkAchievements client db userID projectID scanID _ a).mp ha
      rcases hearn with ⟨h90, rfl, _⟩ | ⟨_, rfl, _⟩
      · have hname : s.CategoryName = c := hcat
        rw [hscore s hs hname] at h90
        exact (score_ge_ninety_iff _).mp h90
      · exact absurd htype (perfect_ne_master s.CategoryName)
    · intro hpen
      obtain ⟨e, he, hec⟩ := entry_of_catalog_name order horder c hc
      have hs : categoryScoreFor rangeKeys (L.foldl groupStep (fun _ => [])) e.1 e.2
          ∈ calculateCategoryScores order rangeKeys L := by
        rw [calculateCategoryScores_eq_map]
        exact List.mem_map_of_mem
          (fun entry : String × CategoryScore =>
            categoryScoreFor rangeKeys (L.foldl groupStep (fun _ => [])) entry.1 entry.2) he
      have hname : (categoryScoreFor rangeKeys (L.foldl groupStep (fun _ => [])) e.1 e.2).CategoryName
          = c := by
        rw [(categoryScoreFor_fields rangeKeys L e.1 e.2).1, hec]
      have h90 : (categoryScoreFor rangeKeys (L.foldl groupStep (fun _ => [])) e.1 e.2).Score
          ≥ 90 := by
        rw [hscore _ hs hname]
        exact (score_ge_ninety_iff _).mpr hpen
      refine ⟨categoryMasterAchievement userID projectID
        (categoryScoreFor rangeKeys (L.foldl groupStep (fun _ => [])) e.1 e.2), ?_, rfl, hname⟩
      rw [mem_checkAchievements]
      exact ⟨_, hs, Or.inl ⟨h90, rfl, hnone _ _⟩⟩
  · intro hcrit
    have hle := score_le_of_critical _ hcrit
    refine ⟨fun s hs hname => by rw [hscore s hs hname]; exact hle, ?_⟩
    rintro ⟨a, ha, hcat⟩
    obtain ⟨s, hs, hearn⟩ := (mem_checkAchievements client db userID projectID scanID _ a).mp ha
    rcases hearn with ⟨h90, rfl, _⟩ | ⟨h100, rfl, _⟩
    · have hname : s.CategoryName = c := hcat
      rw [hscore s hs hname] at h90
      linarith
    · have hname : s.CategoryName = c := hcat
      rw [hscore s hs hname] at h100
      rw [h100] at hle
      norm_num at hle

/-- Instance of the C26 theorem at a concrete input, hypotheses discharged: one high
finding in security (penalty 10) still earns the mastery achievement. -/
theorem mastery_iff_penalty_witness :
    CategoryDefinitions.Perm CategoryDefinitions
    ∧ "security" ∈ catalogNames
    ∧ totalPenalty (issuesOfCategory "security" [mkIssue "xss_vulnerability" "high" ""]) ≤ 10
    ∧ ∃ a ∈ (checkAchievements memoryClient [] "u1" "p1" "scan1"
          (calculateCategoryScores CategoryDefinitions id
            [mkIssue "xss_vulnerability" "high" ""])).1,
        a.AchievementType = "category_master" ∧ a.Category = "security" :=
  ⟨List.Perm.refl _, by decide, by decide,
    (mastery_iff_penalty memoryClient [] "u1" "p1" "scan1" CategoryDefinitions id
      [mkIssue "xss_vulnerability" "high" ""] "security" (List.Perm.refl _)
      (fun _ _ => rfl) (by decide)).1.mpr (by decide)⟩

/-! ## Pagination -/

/-- C30 (as stated, refuted): for `total = 2^63 - 1` and `pageSize = 2` the sum
`total + pageSize - 1` wraps around to `-2^63`, and `TotalPages` is `-2^62`, which is
negative and not the ceiling of `total / pageSize`. -/
theorem NewPaginatedResponse_ceiling_fails :
    (0 : Int) ≤ 9223372036854775807 ∧ (1 : Int) ≤ 2
    ∧ (NewPaginatedResponse ([] : List Nat) 9223372036854775807 1 2).map
        (fun r => r.TotalPages) = some (-4611686018427387904) := by
  decide

/-- C30 (amended): for every `total ≥ 0` and every `pageSize ≥ 1` whose sum
`total + pageSize - 1` fits a 64-bit `int`, `NewPaginatedResponse` returns a response
whose `TotalPages` is the ceiling of `total / pageSize`, the least `n ≥ 0` with
`n * pageSize ≥ total`, and which holds `data`, `total`, `page` and `pageSize`
unchanged; for `pageSize = 0` the division has no result. -/
theorem NewPaginatedResponse_ceiling {α : Type} (data : List α) (total page pageSize : Int)
    (htotal : 0 ≤ total) (hsize : 1 ≤ pageSize)
    (hfit : total + pageSize - 1 < 9223372036854775808) :
    (∃ r, NewPaginatedResponse data total page pageSize = some r
      ∧ r.Data = data ∧ r.Total = total ∧ r.Page = page ∧ r.PageSize = pageSize
      ∧ 0 ≤ r.TotalPages ∧ total ≤ r.TotalPages * pageSize
      ∧ ∀ n : Int, 0 ≤ n → total ≤ n * pageSize → r.TotalPages ≤ n)
    ∧ NewPaginatedResponse data total page 0 = none := by
  have hne : pageSize ≠ 0 := by omega
  have hpos : 0 < pageSize := by omega
  have hsum : wrapInt64 (wrapInt64 (total + pageSize) - 1) = total + pageSize - 1 := by
    unfold wrapInt64 Int.bmod
    simp only []
    split_ifs <;> omega
  have hq0 : 0 ≤ (total + pageSize - 1) / pageSize := Int.ediv_nonneg (by omega) (by omega)
  have hqle : (total + pageSize - 1) / pageSize ≤ total + pageSize - 1 :=
    Int.ediv_le_self _ (by omega)
  have hdiv : goDiv (total + pageSize - 1) pageSize = (total + pageSize - 1) / pageSize := by
    unfold goDiv
    rw [Int.tdiv_eq_ediv (by omega) (by omega)]
    exact wrapInt64_self _ (by omega) (by omega)
  have h1 := Int.ediv_mul_le (total + pageSize - 1) hne
  have h2 := Int.lt_ediv_add_one_mul_self (total + pageSize - 1) hpos
  refine ⟨⟨PaginatedResponse.mk data total page pageSize ((total + pageSize - 1) / pageSize),
    ?_, rfl, rfl, rfl, rfl, hq0, ?_, ?_⟩, ?_⟩
  · unfold NewPaginatedResponse
    rw [if_neg hne]
    simp only [hsum, hdiv]
  · show total ≤ (total + pageSize - 1) / pageSize * pageSize
    have : ((total + pageSize - 1) / pageSize + 1) * pageSize
        = (total + pageSize - 1) / pageSize * pageSize + pageSize := by ring
    omega
  · intro n hn hle
    show (total + pageSize - 1) / pageSize ≤ n
    by_contra hgt
    have hlt : n + 1 ≤ (total + pageSize - 1) / pageSize := by omega
    have hmul : (n + 1) * pageSize ≤ (total + pageSize - 1) / pageSize * pageSize :=
      Int.mul_le_mul_of_nonneg_right hlt (by omega)
    have : (n + 1) * pageSize = n * pageSize + pageSize := by ring
    omega
  · simp [NewPaginatedResponse]

/-- Instance of the C30 theorem at a concrete input, hypotheses discharged: 101 rows in
pages of 10 make 11 pages. -/
theorem NewPaginatedResponse_ceiling_witness :
    (0 : Int) ≤ 101 ∧ (1 : Int) ≤ 10 ∧ (101 : Int) + 10 - 1 < 9223372036854775808
    ∧ (NewPaginatedResponse [1, 2, 3] 101 2 10).map (fun r => r.TotalPages) = some 11
    ∧ ∃ r, NewPaginatedResponse [1, 2, 3] 101 2 10 = some r ∧ r.Data = [1, 2, 3]
        ∧ r.Total = 101 ∧ r.Page = 2 ∧ r.PageSize = 10
        ∧ 0 ≤ r.TotalPages ∧ 101 ≤ r.TotalPages * 10
        ∧ ∀ n : Int, 0 ≤ n → 101 ≤ n * 10 → r.TotalPages ≤ n :=
  ⟨by decide, by decide, by decide, by decide,
    (NewPaginatedResponse_ceiling [1, 2, 3] 101 2 10 (by decide) (by decide) (by decide)).1⟩

/-! ## Input validation -/

theorem filepathClean_examples :
    String.mk (filepathClean "/home//bob/./src/".data) = "/home/bob/src"
    ∧ String.mk (filepathClean "a/b/../../../c".data) = "../c"
    ∧ String.mk (filepathClean "/../a/..".data) = "/"
    ∧ String.mk (filepathClean "".data) = "."
    ∧ String.mk (filepathClean "./".data) = "." := by
  decide

theorem emailRegexMatch_examples :
    emailRegexMatch "a.b@example.co".data = true
    ∧ emailRegexMatch "a.b@example.c".data = false
    ∧ emailRegexMatch "a@b@example.com".data = false := by
  decide

/-- What a successful `ValidateProjectPath` establishes: the cleaned path has one of
the allowed paths as a textual beginning (when the allow-list is not empty) and, when
it is absolute, none of the sensitive directories as a textual beginning. -/
theorem ValidateProjectPath_ok (allowed : List String) (path : String)
    (h : ValidateProjectPath allowed path = Except.ok ()) :
    ∃ sanitized, ValidateAndSanitizeInput path "file_path" = Except.ok sanitized
      ∧ (allowed ≠ [] →
          ∃ a ∈ allowed, a.data.isPrefixOf (filepathClean sanitized.data) = true)
      ∧ (['/'].isPrefixOf (filepathClean sanitized.data) = true →
          ∀ r ∈ restrictedPaths, r.data.isPrefixOf (filepathClean sanitized.data) = false) := by
  unfold ValidateProjectPath at h
  cases hv : ValidateAndSanitizeInput path "file_path" with
  | error e => rw [hv] at h; cases h
  | ok sanitized =>
    rw [hv] at h
    simp only [] at h
    refine ⟨sanitized, rfl, ?_, ?_⟩
    · intro hne
      split_ifs at h with h1 h2 h3
      · have hlen : allowed.length > 0 := List.length_pos.mpr hne
        have hany : allowed.any
            (fun allowedPath => allowedPath.data.isPrefixOf (filepathClean sanitized.data))
            = true := by
          by_contra hno
          exact h2 ⟨hlen, hno⟩
        obtain ⟨a, ha, hpre⟩ := List.any_eq_true.mp hany
        exact ⟨a, ha, hpre⟩
    · intro hroot r hr
      split_ifs at h with h1 h2 h3
      · by_contra hpre
        apply h3
        refine ⟨hroot, List.any_eq_true.mpr ⟨r, hr, ?_⟩⟩
        simpa using hpre

/-- C22 (evaluation at the failing input): with the default allow-list the path
`/home2/project` is accepted, its cleaned form is `/home2/project`, and that path is
neither one of the allowed directories nor a descendant of one, element by element;
`RunAnalysis` then invokes the engine on it. -/
theorem ValidateProjectPath_sibling_accepted :
    ValidateProjectPath defaultProjectPaths "/home2/project" = Except.ok ()
    ∧ ValidateAndSanitizeInput "/home2/project" "file_path" = Except.ok "/home2/project"
    ∧ String.mk (filepathClean "/home2/project".data) = "/home2/project"
    ∧ defaultProjectPaths.any
        (fun dir => withinDirectory dir.data "/home2/project".data) = false
    ∧ withinDirectory "/home".data "/home/bob/project".data = true
    ∧ (RunAnalysis demoCollaborators "/home2/project" "p1" "").2
        = [RunEvent.engineInvoked "/home2/project", RunEvent.scanPosted,
            RunEvent.achievementsChecked] := by
  refine ⟨rfl, rfl, by decide, by decide, by decide, rfl⟩

/-- C27 (evaluation at the failing input): of the five default allowed project paths
the three rooted at `/` are accepted by `ValidateProjectPath`, and `C:\Users` and
`C:\Projects` are rejected because they contain a colon. -/
theorem ValidateProjectPath_default_roots :
    defaultProjectPaths.map (ValidateProjectPath defaultProjectPaths)
      = [Except.ok (), Except.ok (), Except.ok (),
         Except.error "invalid characters in file path",
         Except.error "invalid characters in file path"] := by
  rfl

/-! ## Scan types and project names -/

/-- Whatever `ValidateAndSanitizeInput` accepts as a scan type is one of its four
predefined values: the input without its NUL characters is that value. -/
theorem ValidateAndSanitizeInput_scan_type (input out : String)
    (h : ValidateAndSanitizeInput input "scan_type" = Except.ok out) :
    out ∈ validScanTypes ∧ String.mk (removeNul input.data) = out := by
  unfold ValidateAndSanitizeInput at h
  have e1 : ¬ ("scan_type" : String) = "project_name" := by decide
  have e2 : ¬ ("scan_type" : String) = "file_path" := by decide
  have e3 : ¬ ("scan_type" : String) = "email" := by decide
  simp only [if_neg e1, if_neg e2, if_neg e3, if_true] at h
  by_cases hany : validScanTypes.any
      (fun validType => decide (String.mk (removeNul input.data) = validType)) = true
  · rw [if_pos hany] at h
    simp only [Except.ok.injEq] at h
    obtain ⟨v, hv, hveq⟩ := List.any_eq_true.mp hany
    have hveq' : String.mk (removeNul input.data) = v := by simpa using hveq
    have hdata : removeNul input.data = v.data := by rw [← hveq']
    have htrim : String.mk (stringsTrimSpace v.data) = v := by
      simp only [validScanTypes, List.mem_cons, List.mem_singleton, List.not_mem_nil,
        or_false] at hv
      rcases hv with rfl | rfl | rfl | rfl <;> decide
    rw [hdata, htrim] at h
    subst h
    exact ⟨hv, hveq'⟩
  · rw [if_neg hany] at h
    cases h

/-- C28 (evaluation at the failing input): `GetSupportedScanTypes` returns `full`,
`dependency` and `pattern`; `ValidateAndSanitizeInput` accepts `full` as a scan type
and rejects `dependency` and `pattern`, which are not among its predefined values
`full`, `security`, `performance`, `quality`. -/
theorem scan_types_disagree :
    GetSupportedScanTypes = ["full", "dependency", "pattern"]
    ∧ GetSupportedScanTypes.map (fun t => ValidateAndSanitizeInput t "scan_type")
        = [Except.ok "full", Except.error "invalid scan type",
           Except.error "invalid scan type"]
    ∧ validScanTypes = ["full", "security", "performance", "quality"] := by
  refine ⟨rfl, rfl, rfl⟩

theorem stringsTrimSpace_sublist (s : List Char) : (stringsTrimSpace s).Sublist s := by
  obtain ⟨pre, post, hs, _⟩ := stringsTrimSpace_spec s
  have h1 : (stringsTrimSpace s).Sublist (pre ++ stringsTrimSpace s ++ post) := by
    rw [List.append_assoc]
    exact (List.sublist_append_left _ _).trans (List.sublist_append_right _ _)
  have h2 : (pre ++ stringsTrimSpace s ++ post).Sublist s := by
    rw [← hs]
  exact h1.trans h2

/-- What a successful validation of a project name establishes: at most 100
characters, all from the class `[a-zA-Z0-9\s\-_]`, with no white space at either
end. -/
theorem ValidateAndSanitizeInput_project_name (input out : String)
    (h : ValidateAndSanitizeInput input "project_name" = Except.ok out) :
    out.data.length ≤ 100 ∧ (∀ c ∈ out.data, projectNameChar c = true)
      ∧ (∀ c, out.data.head? = some c → isSpace c = false)
      ∧ (∀ c, out.data.getLast? = some c → isSpace c = false) := by
  unfold ValidateAndSanitizeInput at h
  simp only [if_true] at h
  by_cases hlen : ((removeNul input.data).filter projectNameChar).length = 0
      ∨ ((removeNul input.data).filter projectNameChar).length > 100
  · rw [if_pos hlen] at h
    cases h
  · rw [if_neg hlen] at h
    simp only [Except.ok.injEq] at h
    subst h
    have hsub := stringsTrimSpace_sublist ((removeNul input.data).filter projectNameChar)
    obtain ⟨_, _, _, _, _, hhead, hlast⟩ :=
      stringsTrimSpace_spec ((removeNul input.data).filter projectNameChar)
    refine ⟨?_, ?_, hhead, hlast⟩
    · have := hsub.length_le
      show (stringsTrimSpace _).length ≤ 100
      omega
    · intro c hc
      exact (List.mem_filter.mp (hsub.subset hc)).2

/-- C29 (evaluation at the failing input): a project name of three spaces passes the
length check, which runs before the trimming, and the empty name is returned without
an error; validating that returned name again fails.  A tab inside a name is kept. -/
theorem project_name_blank_accepted :
    ValidateAndSanitizeInput "   " "project_name" = Except.ok ""
    ∧ ValidateAndSanitizeInput "" "project_name"
        = Except.error ("project name must be 1-100 characters and contain only letters, "
            ++ "numbers, spaces, hyphens, and underscores")
    ∧ ValidateAndSanitizeInput " my-app_2 " "project_name" = Except.ok "my-app_2"
    ∧ ValidateAndSanitizeInput "my-app_2" "project_name" = Except.ok "my-app_2"
    ∧ ValidateAndSanitizeInput "a\tb" "project_name" = Except.ok "a\tb" := by
  refine ⟨rfl, rfl, rfl, rfl, rfl⟩

/-! ## The outcome of a run -/

/-- The function `saveScanToDatabase` returns a scan id exactly when the request is
answered with rows that decode and whose first row carries a string `id`; the id
returned is that string. -/
theorem saveScanToDatabase_ok_iff {σ : Type} (c : Collaborators σ) (scan : AnalysisScan)
    (userID scanID : String) :
    saveScanToDatabase c scan userID = Except.ok scanID
      ↔ ∃ data, c.postScan scan userID = Except.ok data
          ∧ ∃ rest, c.unmarshalRows data = Except.ok (some scanID :: rest) := by
  unfold saveScanToDatabase
  cases hd : c.postScan scan userID with
  | error e => simp
  | ok data =>
    cases hr : c.unmarshalRows data with
    | error e => simp [hr]
    | ok rows =>
      cases rows with
      | nil => simp [hr]
      | cons row rest =>
        cases row with
        | none => simp [hr]
        | some scanID' =>
          simp only [hr, Except.ok.injEq, exists_eq_left', List.cons.injEq, Option.some.injEq]
          constructor
          · intro h; exact ⟨rest, h, rfl⟩
          · rintro ⟨rest', h, _⟩; exact h

/-- The function `saveScanToDatabase` fails when the request fails, when the answer
does not decode, when it holds no row, and when the `id` of the first row is not a
string, where the unchecked type assertion panics. -/
theorem saveScanToDatabase_fails {σ : Type} (c : Collaborators σ) (scan : AnalysisScan)
    (userID : String) :
    (∀ err, c.postScan scan userID = Except.error err →
      saveScanToDatabase c scan userID
        = Except.error (RunFailure.error ("failed to save scan: " ++ err)))
    ∧ (∀ data err, c.postScan scan userID = Except.ok data →
        c.unmarshalRows data = Except.error err →
        saveScanToDatabase c scan userID
          = Except.error (RunFailure.error "failed to parse scan result"))
    ∧ (∀ data, c.postScan scan userID = Except.ok data →
        c.unmarshalRows data = Except.ok [] →
        saveScanToDatabase c scan userID
          = Except.error (RunFailure.error "failed to parse scan result"))
    ∧ (∀ data rest, c.postScan scan userID = Except.ok data →
        c.unmarshalRows data = Except.ok (none :: rest) →
        saveScanToDatabase c scan userID
          = Except.error (RunFailure.panic "interface conversion: interface is not string")) := by
  refine ⟨?_, ?_, ?_, ?_⟩
  · intro err h
    unfold saveScanToDatabase
    simp only [h]
  · intro data err h1 h2
    unfold saveScanToDatabase
    simp only [h1, h2]
  · intro data h1 h2
    unfold saveScanToDatabase
    simp only [h1, h2]
  · intro data rest h1 h2
    unfold saveScanToDatabase
    simp only [h1, h2]

/-- The trace of a run whose five decisive steps succeed. -/
theorem RunAsyncAnalysis_success {σ : Type} (c : Collaborators σ)
    (projectID projectPath scanType : String)
    (h : AllSucceed c projectID projectPath scanType) :
    RunAsyncAnalysis c projectID projectPath scanType
      = [RunEvent.engineInvoked projectPath, RunEvent.scanPosted,
          RunEvent.achievementsChecked, RunEvent.resultPosted, RunEvent.reportRequested,
          RunEvent.emitAttempt c.hubReceiving] := by
  obtain ⟨hv, output, he, result, hp, data, hd, scanID, rest, hr, body, hb⟩ := h
  have hs : saveScanToDatabase c (buildScan c projectID result) "" = Except.ok scanID :=
    (saveScanToDatabase_ok_iff c _ "" scanID).mpr ⟨data, hd, rest, hr⟩
  have hrun : RunAnalysis c projectPath projectID ""
      = (Except.ok { buildScan c projectID result with ID := scanID },
          [RunEvent.engineInvoked projectPath, RunEvent.scanPosted,
            RunEvent.achievementsChecked]) := by
    unfold RunAnalysis
    simp only [hv, he, hp, hs]
  have hsub : submitAnalysisToDatabase c
      (buildRecord projectID scanType { buildScan c projectID result with ID := scanID })
      = Except.ok () := by
    unfold submitAnalysisToDatabase
    simp only [hb]
  unfold RunAsyncAnalysis
  simp only [hrun, hsub]
  unfold notifyAnalysisComplete
  cases c.hubReceiving <;> rfl

/-- A failed `RunAnalysis` ends the run with the events of `RunAnalysis` alone. -/
theorem RunAsyncAnalysis_of_error {σ : Type} (c : Collaborators σ)
    (projectID projectPath scanType : String) (f : RunFailure) (events : List RunEvent)
    (hrun : RunAnalysis c projectPath projectID "" = (Except.error f, events)) :
    RunAsyncAnalysis c projectID projectPath scanType = events := by
  unfold RunAsyncAnalysis
  simp only [hrun]

/-- A run in which one of the five decisive steps fails emits nothing. -/
theorem RunAsyncAnalysis_failure {σ : Type} (c : Collaborators σ)
    (projectID projectPath scanType : String)
    (h : ¬ AllSucceed c projectID projectPath scanType) :
    emitCount (RunAsyncAnalysis c projectID projectPath scanType) = 0 := by
  cases hv : ValidateProjectPath c.AllowedProjectPaths projectPath with
  | error e =>
    rw [RunAsyncAnalysis_of_error c projectID projectPath scanType _ []
      (by unfold RunAnalysis; simp only [hv]; rfl)]
    rfl
  | ok u =>
    cases he : c.engineOutput projectPath with
    | error e =>
      rw [RunAsyncAnalysis_of_error c projectID projectPath scanType _
        [RunEvent.engineInvoked projectPath] (by unfold RunAnalysis; simp only [hv, he]; rfl)]
      simp [emitCount]
    | ok output =>
      cases hp : c.unmarshalScanResult output with
      | error e =>
        rw [RunAsyncAnalysis_of_error c projectID projectPath scanType _
          [RunEvent.engineInvoked projectPath]
          (by unfold RunAnalysis; simp only [hv, he, hp]; rfl)]
        simp [emitCount]
      | ok result =>
        cases hs : saveScanToDatabase c (buildScan c projectID result) "" with
        | error f =>
          cases f with
          | error msg =>
            rw [RunAsyncAnalysis_of_error c projectID projectPath scanType _
              [RunEvent.engineInvoked projectPath, RunEvent.scanPosted]
              (by unfold RunAnalysis; simp only [hv, he, hp, hs]; rfl)]
            simp [emitCount]
          | panic value =>
            rw [RunAsyncAnalysis_of_error c projectID projectPath scanType _
              [RunEvent.engineInvoked projectPath, RunEvent.scanPosted]
              (by unfold RunAnalysis; simp only [hv, he, hp, hs]; rfl)]
            simp [emitCount]
        | ok scanID =>
          obtain ⟨data, hd, rest, hr⟩ := (saveScanToDatabase_ok_iff c _ "" scanID).mp hs
          have hrun : RunAnalysis c projectPath projectID ""
              = (Except.ok { buildScan c projectID result with ID := scanID },
                  [RunEvent.engineInvoked projectPath, RunEvent.scanPosted,
                    RunEvent.achievementsChecked]) := by
            unfold RunAnalysis
            simp only [hv, he, hp, hs]
          cases hb : c.postAnalysisResult
              (buildRecord projectID scanType { buildScan c projectID result with ID := scanID }) with
          | error e =>
            have hsub : submitAnalysisToDatabase c
                (buildRecord projectID scanType { buildScan c projectID result with ID := scanID })
                = Except.error ("supabase insertion failed: " ++ e) := by
              unfold submitAnalysisToDatabase
              simp only [hb]
            unfold RunAsyncAnalysis
            simp only [hrun, hsub]
            simp [emitCount]
          | ok body =>
            exact absurd ⟨hv, output, he, result, hp, data, hd, scanID, rest, hr, body, hb⟩ h

/-- When path validation fails, `RunAnalysis` returns an error and the engine is not
invoked. -/
theorem RunAnalysis_invalid_path {σ : Type} (c : Collaborators σ)
    (projectPath projectID userID err : String)
    (h : ValidateProjectPath c.AllowedProjectPaths projectPath = Except.error err) :
    RunAnalysis c projectPath projectID userID
      = (Except.error (RunFailure.error ("invalid project path: " ++ err)), []) := by
  unfold RunAnalysis
  simp only [h]

theorem emitCount_success (path : String) (delivered : Bool) :
    emitCount [RunEvent.engineInvoked path, RunEvent.scanPosted,
      RunEvent.achievementsChecked, RunEvent.resultPosted, RunEvent.reportRequested,
      RunEvent.emitAttempt delivered] = 1 := by
  cases delivered <;> simp [emitCount]

theorem allSucceed_replaceAuxiliary {σ τ : Type} (c : Collaborators σ)
    (report : AnalysisRecord → String → Except String String)
    (supabase : SupabaseClient τ) (db : τ) (receiving : Bool)
    (projectID projectPath scanType : String) :
    AllSucceed (replaceAuxiliary c report supabase db receiving) projectID projectPath scanType
      ↔ AllSucceed c projectID projectPath scanType :=
  Iff.rfl

/-- C23: one run attempts to emit a completion event exactly once when path validation,
engine execution, output parsing, scan persistence and result persistence all
succeed, and not at all otherwise, where success is stated on the outcomes of the
collaborators (for scan persistence: the request is answered, the rows decode and the
first row carries a string id); the outcomes of report rendering, of the achievement
lookups and saves and the readiness of the hub do not change the number of attempts;
and in a successful run the attempt is the last step of the run, made whether or not
the hub takes the message.  Concrete runs are evaluated: one that succeeds although
the report fails and the hub is not receiving, one whose path is rejected, and one
for each way in which the engine, the decoding, the scan request, its rows and the
result request can fail. -/
theorem RunAsyncAnalysis_emit_once {σ : Type} (c : Collaborators σ)
    (projectID projectPath scanType : String) :
    (AllSucceed c projectID projectPath scanType →
      emitCount (RunAsyncAnalysis c projectID projectPath scanType) = 1)
    ∧ (¬ AllSucceed c projectID projectPath scanType →
      emitCount (RunAsyncAnalysis c projectID projectPath scanType) = 0)
    ∧ (∀ (τ : Type) (report : AnalysisRecord → String → Except String String)
        (supabase : SupabaseClient τ) (db : τ) (receiving : Bool),
        emitCount (RunAsyncAnalysis (replaceAuxiliary c report supabase db receiving)
            projectID projectPath scanType)
          = emitCount (RunAsyncAnalysis c projectID projectPath scanType))
    ∧ (AllSucceed c projectID projectPath scanType →
        (RunAsyncAnalysis c projectID projectPath scanType).getLast?
          = some (RunEvent.emitAttempt c.hubReceiving))
    ∧ RunAsyncAnalysis demoCollaborators "p1" "/home/bob/app" "full"
        = [RunEvent.engineInvoked "/home/bob/app", RunEvent.scanPosted,
            RunEvent.achievementsChecked, RunEvent.resultPosted, RunEvent.reportRequested,
            RunEvent.emitAttempt false]
    ∧ RunAsyncAnalysis demoCollaborators "p1" "/etc/passwd" "full" = []
    ∧ RunAsyncAnalysis (failingCollaborators FailingStep.engine) "p1" "/home/bob/app" "full"
        = [RunEvent.engineInvoked "/home/bob/app"]
    ∧ RunAsyncAnalysis (failingCollaborators FailingStep.parse) "p1" "/home/bob/app" "full"
        = [RunEvent.engineInvoked "/home/bob/app"]
    ∧ RunAsyncAnalysis (failingCollaborators FailingStep.scanRequest) "p1" "/home/bob/app"
          "full"
        = [RunEvent.engineInvoked "/home/bob/app", RunEvent.scanPosted]
    ∧ RunAsyncAnalysis (failingCollaborators FailingStep.scanRows) "p1" "/home/bob/app" "full"
        = [RunEvent.engineInvoked "/home/bob/app", RunEvent.scanPosted]
    ∧ RunAsyncAnalysis (failingCollaborators FailingStep.scanNoRow) "p1" "/home/bob/app"
          "full"
        = [RunEvent.engineInvoked "/home/bob/app", RunEvent.scanPosted]
    ∧ RunAsyncAnalysis (failingCollaborators FailingStep.scanId) "p1" "/home/bob/app" "full"
        = [RunEvent.engineInvoked "/home/bob/app", RunEvent.scanPosted]
    ∧ RunAsyncAnalysis (failingCollaborators FailingStep.resultRequest) "p1" "/home/bob/app"
          "full"
        = [RunEvent.engineInvoked "/home/bob/app", RunEvent.scanPosted,
            RunEvent.achievementsChecked, RunEvent.resultPosted] := by
  refine ⟨?_, RunAsyncAnalysis_failure c projectID projectPath scanType, ?_, ?_,
    rfl, rfl, rfl, rfl, rfl, rfl, rfl, rfl, rfl⟩
  · intro h
    rw [RunAsyncAnalysis_success c projectID projectPath scanType h]
    exact emitCount_success _ _
  · intro τ report supabase db receiving
    by_cases h : AllSucceed c projectID projectPath scanType
    · have h' := (allSucceed_replaceAuxiliary c report supabase db receiving
        projectID projectPath scanType).mpr h
      rw [RunAsyncAnalysis_success _ projectID projectPath scanType h',
        RunAsyncAnalysis_success c projectID projectPath scanType h,
        emitCount_success, emitCount_success]
    · have h' : ¬ AllSucceed (replaceAuxiliary c report supabase db receiving)
          projectID projectPath scanType := fun hh =>
        h ((allSucceed_replaceAuxiliary c report supabase db receiving
          projectID projectPath scanType).mp hh)
      rw [RunAsyncAnalysis_failure _ projectID projectPath scanType h',
        RunAsyncAnalysis_failure c projectID projectPath scanType h]
  · intro h
    rw [RunAsyncAnalysis_success c projectID projectPath scanType h]
    rfl

end ElyAnalyzer
